import Mathlib

/-!
# CRUD_assignment front end: a verification development

Shallow embedding of the pure and state-passing parts of the React front end
(`frontend/src`).  JavaScript strings are modelled as lists of characters;
whitespace is the ECMAScript `WhiteSpace ∪ LineTerminator` set, which is what
both `String.prototype.trim` and the regular-expression class `\s` use.
-/

namespace CrudAssignment

/-! ## JavaScript string primitives -/

/-- A JavaScript string, as the list of its characters. -/
abbrev JsString := List Char

/-- ECMAScript `WhiteSpace` or `LineTerminator`: the characters removed by `trim` and matched
by `\s` (TAB, LF, VT, FF, CR, SP, NBSP, the Unicode space separators, LS, PS, BOM). -/
def isJsWhiteSpace (c : Char) : Bool :=
  let n := c.toNat
  n == 9 || n == 10 || n == 11 || n == 12 || n == 13 || n == 32 || n == 0xA0 || n == 0x1680
    || (0x2000 ≤ n && n ≤ 0x200A) || n == 0x2028 || n == 0x2029 || n == 0x202F
    || n == 0x205F || n == 0x3000 || n == 0xFEFF

/-- The method `String.prototype.trimStart`. -/
def trimStart (s : JsString) : JsString := s.dropWhile isJsWhiteSpace

/-- The method `String.prototype.trimEnd`. -/
def trimEnd (s : JsString) : JsString := (s.reverse.dropWhile isJsWhiteSpace).reverse

/-- The method `String.prototype.trim`. -/
def trim (s : JsString) : JsString := trimEnd (trimStart s)

/-- Worker of `splitWs`: scans the string left to right; `cur` is the piece being read
(reversed) and `inWs` tells that the previous character belonged to a separator match. -/
def splitWsAux : List Char → List Char → Bool → List JsString
  | [], cur, _ => [cur.reverse]
  | c :: cs, cur, inWs =>
    if isJsWhiteSpace c then
      if inWs then splitWsAux cs [] true else cur.reverse :: splitWsAux cs [] true
    else splitWsAux cs (c :: cur) false

/-- The call `s.split(/\s+/)`: the pieces of `s` between the maximal runs of whitespace.
A string that starts (ends) with whitespace gives an empty first (last) piece, and the
empty string gives one empty piece. -/
def splitWs (s : JsString) : List JsString := splitWsAux s [] false

/-- The call `pieces.join(sep)`. -/
def jsJoin (sep : JsString) (pieces : List JsString) : JsString := List.intercalate sep pieces

/-- The call `xs.slice(a, b)` for `0 ≤ a ≤ b`. -/
def jsSlice {α : Type} (xs : List α) (a b : Nat) : List α := (xs.take b).drop a

/-! ## JavaScript values read from JSON -/

/-- A value produced by `JSON.parse` (or `response.json()`).  The number
`num mantissa exponent` is `mantissa * 10 ^ exponent`, the decimal that the JSON text
writes. -/
inductive Json where
  | null
  | bool (b : Bool)
  | num (mantissa : Int) (exponent : Int)
  | str (s : JsString)
  | arr (items : List Json)
  | obj (fields : List (JsString × Json))

/-- The conversion `ToBoolean`, as used by `||`, `!` and `if`.  A number is falsy when its
double is a zero, which is when its magnitude is at most `2 ^ (-1075)`. -/
def Json.truthy : Json → Bool
  | .null => false
  | .bool b => b
  | .num m e => decide (10 ^ (-e).toNat < m.natAbs * 10 ^ e.toNat * 2 ^ 1075)
  | .str s => !s.isEmpty
  | .arr _ => true
  | .obj _ => true

/-- The property read `v.key` for a key that is not a built-in property name: `none` when
the read throws a `TypeError` (`v` is `null`), `some none` when it gives `undefined`. -/
def Json.prop (v : Json) (key : JsString) : Option (Option Json) :=
  match v with
  | .null => none
  | .obj fields => some (fields.lookup key)
  | _ => some none

/-- The expression `value || fallback`, for a `value` that may be `undefined` (`none`). -/
def orElse (value : Option Json) (fallback : Json) : Json :=
  match value with
  | some v => if v.truthy then v else fallback
  | none => fallback

/-! ## JavaScript numbers returned by `parseInt` -/

/-- The Number values that `parseInt` can return: `NaN`, `-0`, a finite integer that a
double represents exactly (`+0` is `int 0`), or an infinity. -/
inductive JsNumber where
  | nan
  | negZero
  | int (v : Int)
  | posInf
  | negInf
  deriving DecidableEq, Repr

/-- The Number value of a natural number (ECMAScript 6.1.6.1): the nearest double, ties to
even, where `none` stands for an infinity.  The exponent `e` is the least one with
`m < 2 ^ (53 + e)`; a rounded value of `2 ^ 1024` or more is infinite. -/
def roundToDouble (m : Nat) : Option Nat :=
  match (List.range 972).find? (fun e => decide (m < 2 ^ (53 + e))) with
  | none => none
  | some e =>
    let q := m / 2 ^ e
    let r := m % 2 ^ e
    let q' := if 2 ^ e < 2 * r ∨ (2 * r = 2 ^ e ∧ q % 2 = 1) then q + 1 else q
    if q' * 2 ^ e < 2 ^ 1024 then some (q' * 2 ^ e) else none

/-- The Number value of `sign * m` for `m ≠ 0`. -/
def toNumber (sign : Int) (m : Nat) : JsNumber :=
  match roundToDouble m with
  | some v => .int (sign * v)
  | none => if sign = -1 then .negInf else .posInf

/-- The value of a digit character in `parseInt`: `0-9`, then `a-z` or `A-Z` for 10 to 35. -/
def digitValue (c : Char) : Option Nat :=
  let n := c.toNat
  if 48 ≤ n ∧ n ≤ 57 then some (n - 48)
  else if 97 ≤ n ∧ n ≤ 122 then some (n - 87)
  else if 65 ≤ n ∧ n ≤ 90 then some (n - 55)
  else none

/-- Tells whether `c` is a digit of radix `R`. -/
def isRadixDigit (R : Nat) (c : Char) : Bool :=
  match digitValue c with
  | some d => decide (d < R)
  | none => false

/-- Steps 3-4 of `parseInt`: the sign announced by the first character. -/
def parseSign (S : JsString) : Int := if S.head? = some '-' then -1 else 1

/-- Step 5 of `parseInt`: removes a leading `+` or `-`. -/
def stripSign (S : JsString) : JsString :=
  match S with
  | c :: rest => if c = '+' ∨ c = '-' then rest else S
  | [] => S

/-- Step 10 of `parseInt` for an undefined radix: a leading `0x` or `0X` is removed and
selects radix 16; otherwise the radix is 10. -/
def stripPrefix (S : JsString) : Nat × JsString :=
  match S with
  | c :: d :: rest => if c = '0' ∧ (d = 'x' ∨ d = 'X') then (16, rest) else (10, S)
  | _ => (10, S)

/-- The integer written by the digits `Z` in radix `R`. -/
def digitsValue (R : Nat) (Z : List Char) : Nat :=
  Z.foldl (fun acc c => acc * R + (digitValue c).getD 0) 0

/-- The global function `parseInt(string)` with no radix argument, applied to a string
(ECMAScript 19.2.5), taking the exact integer for a numeral of any length. -/
def parseInt (string : JsString) : JsNumber :=
  let S := trimStart string
  let sign := parseSign S
  let (R, S') := stripPrefix (stripSign S)
  let Z := S'.takeWhile (isRadixDigit R)
  if Z = [] then .nan
  else
    let mathInt := digitsValue R Z
    if mathInt = 0 then (if sign = -1 then .negZero else .int 0)
    else toNumber sign mathInt

/-- The expression `x || 0` on a Number: `NaN`, `+0` and `-0` are falsy. -/
def orZero (x : JsNumber) : JsNumber :=
  match x with
  | .nan => .int 0
  | .negZero => .int 0
  | .int v => if v = 0 then .int 0 else .int v
  | .posInf => .posInf
  | .negInf => .negInf

/-- The expression `parseInt(field) || 0` of `handleSubmit`. -/
def numberField (field : JsString) : JsNumber := orZero (parseInt field)

/-- Tells whether `c` is one of the decimal digits `0` to `9`. -/
def isDecDigit (c : Char) : Bool := decide (48 ≤ c.toNat ∧ c.toNat ≤ 57)

/-- The integer that a decimal numeral denotes (most significant digit first). -/
def decimalValue (ds : List Char) : Nat := Nat.ofDigits 10 (ds.reverse.map (fun c => c.toNat - 48))

/-- Tells whether `c` is a hexadecimal digit: `0-9`, `a-f` or `A-F`. -/
def isHexDigit (c : Char) : Bool :=
  decide ((48 ≤ c.toNat ∧ c.toNat ≤ 57) ∨ (97 ≤ c.toNat ∧ c.toNat ≤ 102) ∨
    (65 ≤ c.toNat ∧ c.toNat ≤ 70))

/-- The value of one hexadecimal digit. -/
def hexDigitValue (c : Char) : Nat :=
  if 48 ≤ c.toNat ∧ c.toNat ≤ 57 then c.toNat - 48
  else if 97 ≤ c.toNat ∧ c.toNat ≤ 102 then c.toNat - 87
  else c.toNat - 55

/-- The integer that a hexadecimal numeral denotes (most significant digit first). -/
def hexValue (hs : List Char) : Nat := Nat.ofDigits 16 (hs.reverse.map hexDigitValue)

/-- A numeral of 310 digits: `1` followed by 309 zeros, the decimal writing of `10 ^ 309`. -/
def hugeNumeral : JsString := '1' :: List.replicate 309 '0'

/-- What `JSON.stringify` writes for a Number: the integer, or `null` (here `none`) for
`NaN` and the infinities. -/
def jsonNumber (x : JsNumber) : Option Int :=
  match x with
  | .int v => some v
  | .negZero => some 0
  | _ => none

/-! ## Callbacks -/

/-- A call of one of the two notification callbacks a component receives as props. -/
inductive Call where
  | onError (title : String) (message : Json)
  | onSuccess (title : String) (message : Json)

/-- Tells whether the call is an `onError` call. -/
def Call.isError : Call → Bool
  | .onError _ _ => true
  | .onSuccess _ _ => false

/-- Tells whether the call is an `onSuccess` call. -/
def Call.isSuccess : Call → Bool
  | .onError _ _ => false
  | .onSuccess _ _ => true

/-! ## EmbeddingService.js: demonstrateChunking -/

/-- One element of `textChunks`. -/
structure Chunk where
  index : Nat
  text : JsString
  wordCount : Nat
  startWord : Nat
  endWord : Nat
  deriving DecidableEq, Repr

/-- The constant `chunkSize`: words per chunk. -/
def chunkSize : Nat := 50

/-- The constant `overlap`: overlapping words. -/
def overlap : Nat := 10

/-- The object pushed by the loop body at loop variable `i`. -/
def mkChunk (words : List JsString) (i : Nat) : Chunk :=
  let chunk := jsJoin [' '] (jsSlice words i (i + chunkSize))
  { index := i / (chunkSize - overlap)
    text := chunk
    wordCount := (splitWs chunk).length
    startWord := i
    endWord := min (i + chunkSize - 1) (words.length - 1) }

/-- The loop `for (let i = 0; i < words.length; i += chunkSize - overlap)`, entered at `i`:
the chunks it pushes from there on. -/
def chunkLoop (words : List JsString) (i : Nat) : List Chunk :=
  if i < words.length then mkChunk words i :: chunkLoop words (i + (chunkSize - overlap))
  else []
termination_by words.length - i
decreasing_by simp only [chunkSize, overlap]; omega

/-- The part of the state of the `EmbeddingService` component that chunking reads and
writes. -/
structure EmbeddingState where
  inputTexts : JsString
  chunks : List Chunk

/-- The function `demonstrateChunking`: the state after the call and the callbacks called,
in order. -/
def demonstrateChunking (st : EmbeddingState) : EmbeddingState × List Call :=
  if trim st.inputTexts = [] then
    (st, [Call.onError "Error" (.str "Please enter some text to demonstrate chunking".toList)])
  else
    let words := splitWs (trim st.inputTexts)
    let textChunks := chunkLoop words 0
    ({ st with chunks := textChunks },
      [Call.onSuccess "Success" (.str
        ("Created ".toList ++ (toString textChunks.length).toList ++ " text chunks".toList))])

/-- A text of 120 words: `w0 w1 ... w119`. -/
def text120 : JsString :=
  jsJoin [' '] ((List.range 120).map (fun n => 'w' :: (toString n).toList))

/-- A text of 45 words: `w0 w1 ... w44`. -/
def text45 : JsString :=
  jsJoin [' '] ((List.range 45).map (fun n => 'w' :: (toString n).toList))

/-! ## ApplicationResultsViewer.js: getRiskLevel -/

/-- The function `getRiskLevel`, on a count of red flags. -/
def getRiskLevel (redFlagsCount : Nat) : String :=
  if redFlagsCount = 0 then "Low Risk"
  else if redFlagsCount ≤ 2 then "Medium Risk"
  else "High Risk"

/-! ## UnderwritingProcessor.js: handleSubmit -/

/-- The state `formData` of the component: the raw content of the form fields. -/
structure FormData where
  applicant_id : JsString
  policy_id : JsString
  lob : JsString
  coverage_type : JsString
  coverage_amount : JsString
  applicant_age : JsString
  prior_claims : JsString
  risk_factors : JsString

/-- The object `application_data` built by `handleSubmit`. -/
structure ApplicationData where
  coverage_type : JsString
  coverage_amount : JsNumber
  applicant_age : JsNumber
  prior_claims : JsNumber
  risk_factors : List JsString

/-- The object passed to `JSON.stringify` as the body of the `process_application` request. -/
structure ProcessRequest where
  applicant_id : JsString
  policy_id : JsString
  lob : JsString
  application_data : ApplicationData

/-- What the request body holds (`v`) for a numeric form field with content `s`: never `NaN`
or `-0`; the integer of the leading decimal numeral, or of the hexadecimal numeral after a
`0x`/`0X` prefix, with the sign applied, when that integer is below `2 ^ 53`; and 0 when the
field, after leading whitespace and an optional sign, does not start with a digit. -/
structure NumberFieldSpec (s : JsString) (v : JsNumber) : Prop where
  not_nan : v ≠ .nan
  not_negZero : v ≠ .negZero
  decimal : ∀ ws sg ds rest : List Char, s = ws ++ sg ++ ds ++ rest →
    (∀ c ∈ ws, isJsWhiteSpace c = true) → (sg = [] ∨ sg = ['+'] ∨ sg = ['-']) →
    ds ≠ [] → (∀ c ∈ ds, isDecDigit c = true) → (∀ c ∈ rest.head?, isDecDigit c = false) →
    ¬ (ds = ['0'] ∧ (rest.head? = some 'x' ∨ rest.head? = some 'X')) →
    decimalValue ds < 2 ^ 53 →
    v = .int ((if sg = ['-'] then -1 else 1) * (decimalValue ds : Int))
  hex : ∀ (ws sg : List Char) (x : Char) (hs rest : List Char),
    s = ws ++ sg ++ '0' :: x :: hs ++ rest →
    (∀ c ∈ ws, isJsWhiteSpace c = true) → (sg = [] ∨ sg = ['+'] ∨ sg = ['-']) →
    (x = 'x' ∨ x = 'X') →
    hs ≠ [] → (∀ c ∈ hs, isHexDigit c = true) → (∀ c ∈ rest.head?, isHexDigit c = false) →
    hexValue hs < 2 ^ 53 →
    v = .int ((if sg = ['-'] then -1 else 1) * (hexValue hs : Int))
  no_number : ∀ ws sg rest : List Char, s = ws ++ sg ++ rest →
    (∀ c ∈ ws, isJsWhiteSpace c = true) → (sg = [] ∨ sg = ['+'] ∨ sg = ['-']) →
    (∀ c ∈ rest.head?, isDecDigit c = false) →
    (sg = [] → ∀ c ∈ rest.head?, isJsWhiteSpace c = false ∧ c ≠ '+' ∧ c ≠ '-') →
    v = .int 0

/-- Worker of `splitChar`: `cur` is the piece being read, reversed. -/
def splitCharAux (sep : Char) : List Char → List Char → List JsString
  | [], cur => [cur.reverse]
  | c :: cs, cur =>
    if c = sep then cur.reverse :: splitCharAux sep cs [] else splitCharAux sep cs (c :: cur)

/-- The call `s.split(sep)` for a one-character separator string. -/
def splitChar (sep : Char) (s : JsString) : List JsString := splitCharAux sep s []

/-- The expression `risk_factors.split(',').map(f => f.trim()).filter(f => f)`. -/
def riskFactors (risk_factors : JsString) : List JsString :=
  ((splitChar ',' risk_factors).map trim).filter (fun f => !f.isEmpty)

/-- The object `application_data` of `handleSubmit`. -/
def applicationData (formData : FormData) : ApplicationData :=
  { coverage_type := formData.coverage_type
    coverage_amount := numberField formData.coverage_amount
    applicant_age := numberField formData.applicant_age
    prior_claims := numberField formData.prior_claims
    risk_factors := riskFactors formData.risk_factors }

/-- The request body of `handleSubmit`, before `JSON.stringify`. -/
def processRequest (formData : FormData) : ProcessRequest :=
  { applicant_id := formData.applicant_id
    policy_id := formData.policy_id
    lob := formData.lob
    application_data := applicationData formData }

/-- A filled form: the placeholders of the form, with a space before the age and no prior
claim count. -/
def sampleForm : FormData :=
  { applicant_id := "APP-12345".toList
    policy_id := "POL-67890".toList
    lob := "auto".toList
    coverage_type := "Full Coverage".toList
    coverage_amount := "500000".toList
    applicant_age := " 35".toList
    prior_claims := []
    risk_factors := "high mileage, urban area, young driver".toList }

/-- The sample form with a coverage amount of 310 digits and an age of 16 digits. -/
def hugeForm : FormData :=
  { sampleForm with
    coverage_amount := hugeNumeral
    applicant_age := "9007199254740993".toList }

/-- An HTTP response as `fetch` resolves it; `body = none` when `response.json()` rejects
(the body is not JSON). -/
structure Response where
  status : Nat
  body : Option Json

/-- The property `response.ok`: the status is in the range 200-299. -/
def Response.ok (r : Response) : Bool := decide (200 ≤ r.status ∧ r.status ≤ 299)

/-- What the network does with one `fetch` call: the promise rejects, or resolves to a
response. -/
inductive FetchResult where
  | rejected
  | resolved (response : Response)

/-- The state of the `UnderwritingProcessor` component; `result = none` is `null`. -/
structure ProcessorState where
  processing : Bool
  explaining : Bool
  result : Option Json
  explanation : Option Json
  selectedFlag : Json
  isOpen : Bool
  formData : FormData

/-- What a handler of `UnderwritingProcessor` did: the state when it finishes, the callbacks
called and the `process_application` bodies sent, in order. -/
structure SubmitOutcome where
  state : ProcessorState
  calls : List Call
  requests : List ProcessRequest

/-- The `try` block of `handleSubmit` after `fetch` has answered, on the state `st` reached
by `setProcessing(true); setResult(null)`: `none` when an exception reaches the `catch`
block, otherwise the state and the callback called. -/
def handleSubmitTry (st : ProcessorState) (net : FetchResult) : Option (ProcessorState × Call) :=
  match net with
  | .rejected => none
  | .resolved response =>
    if response.ok then
      match response.body with
      | none => none
      | some data =>
        some ({ st with result := some data },
          .onSuccess "Success"
            (.str "Application processed successfully through LangGraph workflow".toList))
    else
      match response.body with
      | none => none
      | some errorData =>
        match errorData.prop "error".toList with
        | none => none
        | some error =>
          some (st, .onError "Error" (orElse error (.str "Failed to process application".toList)))

/-- The handler `handleSubmit`, for callbacks that do not throw. -/
def handleSubmit (st : ProcessorState) (net : FetchResult) : SubmitOutcome :=
  let st1 := { st with processing := true, result := none }
  let request := processRequest st.formData
  match handleSubmitTry st1 net with
  | some (st2, call) =>
    { state := { st2 with processing := false }, calls := [call], requests := [request] }
  | none =>
    { state := { st1 with processing := false }
      calls := [.onError "Error" (.str "Network error while processing application".toList)]
      requests := [request] }

/-- The failures of a submission: the request throws, the response is not ok, or parsing
the body throws. -/
def submissionFails (net : FetchResult) : Bool :=
  match net with
  | .rejected => true
  | .resolved response => !response.ok || response.body.isNone

/-! ## Built-in operations taken as parameters -/

/-- Built-in operations of the JavaScript runtime that the components call and that are not
part of the repository.  `jsonParse text` is `JSON.parse(text)`, `none` when it throws;
`toStr v` is the string that a template literal writes for `v` (`none` is `undefined`);
`gtZero v` is the comparison `v > 0` and `leTwo v` the comparison `v <= 2` for a string, an
array or an object `v`; `strictEq a b` is the comparison `a === b` (`none` is `undefined`),
which compares numbers as doubles and arrays and objects by identity. -/
structure Builtins where
  jsonParse : JsString → Option Json
  toStr : Option Json → JsString
  gtZero : Json → Bool
  leTwo : Json → Bool
  strictEq : Option Json → Option Json → Bool

/-- An instance of the built-ins for the examples.  It agrees with the runtime on what the
examples use: the JSON texts `[]` and `{}` and texts that are not JSON, the strings that a
template literal writes for a string, `undefined` and `null`, and the comparison `===` of two
strings and of `undefined` or `null` with anything. -/
def sampleBuiltins : Builtins :=
  { jsonParse := fun text =>
      if text = "[]".toList then some (.arr [])
      else if text = "{}".toList then some (.obj [])
      else none
    toStr := fun v =>
      match v with
      | some (.str s) => s
      | some .null => "null".toList
      | _ => "undefined".toList
    gtZero := fun _ => false
    leTwo := fun _ => false
    strictEq := fun a b =>
      match a, b with
      | some (.str s), some (.str t) => s == t
      | some .null, some .null => true
      | none, none => true
      | _, _ => false }

/-- The comparison `v > 0` for a value `v` that may be `undefined`: `undefined` and `null`
are not above zero, `true` is 1, a number is compared as a double. -/
def gtZero (rt : Builtins) (v : Option Json) : Bool :=
  match v with
  | none => false
  | some .null => false
  | some (.bool b) => b
  | some (.num m e) => decide (0 < m) && (Json.num m e).truthy
  | some w => rt.gtZero w

/-- The property read `v.length`: `none` when the read throws (`v` is `null`), `some none`
when it gives `undefined`.  Arrays and strings have their length, an object has what it
stores under the key `length`. -/
def Json.getLength (v : Json) : Option (Option Json) :=
  match v with
  | .null => none
  | .arr items => some (some (.num items.length 0))
  | .str s => some (some (.num s.length 0))
  | .obj fields => some (fields.lookup "length".toList)
  | _ => some none

/-! ## UnderwritingProcessor.js: explainFlag and the red flags list -/

/-- The object passed to `JSON.stringify` as the body of the `explain_flag` request. -/
structure ExplainRequest where
  application_id : Json
  selected_flag : Json

/-- What `explainFlag` did: the state when it finishes, the callbacks called and the
`explain_flag` bodies sent, in order. -/
structure ExplainOutcome where
  state : ProcessorState
  calls : List Call
  requests : List ExplainRequest

/-- The guard of `explainFlag`, for `!result || !result.application_id` false: the value of
`result.application_id`; `none` when the guard rejects. -/
def explainGuard (result : Option Json) : Option Json :=
  match result with
  | none => none
  | some r =>
    if r.truthy then
      match r.prop "application_id".toList with
      | some (some id) => if id.truthy then some id else none
      | _ => none
    else none

/-- The `try` block of `explainFlag` after `fetch` has answered, on the state `st` reached
by `setExplaining(true); setSelectedFlag(flag)`: `none` when an exception reaches the
`catch` block, otherwise the state and the callbacks called. -/
def explainFlagTry (st : ProcessorState) (net : FetchResult) :
    Option (ProcessorState × List Call) :=
  match net with
  | .rejected => none
  | .resolved response =>
    if response.ok then
      match response.body with
      | none => none
      | some data =>
        match data.prop "explanation".toList with
        | none => none
        | some explanation => some ({ st with explanation := explanation, isOpen := true }, [])
    else
      match response.body with
      | none => none
      | some errorData =>
        match errorData.prop "error".toList with
        | none => none
        | some error =>
          some (st, [.onError "Error" (orElse error (.str "Failed to explain flag".toList))])

/-- The handler `explainFlag(flag)`, for callbacks that do not throw. -/
def explainFlag (st : ProcessorState) (flag : Json) (net : FetchResult) : ExplainOutcome :=
  match explainGuard st.result with
  | none =>
    { state := st
      calls := [.onError "Error" (.str "No application ID available for explanation".toList)]
      requests := [] }
  | some id =>
    let st1 := { st with explaining := true, selectedFlag := flag }
    let request : ExplainRequest := { application_id := id, selected_flag := flag }
    match explainFlagTry st1 net with
    | some (st2, calls) =>
      { state := { st2 with explaining := false }, calls := calls, requests := [request] }
    | none =>
      { state := { st1 with explaining := false }
        calls := [.onError "Error" (.str "Network error while explaining flag".toList)]
        requests := [request] }

/-- A processing result with the application id 7 and two red flags. -/
def sampleResult : Json :=
  .obj [("application_id".toList, .num 7 0),
    ("red_flags".toList, .arr [.str "flag A".toList, .str "flag B".toList])]

/-- The condition `v.length > 0` for a value `v` that is not `null`. -/
def lengthPositive (rt : Builtins) (v : Json) : Bool :=
  match v.getLength with
  | some len => gtZero rt len
  | none => false

/-- The red flags section of the results card, rendered under `result && (...)` and
`result.red_flags && result.red_flags.length > 0 && (...)`: the flags of the Explain
buttons, each with `onClick={() => explainFlag(flag)}`, in the order of the list; `none`
when rendering throws (`result.red_flags.map` is not a function). -/
def explainButtons (rt : Builtins) (result : Option Json) : Option (List Json) :=
  match result with
  | none => some []
  | some r =>
    if r.truthy then
      match r.prop "red_flags".toList with
      | some (some red_flags) =>
        if red_flags.truthy && lengthPositive rt red_flags then
          match red_flags with
          | .arr items => some items
          | _ => none
        else some []
      | _ => some []
    else some []

/-- The `red_flags` list of a processing result: the elements of its `red_flags` array. -/
def redFlagsList (result : Json) : List Json :=
  match result.prop "red_flags".toList with
  | some (some (.arr items)) => items
  | _ => []

/-! ## ApplicationResultsViewer.js: applyFilters -/

/-- The state `filters` of the component: the content of the four filter fields. -/
structure Filters where
  applicant_id : JsString
  policy_id : JsString
  lob : JsString
  status : JsString

/-- The call `Object.entries(filters)`. -/
def Filters.entries (filters : Filters) : List (JsString × JsString) :=
  [("applicant_id".toList, filters.applicant_id), ("policy_id".toList, filters.policy_id),
    ("lob".toList, filters.lob), ("status".toList, filters.status)]

/-- The object `activeFilters` of `applyFilters`, as the list of its entries:
`Object.fromEntries(Object.entries(filters).filter(([_, value]) => value.trim() !== ''))`. -/
def activeFilters (filters : Filters) : List (JsString × JsString) :=
  filters.entries.filter (fun entry => !(trim entry.2).isEmpty)

/-- The GET request of `getApplications`: the URL up to the `?` and the entries of
`new URLSearchParams(filters)` that make the query string. -/
structure ListRequest where
  url : String
  params : List (JsString × JsString)

/-- The request that `underwritingService.getApplications(filters)` sends. -/
def getApplicationsRequest (filters : List (JsString × JsString)) : ListRequest :=
  { url := "http://localhost:8000/api/underwriting/list_applications/", params := filters }

/-- The request that `applyFilters` sends, through `loadApplications(activeFilters)`. -/
def applyFiltersRequest (filters : Filters) : ListRequest :=
  getApplicationsRequest (activeFilters filters)

/-! ## ClaimManager.js, PolicyManager.js, RegulationManager.js: handleSubmit -/

/-- The state `formData` of `ClaimManager`. -/
structure ClaimForm where
  claim_id : JsString
  applicant_id : JsString
  text : JsString
  metadata : JsString

/-- The state `formData` of `PolicyManager`. -/
structure PolicyForm where
  policy_id : JsString
  text : JsString
  metadata : JsString

/-- The state `formData` of `RegulationManager`. -/
structure RegulationForm where
  regulation_id : JsString
  lob : JsString
  text : JsString
  metadata : JsString

/-- The state of a manager component: `items` is the displayed list (`claims`, `policies` or
`regulations`), an array. -/
structure ManagerState (Form : Type) where
  items : List Json
  loading : Bool
  creating : Bool
  showForm : Bool
  formData : Form

/-- A POST request of a manager: its URL and the object passed to `JSON.stringify` as its
body. -/
structure CreateRequest where
  url : String
  body : Json

/-- What `handleSubmit` of a manager did: the state when it finishes, the callbacks called and
the POST requests sent, in order. -/
structure CreateOutcome (Form : Type) where
  state : ManagerState Form
  calls : List Call
  requests : List CreateRequest

/-- What the three `handleSubmit` functions differ by: the URL, the entity name of the success
message, the key of the identifier read from the created item, the two error messages, the
form that `setFormData` installs after a creation, the metadata field and the body object. -/
structure ManagerConfig (Form : Type) where
  url : String
  entity : String
  idKey : String
  failed : String
  network : String
  emptyForm : Form
  metadataOf : Form → JsString
  bodyOf : Form → Json → Json

/-- The constants of `ClaimManager.handleSubmit`. -/
def claimManager : ManagerConfig ClaimForm :=
  { url := "http://localhost:8000/api/claims/"
    entity := "Claim"
    idKey := "claim_id"
    failed := "Failed to create claim"
    network := "Network error while creating claim"
    emptyForm := { claim_id := [], applicant_id := [], text := [], metadata := [] }
    metadataOf := fun formData => formData.metadata
    bodyOf := fun formData metadata =>
      .obj [("claim_id".toList, .str formData.claim_id),
        ("applicant_id".toList, .str formData.applicant_id),
        ("text".toList, .str formData.text), ("metadata".toList, metadata)] }

/-- The constants of `PolicyManager.handleSubmit`. -/
def policyManager : ManagerConfig PolicyForm :=
  { url := "http://localhost:8000/api/policies/"
    entity := "Policy"
    idKey := "policy_id"
    failed := "Failed to create policy"
    network := "Network error while creating policy"
    emptyForm := { policy_id := [], text := [], metadata := [] }
    metadataOf := fun formData => formData.metadata
    bodyOf := fun formData metadata =>
      .obj [("policy_id".toList, .str formData.policy_id),
        ("text".toList, .str formData.text), ("metadata".toList, metadata)] }

/-- The constants of `RegulationManager.handleSubmit`. -/
def regulationManager : ManagerConfig RegulationForm :=
  { url := "http://localhost:8000/api/regulations/"
    entity := "Regulation"
    idKey := "regulation_id"
    failed := "Failed to create regulation"
    network := "Network error while creating regulation"
    emptyForm := { regulation_id := [], lob := [], text := [], metadata := [] }
    metadataOf := fun formData => formData.metadata
    bodyOf := fun formData metadata =>
      .obj [("regulation_id".toList, .str formData.regulation_id),
        ("lob".toList, .str formData.lob),
        ("text".toList, .str formData.text), ("metadata".toList, metadata)] }

/-- The part of the outer `try` block of a manager's `handleSubmit` that follows the answer of
`fetch`, on the state `st` reached by `setCreating(true)`: the state reached, and the callback
called or `none` when an exception reaches the `catch` block. -/
def createTry {Form : Type} (rt : Builtins) (cfg : ManagerConfig Form) (st : ManagerState Form)
    (net : FetchResult) : ManagerState Form × Option Call :=
  match net with
  | .rejected => (st, none)
  | .resolved response =>
    if response.ok then
      match response.body with
      | none => (st, none)
      | some newItem =>
        let st2 :=
          { st with items := st.items ++ [newItem], formData := cfg.emptyForm, showForm := false }
        match newItem.prop cfg.idKey.toList with
        | none => (st2, none)
        | some id =>
          (st2, some (.onSuccess "Success" (.str (cfg.entity.toList ++ " ".toList ++
            rt.toStr id ++ " created successfully".toList))))
    else
      match response.body with
      | none => (st, none)
      | some errorData =>
        match errorData.prop "detail".toList with
        | none => (st, none)
        | some detail => (st, some (.onError "Error" (orElse detail (.str cfg.failed.toList))))

/-- The function `handleSubmit` of a manager, for callbacks that do not throw. -/
def createSubmit {Form : Type} (rt : Builtins) (cfg : ManagerConfig Form)
    (st : ManagerState Form) (net : FetchResult) : CreateOutcome Form :=
  let st1 := { st with creating := true }
  let field := cfg.metadataOf st.formData
  let parsed := if field.isEmpty then some (Json.obj []) else rt.jsonParse field
  match parsed with
  | none =>
    { state := { st1 with creating := false }
      calls := [.onError "Error" (.str "Invalid JSON in metadata field".toList)]
      requests := [] }
  | some metadata =>
    let request : CreateRequest := { url := cfg.url, body := cfg.bodyOf st.formData metadata }
    match createTry rt cfg st1 net with
    | (st2, some call) =>
      { state := { st2 with creating := false }, calls := [call], requests := [request] }
    | (st2, none) =>
      { state := { st2 with creating := false }
        calls := [.onError "Error" (.str cfg.network.toList)]
        requests := [request] }

/-- The function `handleSubmit` of `ClaimManager`. -/
def ClaimManager.handleSubmit (rt : Builtins) (st : ManagerState ClaimForm) (net : FetchResult) :
    CreateOutcome ClaimForm :=
  createSubmit rt claimManager st net

/-- The function `handleSubmit` of `PolicyManager`. -/
def PolicyManager.handleSubmit (rt : Builtins) (st : ManagerState PolicyForm)
    (net : FetchResult) : CreateOutcome PolicyForm :=
  createSubmit rt policyManager st net

/-- The function `handleSubmit` of `RegulationManager`. -/
def RegulationManager.handleSubmit (rt : Builtins) (st : ManagerState RegulationForm)
    (net : FetchResult) : CreateOutcome RegulationForm :=
  createSubmit rt regulationManager st net

/-- Tells whether a JSON value is a mapping (an object). -/
def Json.isMapping : Json → Bool
  | .obj _ => true
  | _ => false

/-! ## EmbeddingService.js: handleGenerateEmbeddings -/

/-- The part of the state of the `EmbeddingService` component that generating embeddings reads
and writes; `embeddings = none` is `null`. -/
structure GenerateState where
  inputTexts : JsString
  loading : Bool
  embeddings : Option Json

/-- The object passed to `JSON.stringify` as the body of the `embeddings` request. -/
structure EmbeddingsRequest where
  model : JsString
  input : List JsString

/-- What `handleGenerateEmbeddings` did: the state when it finishes, the callbacks called and
the `embeddings` bodies sent, in order. -/
structure GenerateOutcome where
  state : GenerateState
  calls : List Call
  requests : List EmbeddingsRequest

/-- The array `textArray`: `inputTexts.split('\n').filter(text => text.trim())`. -/
def textArray (inputTexts : JsString) : List JsString :=
  (splitChar '\n' inputTexts).filter (fun text => !(trim text).isEmpty)

/-- The part of the `try` block of `handleGenerateEmbeddings` that follows the answer of
`fetch`, on the state `st` reached by `setLoading(true)`: the state reached, and the callback
called or `none` when an exception reaches the `catch` block. -/
def generateTry (rt : Builtins) (st : GenerateState) (net : FetchResult) :
    GenerateState × Option Call :=
  match net with
  | .rejected => (st, none)
  | .resolved response =>
    if response.ok then
      match response.body with
      | none => (st, none)
      | some data =>
        let st2 := { st with embeddings := some data }
        match data.prop "embeddings".toList with
        | some (some embeddings) =>
          match embeddings.getLength with
          | some length =>
            (st2, some (.onSuccess "Success" (.str ("Generated ".toList ++ rt.toStr length ++
              " embeddings".toList))))
          | none => (st2, none)
        | _ => (st2, none)
    else
      match response.body with
      | none => (st, none)
      | some errorData =>
        match errorData.prop "error".toList with
        | none => (st, none)
        | some error =>
          (st, some (.onError "Error" (orElse error (.str "Failed to generate embeddings".toList))))

/-- The handler `handleGenerateEmbeddings`, for callbacks that do not throw. -/
def handleGenerateEmbeddings (rt : Builtins) (st : GenerateState) (net : FetchResult) :
    GenerateOutcome :=
  if trim st.inputTexts = [] then
    { state := st
      calls := [.onError "Error" (.str "Please enter some text to generate embeddings".toList)]
      requests := [] }
  else
    let st1 := { st with loading := true }
    let request : EmbeddingsRequest :=
      { model := "embed-model".toList, input := textArray st.inputTexts }
    match generateTry rt st1 net with
    | (st2, some call) =>
      { state := { st2 with loading := false }, calls := [call], requests := [request] }
    | (st2, none) =>
      { state := { st2 with loading := false }
        calls := [.onError "Error" (.str "Network error while generating embeddings".toList)]
        requests := [request] }

/-! ## The line-of-business options -/

/-- The constant `lobOptions` of `UnderwritingProcessor`, as pairs of `value` and `label`. -/
def UnderwritingProcessor.lobOptions : List (String × String) :=
  [("auto", "Auto Insurance"), ("home", "Home Insurance"), ("health", "Health Insurance"),
    ("life", "Life Insurance"), ("commercial", "Commercial Insurance"),
    ("travel", "Travel Insurance")]

/-- The constant `lobOptions` of `RegulationManager`, as pairs of `value` and `label`. -/
def RegulationManager.lobOptions : List (String × String) :=
  [("auto", "Auto Insurance"), ("home", "Home Insurance"), ("health", "Health Insurance"),
    ("life", "Life Insurance"), ("commercial", "Commercial Insurance"),
    ("travel", "Travel Insurance")]

/-- The `option` elements of the line-of-business filter of `ApplicationResultsViewer`, as
pairs of the `value` attribute and the text. -/
def ApplicationResultsViewer.lobFilterOptions : List (String × String) :=
  [("auto", "Auto Insurance"), ("home", "Home Insurance"), ("health", "Health Insurance"),
    ("life", "Life Insurance"), ("commercial", "Commercial Insurance"),
    ("travel", "Travel Insurance")]

/-! ## ApplicationResultsViewer.js: the red flags of the detail view -/

/-- Modelled from the spec: a stored RiskAssessment (spec section 3), which the backend
produces and whose code is not under `src/`: the risk summary, the recommendations and the
ordered red flags. -/
structure RiskAssessment where
  risk_summary : JsString
  recommendations : JsString
  red_flags : List JsString

/-- Modelled from the spec: the field `red_flags_count` of a stored RiskAssessment, which the
spec gives as the length of `red_flags`; the backend code that computes it is not under
`src/`. -/
def RiskAssessment.red_flags_count (a : RiskAssessment) : Nat := a.red_flags.length

/-- Modelled from the spec: the object `risk_assessment` of the `get_application_details`
response (spec section 6), which the backend builds from a stored RiskAssessment; its code is
not under `src/`. -/
def RiskAssessment.toJson (a : RiskAssessment) : Json :=
  .obj [("risk_summary".toList, .str a.risk_summary),
    ("recommendations".toList, .str a.recommendations),
    ("red_flags".toList, .arr (a.red_flags.map Json.str)),
    ("red_flags_count".toList, .num a.red_flags_count 0)]

/-- What the Red Flags section of the detail view shows: the value written in the heading
`Red Flags (...)` (`none` is `undefined`) and the flags listed under it. -/
structure RedFlagsSection where
  count : Option Json
  flags : List Json

/-- The Red Flags section of the detail view, rendered under `selectedApplication && (...)`
and `selectedApplication.risk_assessment?.red_flags &&
selectedApplication.risk_assessment.red_flags.length > 0 && (...)`: `some none` when the
section is not rendered, `none` when rendering throws (`red_flags.map` is not a function). -/
def redFlagsSection (rt : Builtins) (selectedApplication : Json) :
    Option (Option RedFlagsSection) :=
  if selectedApplication.truthy then
    match selectedApplication.prop "risk_assessment".toList with
    | some (some risk_assessment) =>
      match risk_assessment.prop "red_flags".toList with
      | some (some red_flags) =>
        if red_flags.truthy && lengthPositive rt red_flags then
          match red_flags, risk_assessment.prop "red_flags_count".toList with
          | .arr items, some count => some (some { count := count, flags := items })
          | _, _ => none
        else some none
      | _ => some none
    | _ => some none
  else some none

/-- A stored assessment with two red flags. -/
def sampleAssessment : RiskAssessment :=
  { risk_summary := "summary".toList
    recommendations := "recommendations".toList
    red_flags := ["flag A".toList, "flag B".toList] }

/-! ## The pipeline run -/

/-- Modelled from the spec: the states of the PipelineController state machine (spec section
4.6); the controller is backend code that is not under `src/`. -/
inductive PipelineState where
  | submitted
  | fetching
  | retrieving
  | analyzing
  | processed
  | failed
  deriving DecidableEq, Repr

/-- Modelled from the spec: the `status` of an Application (spec section 3), pending or
processed; the backend code that stores it is not under `src/`. -/
inductive AppStatus where
  | pending
  | processed
  deriving DecidableEq, Repr

/-- Modelled from the spec: a point of a pipeline run, the state of the PipelineController
with the status of the Application it runs for; the controller is not under `src/`. -/
structure PipelineRun where
  state : PipelineState
  status : AppStatus
  deriving DecidableEq, Repr

/-- Modelled from the spec: one transition of the PipelineController (spec section 4.6),
whose code is not under `src/`.  `ok` tells whether the step of the current state succeeded:
`Submitted → Fetching → Embedding/Retrieving → Analyzing → Processed` on success, where the
last transition flips the status to processed; any failing step leads to `Failed` and leaves
the status as it is; `Processed` and `Failed` are terminal. -/
def pipelineStep (ok : Bool) (run : PipelineRun) : PipelineRun :=
  match run.state with
  | .submitted => if ok then { run with state := .fetching } else { run with state := .failed }
  | .fetching => if ok then { run with state := .retrieving } else { run with state := .failed }
  | .retrieving => if ok then { run with state := .analyzing } else { run with state := .failed }
  | .analyzing =>
    if ok then { state := .processed, status := .processed } else { run with state := .failed }
  | .processed => run
  | .failed => run

/-- Modelled from the spec: the points a pipeline run goes through from `run`, for the
outcomes `oks` of its successive steps (the PipelineController is not under `src/`). -/
def pipelineTrace (run : PipelineRun) : List Bool → List PipelineRun
  | [] => [run]
  | ok :: oks => run :: pipelineTrace (pipelineStep ok run) oks

/-- The number of changes of the status from pending to processed along a trace. -/
def statusFlips : List PipelineRun → Nat
  | a :: b :: rest =>
    (if a.status = .pending ∧ b.status = .processed then 1 else 0) + statusFlips (b :: rest)
  | _ => 0

/-- The number of changes of the status from processed to pending along a trace. -/
def statusReverts : List PipelineRun → Nat
  | a :: b :: rest =>
    (if a.status = .processed ∧ b.status = .pending then 1 else 0) + statusReverts (b :: rest)
  | _ => 0

/-- The last point of a run from `run` with the step outcomes `oks`. -/
def pipelineEnd (run : PipelineRun) (oks : List Bool) : PipelineRun :=
  oks.foldl (fun r ok => pipelineStep ok r) run

/-! ## ApplicationResultsViewer.js: the risk badge of an application card -/

/-- The function `getRiskBadgeColor`, on a count of red flags. -/
def getRiskBadgeColor (redFlagsCount : Nat) : String :=
  if redFlagsCount = 0 then "green"
  else if redFlagsCount ≤ 2 then "yellow"
  else "red"

/-- The test `v === 0` on a JSON value: true for a number whose double is a zero. -/
def strictZero (v : Json) : Bool :=
  match v with
  | .num m e => !(Json.num m e).truthy
  | _ => false

/-- The test `v <= 2` on a JSON value: `null` is 0 and a boolean is 0 or 1; the double of a
number is at most 2 when the number is at most `2 + 2 ^ (-52)`, half way to the next
double. -/
def leTwo (rt : Builtins) (v : Json) : Bool :=
  match v with
  | .null => true
  | .bool _ => true
  | .num m e => decide (m * 10 ^ e.toNat * 2 ^ 52 ≤ (2 ^ 53 + 1) * 10 ^ (-e).toNat)
  | w => rt.leTwo w

/-- The function `getRiskBadgeColor`, on an arbitrary value. -/
def getRiskBadgeColorOf (rt : Builtins) (redFlagsCount : Json) : String :=
  if strictZero redFlagsCount then "green"
  else if leTwo rt redFlagsCount then "yellow"
  else "red"

/-- The function `getRiskLevel`, on an arbitrary value. -/
def getRiskLevelOf (rt : Builtins) (redFlagsCount : Json) : String :=
  if strictZero redFlagsCount then "Low Risk"
  else if leTwo rt redFlagsCount then "Medium Risk"
  else "High Risk"

/-- The expression `app.summary?.red_flags_count || 0` of an application card: `none` when
reading `app.summary` throws (`app` is `null`). -/
def cardFlagCount (app : Json) : Option Json :=
  match app.prop "summary".toList with
  | none => none
  | some none => some (.num 0 0)
  | some (some summary) =>
    match summary.prop "red_flags_count".toList with
    | none => some (.num 0 0)
    | some count => some (orElse count (.num 0 0))

/-- The risk part of an application card: the colour scheme and the text of the risk badge
and the value written after 'Red Flags:'. -/
structure CardRisk where
  colorScheme : String
  level : String
  redFlags : Json

/-- The risk part of the card that the list view renders for `app`: `none` when rendering
throws. -/
def applicationCardRisk (rt : Builtins) (app : Json) : Option CardRisk :=
  match cardFlagCount app with
  | none => none
  | some count =>
    some { colorScheme := getRiskBadgeColorOf rt count
           level := getRiskLevelOf rt count
           redFlags := count }

/-! ## underwritingService.js -/

/-- The error with which an operation of `underwritingService` rejects: the rejection of
`fetch`, the `Error` thrown for a response that is not ok, with its message, or the rejection
of `response.json()`. -/
inductive ServiceError where
  | network
  | http (message : JsString)
  | parse

/-- A request of `underwritingService` other than the list request: the URL, the method and
the object passed to `JSON.stringify` as the body, if any. -/
structure ServiceRequest where
  url : JsString
  method : String
  body : Option Json

/-- The constant `BASE_URL`. -/
def BASE_URL : JsString := "http://localhost:8000/api/underwriting".toList

/-- What every operation of `underwritingService` does with the answer of `fetch`:
`if (!response.ok) throw new Error('HTTP error! status: ' + response.status)` and then
`return response.json()`. -/
def serviceResult (net : FetchResult) : Except ServiceError Json :=
  match net with
  | .rejected => .error .network
  | .resolved response =>
    if !response.ok then
      .error (.http ("HTTP error! status: ".toList ++ (toString response.status).toList))
    else
      match response.body with
      | some data => .ok data
      | none => .error .parse

/-- The operation `getApplications(filters)`: the request sent and the outcome. -/
def underwritingService.getApplications (filters : List (JsString × JsString))
    (net : FetchResult) : ListRequest × Except ServiceError Json :=
  (getApplicationsRequest filters, serviceResult net)

/-- The operation `getApplicationDetails(applicationId)`: the request sent and the outcome. -/
def underwritingService.getApplicationDetails (rt : Builtins) (applicationId : Option Json)
    (net : FetchResult) : ServiceRequest × Except ServiceError Json :=
  ({ url := BASE_URL ++ "/get_application_details/?application_id=".toList ++
        rt.toStr applicationId
     method := "GET", body := none }, serviceResult net)

/-- The operation `getDashboardOverview()`: the request sent and the outcome. -/
def underwritingService.getDashboardOverview (net : FetchResult) :
    ServiceRequest × Except ServiceError Json :=
  ({ url := BASE_URL ++ "/dashboard_overview/".toList, method := "GET", body := none },
    serviceResult net)

/-- The operation `processApplication(applicationData)`: the request sent and the outcome. -/
def underwritingService.processApplication (applicationData : Json) (net : FetchResult) :
    ServiceRequest × Except ServiceError Json :=
  ({ url := BASE_URL ++ "/process_application/".toList, method := "POST"
     body := some applicationData }, serviceResult net)

/-- The operation `explainFlag(applicationId, selectedFlag)`: the request sent and the
outcome. -/
def underwritingService.explainFlag (applicationId selectedFlag : Json) (net : FetchResult) :
    ServiceRequest × Except ServiceError Json :=
  ({ url := BASE_URL ++ "/explain_flag/".toList, method := "POST"
     body := some (.obj [("application_id".toList, applicationId),
       ("selected_flag".toList, selectedFlag)]) }, serviceResult net)

/-- The operation `generateEmbeddings(inputTexts, model = 'embed-model')`: the request sent
and the outcome; `model = none` is an omitted argument. -/
def underwritingService.generateEmbeddings (inputTexts : Json) (model : Option Json)
    (net : FetchResult) : ServiceRequest × Except ServiceError Json :=
  ({ url := BASE_URL ++ "/embeddings/".toList, method := "POST"
     body := some (.obj [("model".toList, model.getD (.str "embed-model".toList)),
       ("input".toList, inputTexts)]) }, serviceResult net)

/-! ## ClaimManager.js, PolicyManager.js, RegulationManager.js: the delete handlers -/

/-- What the three delete handlers differ by: the URL of the collection and the three
messages. -/
structure DeleteConfig where
  url : String
  deleted : String
  failed : String
  network : String

/-- The constants of `deleteClaim`. -/
def claimDelete : DeleteConfig :=
  { url := "http://localhost:8000/api/claims/"
    deleted := "Claim deleted successfully"
    failed := "Failed to delete claim"
    network := "Network error while deleting claim" }

/-- The constants of `deletePolicy`. -/
def policyDelete : DeleteConfig :=
  { url := "http://localhost:8000/api/policies/"
    deleted := "Policy deleted successfully"
    failed := "Failed to delete policy"
    network := "Network error while deleting policy" }

/-- The constants of `deleteRegulation`. -/
def regulationDelete : DeleteConfig :=
  { url := "http://localhost:8000/api/regulations/"
    deleted := "Regulation deleted successfully"
    failed := "Failed to delete regulation"
    network := "Network error while deleting regulation" }

/-- The call `items.filter(item => item.id !== target)`: `none` when reading `item.id` throws
(an item is `null`). -/
def filterOthers (rt : Builtins) (target : Option Json) : List Json → Option (List Json)
  | [] => some []
  | item :: rest =>
    match item.prop "id".toList with
    | none => none
    | some id =>
      match filterOthers rt target rest with
      | none => none
      | some kept => if rt.strictEq id target then some kept else some (item :: kept)

/-- What a delete handler did: the state when it finishes, the callbacks called and the URLs
of the DELETE requests sent, in order. -/
structure DeleteOutcome (Form : Type) where
  state : ManagerState Form
  calls : List Call
  requests : List JsString

/-- A delete handler of a manager, called with the identifier `target` (`none` is
`undefined`), for callbacks that do not throw. -/
def deleteItem {Form : Type} (rt : Builtins) (cfg : DeleteConfig) (st : ManagerState Form)
    (target : Option Json) (net : FetchResult) : DeleteOutcome Form :=
  let request := cfg.url.toList ++ rt.toStr target ++ "/".toList
  match net with
  | .rejected =>
    { state := st, calls := [.onError "Error" (.str cfg.network.toList)], requests := [request] }
  | .resolved response =>
    if response.ok then
      match filterOthers rt target st.items with
      | some kept =>
        { state := { st with items := kept }
          calls := [.onSuccess "Success" (.str cfg.deleted.toList)]
          requests := [request] }
      | none =>
        { state := st, calls := [.onError "Error" (.str cfg.network.toList)]
          requests := [request] }
    else
      { state := st, calls := [.onError "Error" (.str cfg.failed.toList)], requests := [request] }

/-- The handler `deleteClaim(claimId)`. -/
def deleteClaim (rt : Builtins) (st : ManagerState ClaimForm) (claimId : Option Json)
    (net : FetchResult) : DeleteOutcome ClaimForm :=
  deleteItem rt claimDelete st claimId net

/-- The handler `deletePolicy(policyId)`. -/
def deletePolicy (rt : Builtins) (st : ManagerState PolicyForm) (policyId : Option Json)
    (net : FetchResult) : DeleteOutcome PolicyForm :=
  deleteItem rt policyDelete st policyId net

/-- The handler `deleteRegulation(regulationId)`. -/
def deleteRegulation (rt : Builtins) (st : ManagerState RegulationForm)
    (regulationId : Option Json) (net : FetchResult) : DeleteOutcome RegulationForm :=
  deleteItem rt regulationDelete st regulationId net

/-- The identifier `item.id` of an item that is not `null` (`none` is `undefined`). -/
def itemId (item : Json) : Option Json :=
  match item.prop "id".toList with
  | some id => id
  | none => none

/-! ## RegulationManager.js: getLobBadgeColor -/

/-- What `getLobBadgeColor` returns: a colour name, or the value that the object `colors`
inherits from `Object.prototype` under a key (a function, or the prototype itself for
`__proto__`). -/
inductive BadgeColor where
  | color (name : String)
  | inherited (key : JsString)
  deriving DecidableEq, Repr

/-- The own properties of the object `colors`. -/
def lobColors : List (JsString × String) :=
  [("auto".toList, "blue"), ("home".toList, "green"), ("health".toList, "red"),
    ("life".toList, "purple"), ("commercial".toList, "orange"), ("travel".toList, "teal")]

/-- The names of the properties of `Object.prototype`, which every object literal inherits
(ECMAScript 20.1.3 and B.2.2). -/
def objectPrototypeKeys : List JsString :=
  ["constructor".toList, "__defineGetter__".toList, "__defineSetter__".toList,
    "hasOwnProperty".toList, "__lookupGetter__".toList, "__lookupSetter__".toList,
    "isPrototypeOf".toList, "propertyIsEnumerable".toList, "toString".toList,
    "valueOf".toList, "__proto__".toList, "toLocaleString".toList]

/-- The function `getLobBadgeColor`, on a string: `colors[lob] || 'gray'`, where `colors[lob]`
is the own property, else the inherited one, else `undefined`; the colour names and the
inherited values are all truthy. -/
def getLobBadgeColor (lob : JsString) : BadgeColor :=
  match lobColors.lookup lob with
  | some name => .color name
  | none => if lob ∈ objectPrototypeKeys then .inherited lob else .color "gray"

/-! ## apiMonitor.js -/

/-- The object `callInfo` that `monitorApiCall` logs. -/
structure CallInfo where
  id : Nat
  url : JsString
  method : JsString
  timestamp : JsString
  component : JsString
  deriving DecidableEq, Repr

/-- The module state of `apiMonitor.js`. -/
structure MonitorState where
  apiCallCount : Nat
  apiCallLog : List CallInfo
  deriving DecidableEq, Repr

/-- The module state when the module is loaded. -/
def MonitorState.initial : MonitorState := { apiCallCount := 0, apiCallLog := [] }

/-- The function `monitorApiCall(url, method = 'GET')`: the state after the call and the
value returned.  `method = none` is an omitted argument, `now` is what
`new Date().toISOString()` gives and `title` is `document.title`. -/
def monitorApiCall (st : MonitorState) (url : JsString) (method : Option JsString)
    (now title : JsString) : MonitorState × CallInfo :=
  let apiCallCount := st.apiCallCount + 1
  let callInfo : CallInfo :=
    { id := apiCallCount
      url := url
      method := method.getD "GET".toList
      timestamp := now
      component := if title.isEmpty then "Unknown".toList else title }
  ({ apiCallCount := apiCallCount, apiCallLog := st.apiCallLog ++ [callInfo] }, callInfo)

/-- The function `resetApiCallLog`. -/
def resetApiCallLog (_st : MonitorState) : MonitorState :=
  { apiCallCount := 0, apiCallLog := [] }

/-- A call of one of the two functions that change the module state. -/
inductive MonitorOp where
  | monitor (url : JsString) (method : Option JsString) (now title : JsString)
  | reset

/-- The state after one call. -/
def MonitorOp.apply (st : MonitorState) : MonitorOp → MonitorState
  | .monitor url method now title => (monitorApiCall st url method now title).1
  | .reset => resetApiCallLog st

/-- The state after a sequence of calls, from the state `st`. -/
def runMonitor (st : MonitorState) (ops : List MonitorOp) : MonitorState :=
  ops.foldl MonitorOp.apply st

/-- The elements of `[...new Set(xs)]`: the values of `xs` without repetition, in the order
of their first occurrence. -/
def setElements (xs : List JsString) : List JsString :=
  xs.foldl (fun acc x => if x ∈ acc then acc else acc ++ [x]) []

/-- The object `stats` that `getApiCallStats` returns. -/
structure ApiCallStats where
  totalCalls : Nat
  uniqueUrls : Nat
  duplicateCalls : Int
  recentCalls : List CallInfo

/-- The key `url-method` by which `getApiCallStats` tells the calls apart. -/
def callKey (call : CallInfo) : JsString := call.url ++ "-".toList ++ call.method

/-- The function `getApiCallStats`. -/
def getApiCallStats (st : MonitorState) : ApiCallStats :=
  { totalCalls := st.apiCallCount
    uniqueUrls := (setElements (st.apiCallLog.map (fun call => call.url))).length
    duplicateCalls :=
      (st.apiCallLog.length : Int) - ((setElements (st.apiCallLog.map callKey)).length : Int)
    recentCalls := st.apiCallLog.drop (st.apiCallLog.length - 10) }

/-! ## Retrieval (RetrievalOrchestrator) -/

/-- Modelled from the spec: a chunk of an input document, with the position of its document
among the input documents and its index among the chunks of that document. -/
structure RetrievalChunk where
  document : Nat
  index : Nat
  text : JsString
  deriving DecidableEq, Repr

/-- Modelled from the spec: the capabilities that `retrieve` consumes.  `chunk` is the Chunker
in its production regime; `similarity application text` is the cosine similarity of the
vector that the Embedder gives for `text` to the vector of the query string built from
`application`, taken as an exact rational number. -/
structure RetrievalEnv where
  chunk : JsString → List JsString
  similarity : Json → JsString → ℚ

/-- Modelled from the spec: the chunks of the documents from position `d` on, every document
chunked, in the order of the documents and, within a document, of the chunks. -/
def chunksFrom (env : RetrievalEnv) (d : Nat) : List JsString → List RetrievalChunk
  | [] => []
  | doc :: rest =>
    (env.chunk doc).enum.map (fun p => { document := d, index := p.1, text := p.2 })
      ++ chunksFrom env (d + 1) rest

/-- Modelled from the spec: all the chunks of the input documents. -/
def allChunks (env : RetrievalEnv) (documents : List JsString) : List RetrievalChunk :=
  chunksFrom env 0 documents

/-- Modelled from the spec: `ranksBefore env application c d` holds when the chunk `c` is
ranked no later than `d`: by descending similarity, ties broken by the order of the
documents and then by the index of the chunk. -/
def ranksBefore (env : RetrievalEnv) (application : Json) (c d : RetrievalChunk) : Prop :=
  env.similarity application d.text < env.similarity application c.text ∨
    (env.similarity application c.text = env.similarity application d.text ∧
      (c.document < d.document ∨ (c.document = d.document ∧ c.index ≤ d.index)))

instance ranksBefore.decidable (env : RetrievalEnv) (application : Json) :
    DecidableRel (ranksBefore env application) :=
  fun c d => by unfold ranksBefore; exact inferInstance

/-- Modelled from the spec: the ranking of all the chunks of the documents. -/
def rankChunks (env : RetrievalEnv) (application : Json) (documents : List JsString) :
    List RetrievalChunk :=
  (allChunks env documents).insertionSort (ranksBefore env application)

/-- Modelled from the spec: `retrieve(application, documents, top_k)`, the first `top_k`
chunks of the ranking, each with its similarity score. -/
def retrieve (env : RetrievalEnv) (application : Json) (documents : List JsString)
    (top_k : Nat) : List (RetrievalChunk × ℚ) :=
  ((rankChunks env application documents).take top_k).map
    (fun c => (c, env.similarity application c.text))

/-- Modelled from the spec: `outranks env application c d` holds when the chunk `c` is ranked
strictly before the chunk `d` of another position. -/
def outranks (env : RetrievalEnv) (application : Json) (c d : RetrievalChunk) : Prop :=
  env.similarity application d.text < env.similarity application c.text ∨
    (env.similarity application c.text = env.similarity application d.text ∧
      (c.document < d.document ∨ (c.document = d.document ∧ c.index < d.index)))

/-- A chunker and a similarity for the examples: the chunks of a document are its lines,
and the similarity of a chunk is 1 when it has four characters and 0 otherwise. -/
def sampleRetrievalEnv : RetrievalEnv :=
  { chunk := fun doc => splitChar '\n' doc
    similarity := fun _ text => if text.length = 4 then 1 else 0 }

/-- The side condition under which a split has no empty piece. -/
def SplitGuard (s cur : List Char) (b : Bool) : Prop :=
  (s = [] → cur ≠ []) ∧ (∀ h : s ≠ [], isJsWhiteSpace (s.getLast h) = false) ∧
    (∀ c ∈ s.head?, isJsWhiteSpace c = true → cur ≠ [] ∨ b = true)

/-! ## Lemmas on the string primitives -/

theorem splitWsAux_ne_nil (s cur : List Char) (b : Bool) : splitWsAux s cur b ≠ [] := by
  induction s generalizing cur b with
  | nil => simp [splitWsAux]
  | cons c cs ih =>
    unfold splitWsAux
    split
    · split
      · exact ih _ _
      · simp
    · exact ih _ _

theorem splitWs_length_pos (s : JsString) : 1 ≤ (splitWs s).length := by
  have h := splitWsAux_ne_nil s [] false
  unfold splitWs
  exact List.length_pos.mpr h

/-- No piece of a split contains whitespace. -/
theorem splitWsAux_no_ws (s cur : List Char) (b : Bool)
    (hcur : ∀ c ∈ cur, isJsWhiteSpace c = false) :
    ∀ p ∈ splitWsAux s cur b, ∀ c ∈ p, isJsWhiteSpace c = false := by
  induction s generalizing cur b with
  | nil =>
    intro p hp c hc
    simp only [splitWsAux, List.mem_singleton] at hp
    subst hp
    exact hcur c (List.mem_reverse.mp hc)
  | cons a cs ih =>
    intro p hp
    unfold splitWsAux at hp
    by_cases ha : isJsWhiteSpace a = true
    · rw [if_pos ha] at hp
      cases b with
      | true =>
        simp only [if_true] at hp
        exact ih [] true (by simp) p hp
      | false =>
        simp only [Bool.false_eq_true, if_false, List.mem_cons] at hp
        rcases hp with rfl | hp
        · intro c hc
          exact hcur c (List.mem_reverse.mp hc)
        · exact ih [] true (by simp) p hp
    · rw [if_neg ha] at hp
      refine ih (a :: cur) false ?_ p hp
      intro c hc
      rcases List.mem_cons.mp hc with rfl | hc
      · simpa using ha
      · exact hcur c hc

theorem splitWsAux_nonempty (s cur : List Char) (b : Bool) (h : SplitGuard s cur b) :
    ∀ p ∈ splitWsAux s cur b, p ≠ [] := by
  induction s generalizing cur b with
  | nil =>
    intro p hp
    simp only [splitWsAux, List.mem_singleton] at hp
    subst hp
    simpa using h.1 rfl
  | cons a cs ih =>
    obtain ⟨_, hlast, hhead⟩ := h
    intro p hp
    unfold splitWsAux at hp
    have hlast1 : cs = [] → isJsWhiteSpace a = false := by
      intro hcs0
      subst hcs0
      simpa using hlast (by simp)
    by_cases ha : isJsWhiteSpace a = true
    · rw [if_pos ha] at hp
      have hcb := hhead a (by simp) ha
      cases b with
      | true =>
        simp only [if_true] at hp
        have hne : cs ≠ [] := fun h0 => by rw [hlast1 h0] at ha; exact absurd ha (by simp)
        refine ih [] true ⟨fun h0 => absurd h0 hne, ?_, fun _ _ _ => Or.inr rfl⟩ p hp
        intro hne'
        have := hlast (by simp)
        rwa [List.getLast_cons hne'] at this
      | false =>
        simp only [Bool.false_eq_true, if_false, List.mem_cons] at hp
        have hcur : cur ≠ [] := by
          rcases hcb with h1 | h1
          · exact h1
          · exact absurd h1 (by simp)
        rcases hp with rfl | hp
        · simpa using hcur
        · have hne : cs ≠ [] := fun h0 => by rw [hlast1 h0] at ha; exact absurd ha (by simp)
          refine ih [] true ⟨fun h0 => absurd h0 hne, ?_, fun _ _ _ => Or.inr rfl⟩ p hp
          intro hne'
          have := hlast (by simp)
          rwa [List.getLast_cons hne'] at this
    · rw [if_neg ha] at hp
      refine ih (a :: cur) false ⟨fun _ => by simp, ?_, fun _ _ _ => Or.inl (by simp)⟩ p hp
      intro hne'
      have := hlast (by simp)
      rwa [List.getLast_cons hne'] at this

theorem trim_eq_rdropWhile (s : JsString) :
    trim s = (s.dropWhile isJsWhiteSpace).rdropWhile isJsWhiteSpace := rfl

/-- A non-blank trimmed string neither starts nor ends with whitespace. -/
theorem splitGuard_trim (s : JsString) (h : trim s ≠ []) : SplitGuard (trim s) [] false := by
  refine ⟨fun h0 => absurd h0 h, ?_, ?_⟩
  · intro hne
    have := List.rdropWhile_last_not isJsWhiteSpace (s.dropWhile isJsWhiteSpace) hne
    simpa [trim_eq_rdropWhile] using this
  · intro c hc hws
    exfalso
    have hpre := List.rdropWhile_prefix isJsWhiteSpace (s.dropWhile isJsWhiteSpace)
    rw [← trim_eq_rdropWhile] at hpre
    have hd : (s.dropWhile isJsWhiteSpace) ≠ [] := by
      intro h0
      rw [h0] at hpre
      exact h (List.prefix_nil.mp hpre)
    have h1 := hpre.head h
    have h2 := List.head_dropWhile_not isJsWhiteSpace s hd
    have h3 : (trim s).head h = c := by
      rw [List.head?_eq_head h] at hc
      simpa using hc
    rw [← h1, h3, hws] at h2
    exact absurd h2 (by simp)

/-- The words of a non-blank text: none is empty and none contains whitespace. -/
theorem words_wf (s : JsString) (h : trim s ≠ []) :
    ∀ w ∈ splitWs (trim s), w ≠ [] ∧ ∀ c ∈ w, isJsWhiteSpace c = false := by
  intro w hw
  exact ⟨splitWsAux_nonempty _ _ _ (splitGuard_trim s h) w hw,
    splitWsAux_no_ws _ [] false (by simp) w hw⟩

theorem splitWsAux_append_word (w r cur : List Char)
    (hw : ∀ c ∈ w, isJsWhiteSpace c = false) :
    splitWsAux (w ++ r) cur false = splitWsAux r (w.reverse ++ cur) false := by
  induction w generalizing cur with
  | nil => simp
  | cons a w ih =>
    have ha : isJsWhiteSpace a = false := hw a (by simp)
    have hw' : ∀ c ∈ w, isJsWhiteSpace c = false := fun c hc => hw c (by simp [hc])
    have step : splitWsAux (a :: (w ++ r)) cur false = splitWsAux (w ++ r) (a :: cur) false := by
      simp [splitWsAux, ha]
    rw [List.cons_append, step, ih _ hw']
    simp

theorem splitWsAux_append_word_ne (w r cur : List Char) (b : Bool) (hne : w ≠ [])
    (hw : ∀ c ∈ w, isJsWhiteSpace c = false) :
    splitWsAux (w ++ r) cur b = splitWsAux r (w.reverse ++ cur) false := by
  cases w with
  | nil => exact absurd rfl hne
  | cons a w =>
    have ha : isJsWhiteSpace a = false := hw a (by simp)
    have hw' : ∀ c ∈ w, isJsWhiteSpace c = false := fun c hc => hw c (by simp [hc])
    have step : splitWsAux (a :: (w ++ r)) cur b = splitWsAux (w ++ r) (a :: cur) false := by
      simp [splitWsAux, ha]
    rw [List.cons_append, step, splitWsAux_append_word _ _ _ hw']
    simp

/-- Splitting the join of whitespace-free non-empty words gives the words back. -/
theorem splitWsAux_join (w : JsString) (ws : List JsString) (b : Bool)
    (h : ∀ x ∈ w :: ws, x ≠ [] ∧ ∀ c ∈ x, isJsWhiteSpace c = false) :
    splitWsAux (jsJoin [' '] (w :: ws)) [] b = w :: ws := by
  induction ws generalizing w b with
  | nil =>
    have hw := h w (by simp)
    have : jsJoin [' '] [w] = w ++ [] := by simp [jsJoin, List.intercalate]
    rw [this, splitWsAux_append_word_ne _ _ _ _ hw.1 hw.2]
    simp [splitWsAux]
  | cons w' ws ih =>
    have hw := h w (by simp)
    have : jsJoin [' '] (w :: w' :: ws) = w ++ (' ' :: jsJoin [' '] (w' :: ws)) := by
      simp [jsJoin, List.intercalate]
    rw [this, splitWsAux_append_word_ne _ _ _ _ hw.1 hw.2]
    have hsp : isJsWhiteSpace ' ' = true := by decide
    simp only [splitWsAux, hsp, if_true, Bool.false_eq_true, if_false, List.append_nil,
      List.reverse_reverse]
    rw [ih w' true (fun x hx => h x (by simp [List.mem_cons] at hx ⊢; tauto))]

theorem splitWs_join (ws : List JsString) (hne : ws ≠ [])
    (h : ∀ x ∈ ws, x ≠ [] ∧ ∀ c ∈ x, isJsWhiteSpace c = false) :
    splitWs (jsJoin [' '] ws) = ws := by
  cases ws with
  | nil => exact absurd rfl hne
  | cons w ws => exact splitWsAux_join w ws false h

/-! ## Lemmas on the chunking loop -/

/-- The chunk at position `k` of the loop entered at `i`. -/
theorem chunkLoop_getElem? (words : List JsString) (i k : Nat) :
    (chunkLoop words i)[k]? =
      if i + 40 * k < words.length then some (mkChunk words (i + 40 * k)) else none := by
  induction k generalizing i with
  | zero =>
    rw [chunkLoop]
    by_cases h : i < words.length <;> simp [h]
  | succ k ih =>
    rw [chunkLoop]
    by_cases h : i < words.length
    · simp only [h, if_true, List.getElem?_cons_succ]
      rw [ih]
      have : i + (chunkSize - overlap) + 40 * k = i + 40 * (k + 1) := by
        simp only [chunkSize, overlap]; omega
      rw [this]
    · have h2 : ¬ (i + 40 * (k + 1) < words.length) := by omega
      simp [h, h2]

theorem chunkLoop_length (words : List JsString) (i : Nat) :
    (chunkLoop words i).length = (words.length - i + 39) / 40 := by
  have key : ∀ n, ∀ i, words.length - i = n →
      (chunkLoop words i).length = (words.length - i + 39) / 40 := by
    intro n
    induction n using Nat.strong_induction_on with
    | _ n ih =>
      intro i hn
      rw [chunkLoop]
      by_cases h : i < words.length
      · simp only [h, if_true, List.length_cons]
        rw [ih (words.length - (i + (chunkSize - overlap)))
          (by simp only [chunkSize, overlap]; omega) _ rfl]
        simp only [chunkSize, overlap]
        omega
      · simp only [h, if_false, List.length_nil]
        omega
  exact key _ i rfl

theorem demonstrateChunking_chunks (st : EmbeddingState) (h : trim st.inputTexts ≠ []) :
    (demonstrateChunking st).1.chunks = chunkLoop (splitWs (trim st.inputTexts)) 0 := by
  simp [demonstrateChunking, h]

/-- The chunk at position `k` of the emitted sequence. -/
theorem emitted_getElem? (st : EmbeddingState) (h : trim st.inputTexts ≠ []) (k : Nat) :
    (demonstrateChunking st).1.chunks[k]? =
      if 40 * k < (splitWs (trim st.inputTexts)).length
      then some (mkChunk (splitWs (trim st.inputTexts)) (40 * k)) else none := by
  rw [demonstrateChunking_chunks st h, chunkLoop_getElem?]
  simp

theorem emitted_length (st : EmbeddingState) (h : trim st.inputTexts ≠ []) :
    (demonstrateChunking st).1.chunks.length = ((splitWs (trim st.inputTexts)).length + 39) / 40 := by
  rw [demonstrateChunking_chunks st h, chunkLoop_length]
  simp

theorem take_min_length {α : Type} (xs : List α) (a : Nat) :
    xs.take (min a xs.length) = xs.take a := by
  rcases Nat.le_total a xs.length with h | h
  · rw [Nat.min_eq_left h]
  · rw [Nat.min_eq_right h, List.take_of_length_le h, List.take_of_length_le (Nat.le_refl _)]

theorem jsSlice_length {α : Type} (xs : List α) (a b : Nat) :
    (jsSlice xs a b).length = min b xs.length - a := by
  simp [jsSlice]

theorem jsSlice_mem {α : Type} (xs : List α) (a b : Nat) (x : α) (hx : x ∈ jsSlice xs a b) :
    x ∈ xs :=
  List.mem_of_mem_take (List.mem_of_mem_drop hx)

/-- The fields of the chunk pushed at loop variable `i`, for well-formed words. -/
theorem mkChunk_fields (words : List JsString) (i : Nat) (hi : i < words.length)
    (hw : ∀ w ∈ words, w ≠ [] ∧ ∀ c ∈ w, isJsWhiteSpace c = false) :
    (mkChunk words i).index = i / 40 ∧ (mkChunk words i).startWord = i ∧
    (mkChunk words i).endWord = min (i + 50) words.length - 1 ∧
    (mkChunk words i).text = jsJoin [' '] (jsSlice words i (i + 50)) ∧
    splitWs (mkChunk words i).text = jsSlice words i (i + 50) ∧
    (mkChunk words i).wordCount = min (i + 50) words.length - i := by
  have hsl : jsSlice words i (i + 50) ≠ [] := by
    intro h0
    have := congrArg List.length h0
    rw [jsSlice_length] at this
    simp only [List.length_nil] at this
    omega
  have hsp : splitWs (jsJoin [' '] (jsSlice words i (i + 50))) = jsSlice words i (i + 50) :=
    splitWs_join _ hsl (fun x hx => hw x (jsSlice_mem _ _ _ _ hx))
  refine ⟨rfl, rfl, ?_, rfl, hsp, ?_⟩
  · simp only [mkChunk, chunkSize]
    omega
  · simp only [mkChunk, chunkSize]
    rw [hsp, jsSlice_length]

/-- The number of positions below `n` that lie in `[a, b]`. -/
theorem range_filter_interval_length (n a b : Nat) :
    ((List.range n).filter (fun p => decide (a ≤ p ∧ p ≤ b))).length = min (b + 1) n - a := by
  induction n with
  | zero => simp
  | succ n ih =>
    rw [List.range_succ, List.filter_append, List.length_append, ih]
    by_cases h : a ≤ n ∧ n ≤ b
    · simp only [List.filter_cons, h, and_self, decide_True, if_true, List.filter_nil,
        List.length_singleton]
      omega
    · simp only [List.filter_cons, h, decide_False, Bool.false_eq_true, if_false,
        List.filter_nil, List.length_nil]
      omega

/-- A chunk found at position `k` of the emitted sequence is the one pushed at `40 * k`. -/
theorem emitted_eq_mkChunk (st : EmbeddingState) (h : trim st.inputTexts ≠ []) (k : Nat)
    (c : Chunk) (hc : (demonstrateChunking st).1.chunks[k]? = some c) :
    40 * k < (splitWs (trim st.inputTexts)).length ∧
      c = mkChunk (splitWs (trim st.inputTexts)) (40 * k) := by
  rw [emitted_getElem? st h k] at hc
  by_cases hk : 40 * k < (splitWs (trim st.inputTexts)).length
  · rw [if_pos hk] at hc
    exact ⟨hk, (Option.some.inj hc).symm⟩
  · rw [if_neg hk] at hc
    exact absurd hc (by simp)

/-! ## Chunking: the claims -/

set_option maxRecDepth 1000000

set_option exponentiation.threshold 2000

/-- C1: for a non-blank text whose trimmed form splits on whitespace into the `N ≥ 1` words
`words` (each non-empty and free of whitespace), position `k` of the sequence emitted by
`demonstrateChunking` holds a chunk exactly when `40 * k < N`; that chunk has
`startWord = 40 * k`, `endWord = min (40 * k + 50) N - 1` and its text is the words at
positions `40 * k .. endWord` joined by single spaces. -/
theorem demonstrateChunking_emits (st : EmbeddingState) (h : trim st.inputTexts ≠ []) :
    1 ≤ (splitWs (trim st.inputTexts)).length ∧
    (∀ w ∈ splitWs (trim st.inputTexts), w ≠ [] ∧ ∀ c ∈ w, isJsWhiteSpace c = false) ∧
    ∀ k : Nat,
      (40 * k < (splitWs (trim st.inputTexts)).length →
        ∃ c, (demonstrateChunking st).1.chunks[k]? = some c ∧ c.startWord = 40 * k ∧
          c.endWord = min (40 * k + 50) (splitWs (trim st.inputTexts)).length - 1 ∧
          c.text = jsJoin [' ']
            (((splitWs (trim st.inputTexts)).take (c.endWord + 1)).drop (40 * k))) ∧
      (¬ 40 * k < (splitWs (trim st.inputTexts)).length →
        (demonstrateChunking st).1.chunks[k]? = none) := by
  have hN := splitWs_length_pos (trim st.inputTexts)
  have hw := words_wf st.inputTexts h
  refine ⟨hN, hw, fun k => ⟨fun hk => ?_, fun hk => ?_⟩⟩
  · obtain ⟨_, h2, h3, h4, _, _⟩ := mkChunk_fields _ (40 * k) hk hw
    refine ⟨mkChunk (splitWs (trim st.inputTexts)) (40 * k), ?_, h2, h3, ?_⟩
    · rw [emitted_getElem? st h k, if_pos hk]
    · rw [h4, h3, jsSlice]
      have : min (40 * k + 50) (splitWs (trim st.inputTexts)).length - 1 + 1
          = min (40 * k + 50) (splitWs (trim st.inputTexts)).length := by omega
      rw [this, take_min_length]
  · rw [emitted_getElem? st h k, if_neg hk]

/-- Witness of C1: the 120-word text `w0 ... w119` yields exactly 3 chunks, covering the word
ranges [0,50), [40,90) and [80,120). -/
theorem demonstrateChunking_emits_witness :
    trim text120 ≠ [] ∧ (splitWs (trim text120)).length = 120 ∧
    (demonstrateChunking ⟨text120, []⟩).1.chunks.map
      (fun c => (c.startWord, c.endWord + 1)) = [(0, 50), (40, 90), (80, 120)] := by
  have hne : trim text120 ≠ [] := by decide
  have hN : (splitWs (trim text120)).length = 120 := by decide
  refine ⟨hne, hN, ?_⟩
  have key := (demonstrateChunking_emits ⟨text120, []⟩ hne).2.2
  simp only [hN] at key
  apply List.ext_getElem?
  intro n
  rw [List.getElem?_map]
  by_cases hn : 40 * n < 120
  · obtain ⟨c, hc, h1, h2, _⟩ := (key n).1 hn
    rw [hc]
    have : n = 0 ∨ n = 1 ∨ n = 2 := by omega
    rcases this with rfl | rfl | rfl <;> simp [h1, h2]
  · rw [(key n).2 hn]
    have : 3 ≤ n := by omega
    obtain ⟨m, rfl⟩ := Nat.exists_eq_add_of_le this
    simp [Nat.add_comm 3 m]

/-- C2: for a non-blank text with `N` words, every word position `p < N` lies in the span
`[startWord, endWord]` of at least one emitted chunk. -/
theorem demonstrateChunking_covers (st : EmbeddingState) (h : trim st.inputTexts ≠ [])
    (p : Nat) (hp : p < (splitWs (trim st.inputTexts)).length) :
    ∃ c ∈ (demonstrateChunking st).1.chunks, c.startWord ≤ p ∧ p ≤ c.endWord := by
  have hw := words_wf st.inputTexts h
  have hk : 40 * (p / 40) < (splitWs (trim st.inputTexts)).length := by omega
  obtain ⟨_, h2, h3, _⟩ := mkChunk_fields _ (40 * (p / 40)) hk hw
  refine ⟨mkChunk (splitWs (trim st.inputTexts)) (40 * (p / 40)), ?_, ?_, ?_⟩
  · apply List.getElem?_mem
    rw [emitted_getElem? st h (p / 40), if_pos hk]
  · rw [h2]; omega
  · rw [h3]; omega

/-- Witness of C2: the last word (position 119) of the 120-word text lies in some chunk. -/
theorem demonstrateChunking_covers_witness :
    trim text120 ≠ [] ∧ 119 < (splitWs (trim text120)).length ∧
    ∃ c ∈ (demonstrateChunking ⟨text120, []⟩).1.chunks, c.startWord ≤ 119 ∧ 119 ≤ c.endWord :=
  ⟨by decide, by decide, demonstrateChunking_covers ⟨text120, []⟩ (by decide) 119 (by decide)⟩

/-- Counterexample to C3: the 45-word text `w0 ... w44` yields two chunks, and the first one,
which is not the last, has 45 words (positions 0..44), not 50. -/
theorem chunk_size_counterexample :
    trim text45 ≠ [] ∧ (demonstrateChunking ⟨text45, []⟩).1.chunks.length = 2 ∧
    ∃ c, (demonstrateChunking ⟨text45, []⟩).1.chunks[0]? = some c ∧
      c.wordCount = 45 ∧ c.startWord = 0 ∧ c.endWord = 44 ∧ c.wordCount ≠ 50 := by
  have hne : trim text45 ≠ [] := by decide
  have hN : (splitWs (trim text45)).length = 45 := by decide
  refine ⟨hne, ?_, mkChunk (splitWs (trim text45)) 0, ?_, ?_⟩
  · rw [emitted_length ⟨text45, []⟩ hne]
    simp only [hN]
  · rw [emitted_getElem? ⟨text45, []⟩ hne 0]
    simp only [hN]
    rfl
  · decide

/-- C3 (amended): for a non-blank text, every emitted chunk has between 1 and 50 words, its
`wordCount` being the number of words of its text and of its span; every chunk other than the
last two has exactly 50 words; the second-to-last chunk has at least 41 words, and exactly 50
if and only if the last chunk has at least 10 words. -/
theorem chunk_size (st : EmbeddingState) (h : trim st.inputTexts ≠ []) (k : Nat) (c : Chunk)
    (hc : (demonstrateChunking st).1.chunks[k]? = some c) :
    c.wordCount = (splitWs c.text).length ∧ c.wordCount = c.endWord + 1 - c.startWord ∧
    1 ≤ c.wordCount ∧ c.wordCount ≤ 50 ∧
    (k + 2 < (demonstrateChunking st).1.chunks.length → c.wordCount = 50) ∧
    (k + 2 = (demonstrateChunking st).1.chunks.length →
      41 ≤ c.wordCount ∧
      ∀ c', (demonstrateChunking st).1.chunks[k + 1]? = some c' →
        (c.wordCount = 50 ↔ 10 ≤ c'.wordCount)) := by
  have hw := words_wf st.inputTexts h
  have hL := emitted_length st h
  obtain ⟨hk, rfl⟩ := emitted_eq_mkChunk st h k c hc
  obtain ⟨_, h2, h3, _, _, h6⟩ := mkChunk_fields _ (40 * k) hk hw
  refine ⟨rfl, ?_, ?_, ?_, ?_, ?_⟩
  · rw [h6, h3, h2]; omega
  · rw [h6]; omega
  · rw [h6]; omega
  · intro hlt
    rw [h6]; omega
  · intro heq
    refine ⟨by rw [h6]; omega, ?_⟩
    intro c' hc'
    obtain ⟨hk', rfl⟩ := emitted_eq_mkChunk st h (k + 1) c' hc'
    obtain ⟨_, _, _, _, _, h6'⟩ := mkChunk_fields _ (40 * (k + 1)) hk' hw
    rw [h6, h6']
    omega

/-- Witness of C3 (amended): the first of the two chunks of the 45-word text. -/
theorem chunk_size_witness :
    trim text45 ≠ [] ∧
    (demonstrateChunking ⟨text45, []⟩).1.chunks[0]? = some (mkChunk (splitWs (trim text45)) 0) ∧
    (mkChunk (splitWs (trim text45)) 0).wordCount ≤ 50 ∧
    (0 + 2 = (demonstrateChunking ⟨text45, []⟩).1.chunks.length →
      41 ≤ (mkChunk (splitWs (trim text45)) 0).wordCount) := by
  have hne : trim text45 ≠ [] := by decide
  have hN : (splitWs (trim text45)).length = 45 := by decide
  have hc : (demonstrateChunking ⟨text45, []⟩).1.chunks[0]?
      = some (mkChunk (splitWs (trim text45)) 0) := by
    rw [emitted_getElem? ⟨text45, []⟩ hne 0, if_pos (by rw [hN]; decide)]
  have key := chunk_size ⟨text45, []⟩ hne 0 _ hc
  exact ⟨hne, hc, key.2.2.2.1, fun h2 => (key.2.2.2.2.2 h2).1⟩

/-- C4: for a non-blank text with `N` words, two consecutive emitted chunks `c`, `c'` share at
most 10 word positions, and when the later one is not the last chunk they share exactly 10:
the earlier chunk has 50 words and its last 10 words are the first 10 words of the later. -/
theorem consecutive_overlap (st : EmbeddingState) (h : trim st.inputTexts ≠ []) (k : Nat)
    (c c' : Chunk) (hc : (demonstrateChunking st).1.chunks[k]? = some c)
    (hc' : (demonstrateChunking st).1.chunks[k + 1]? = some c') :
    ((List.range (splitWs (trim st.inputTexts)).length).filter (fun p =>
      decide (c.startWord ≤ p ∧ p ≤ c.endWord ∧ c'.startWord ≤ p ∧ p ≤ c'.endWord))).length
        ≤ 10 ∧
    (k + 2 < (demonstrateChunking st).1.chunks.length →
      ((List.range (splitWs (trim st.inputTexts)).length).filter (fun p =>
        decide (c.startWord ≤ p ∧ p ≤ c.endWord ∧ c'.startWord ≤ p ∧ p ≤ c'.endWord))).length
          = 10 ∧
      (splitWs c.text).length = 50 ∧ 10 ≤ (splitWs c'.text).length ∧
      (splitWs c.text).drop ((splitWs c.text).length - 10) = (splitWs c'.text).take 10) := by
  have hw := words_wf st.inputTexts h
  have hL := emitted_length st h
  obtain ⟨hk, rfl⟩ := emitted_eq_mkChunk st h k c hc
  obtain ⟨hk', rfl⟩ := emitted_eq_mkChunk st h (k + 1) c' hc'
  obtain ⟨_, h2, h3, _, h5, _⟩ := mkChunk_fields _ (40 * k) hk hw
  obtain ⟨_, h2', h3', _, h5', _⟩ := mkChunk_fields _ (40 * (k + 1)) hk' hw
  have hfilter : (List.range (splitWs (trim st.inputTexts)).length).filter (fun p =>
      decide ((mkChunk (splitWs (trim st.inputTexts)) (40 * k)).startWord ≤ p ∧
        p ≤ (mkChunk (splitWs (trim st.inputTexts)) (40 * k)).endWord ∧
        (mkChunk (splitWs (trim st.inputTexts)) (40 * (k + 1))).startWord ≤ p ∧
        p ≤ (mkChunk (splitWs (trim st.inputTexts)) (40 * (k + 1))).endWord))
      = (List.range (splitWs (trim st.inputTexts)).length).filter (fun p =>
        decide (40 * (k + 1) ≤ p ∧
          p ≤ min (40 * k + 50) (splitWs (trim st.inputTexts)).length - 1)) := by
    apply List.filter_congr
    intro p _
    rw [h2, h3, h2', h3']
    apply decide_eq_decide.mpr
    omega
  rw [hfilter, range_filter_interval_length]
  refine ⟨by omega, fun hlt => ⟨by omega, ?_, ?_, ?_⟩⟩
  · rw [h5, jsSlice_length]; omega
  · rw [h5', jsSlice_length]; omega
  · rw [h5, h5', jsSlice_length]
    have e1 : min (40 * k + 50) (splitWs (trim st.inputTexts)).length - 40 * k - 10 = 40 := by
      omega
    rw [e1]
    simp only [jsSlice, List.drop_drop, List.take_drop, List.take_take]
    have e2 : min (40 * (k + 1) + 10) (40 * (k + 1) + 50) = 40 * k + 50 := by omega
    have e3 : 40 * k + 40 = 40 * (k + 1) := by omega
    rw [e2, e3]

/-- Witness of C4: the first two of the three chunks of the 120-word text. -/
theorem consecutive_overlap_witness :
    trim text120 ≠ [] ∧
    (0 + 2 < (demonstrateChunking ⟨text120, []⟩).1.chunks.length →
      (splitWs (mkChunk (splitWs (trim text120)) (40 * 0)).text).drop
          ((splitWs (mkChunk (splitWs (trim text120)) (40 * 0)).text).length - 10)
        = (splitWs (mkChunk (splitWs (trim text120)) (40 * 1)).text).take 10) := by
  have hne : trim text120 ≠ [] := by decide
  have hN : (splitWs (trim text120)).length = 120 := by decide
  have hc : (demonstrateChunking ⟨text120, []⟩).1.chunks[0]?
      = some (mkChunk (splitWs (trim text120)) (40 * 0)) := by
    rw [emitted_getElem? ⟨text120, []⟩ hne 0, if_pos (by rw [hN]; decide)]
  have hc' : (demonstrateChunking ⟨text120, []⟩).1.chunks[0 + 1]?
      = some (mkChunk (splitWs (trim text120)) (40 * 1)) := by
    rw [emitted_getElem? ⟨text120, []⟩ hne (0 + 1), if_pos (by rw [hN]; decide)]
  exact ⟨hne, fun h2 => ((consecutive_overlap ⟨text120, []⟩ hne 0 _ _ hc hc').2 h2).2.2.2⟩

/-- C5: for a non-blank text, the chunk at position `k` of the emitted sequence has
`index = k`: the indices are `0, 1, 2, ...` in emission order. -/
theorem chunk_index (st : EmbeddingState) (h : trim st.inputTexts ≠ []) :
    (demonstrateChunking st).1.chunks.map Chunk.index
      = List.range (demonstrateChunking st).1.chunks.length ∧
    ∀ (k : Nat) (c : Chunk), (demonstrateChunking st).1.chunks[k]? = some c → c.index = k := by
  have hidx : ∀ (k : Nat) (c : Chunk),
      (demonstrateChunking st).1.chunks[k]? = some c → c.index = k := by
    intro k c hc
    obtain ⟨_, rfl⟩ := emitted_eq_mkChunk st h k c hc
    simp only [mkChunk, chunkSize, overlap]
    omega
  refine ⟨?_, hidx⟩
  apply List.ext_getElem?
  intro n
  rw [List.getElem?_map]
  by_cases hn : n < (demonstrateChunking st).1.chunks.length
  · rw [List.getElem?_range hn]
    obtain ⟨c, hc⟩ : ∃ c, (demonstrateChunking st).1.chunks[n]? = some c :=
      ⟨_, List.getElem?_eq_getElem hn⟩
    rw [hc, Option.map_some', hidx n c hc]
  · rw [List.getElem?_eq_none (by omega), List.getElem?_eq_none (by simp; omega)]
    rfl

/-- Witness of C5: the indices of the chunks of the 120-word text. -/
theorem chunk_index_witness :
    trim text120 ≠ [] ∧
    (demonstrateChunking ⟨text120, []⟩).1.chunks.map Chunk.index
      = List.range (demonstrateChunking ⟨text120, []⟩).1.chunks.length :=
  ⟨by decide, (chunk_index ⟨text120, []⟩ (by decide)).1⟩

/-- Counterexample to C6: on the empty text `demonstrateChunking` reports an error, through
one `onError` call. -/
theorem blank_counterexample :
    (demonstrateChunking ⟨[], []⟩).2
      = [Call.onError "Error" (.str "Please enter some text to demonstrate chunking".toList)] ∧
    (demonstrateChunking ⟨[], []⟩).2.any Call.isError = true := by
  constructor <;> rfl

/-- C6 (amended): for the empty text and for any text consisting only of whitespace,
`demonstrateChunking` emits no chunk sequence (the displayed chunks stay as they were, and no
success is reported) and reports the error 'Please enter some text to demonstrate chunking'
through exactly one `onError` call. -/
theorem blank_rejected (st : EmbeddingState) (h : ∀ c ∈ st.inputTexts, isJsWhiteSpace c = true) :
    demonstrateChunking st
      = (st, [Call.onError "Error"
          (.str "Please enter some text to demonstrate chunking".toList)]) := by
  have ht : trim st.inputTexts = [] := by
    have : st.inputTexts.dropWhile isJsWhiteSpace = [] := List.dropWhile_eq_nil_iff.mpr h
    simp [trim, trimStart, trimEnd, this]
  simp [demonstrateChunking, ht]

/-- Witness of C6 (amended): a text made of a space, a tab and a newline. -/
theorem blank_rejected_witness :
    (∀ c ∈ [' ', '\t', '\n'], isJsWhiteSpace c = true) ∧
    demonstrateChunking ⟨[' ', '\t', '\n'], []⟩
      = (⟨[' ', '\t', '\n'], []⟩,
          [Call.onError "Error"
            (.str "Please enter some text to demonstrate chunking".toList)]) :=
  ⟨by decide, blank_rejected ⟨[' ', '\t', '\n'], []⟩ (by decide)⟩

/-! ## Risk level -/

/-- C7: `getRiskLevel` gives 'Low Risk' exactly for the count 0, 'Medium Risk' exactly for the
counts 1 and 2, and 'High Risk' exactly for the counts of at least 3. -/
theorem getRiskLevel_classifies (n : Nat) :
    (getRiskLevel n = "Low Risk" ↔ n = 0) ∧
    (getRiskLevel n = "Medium Risk" ↔ n = 1 ∨ n = 2) ∧
    (getRiskLevel n = "High Risk" ↔ 3 ≤ n) := by
  unfold getRiskLevel
  by_cases h0 : n = 0
  · subst h0
    simp
  · by_cases h2 : n ≤ 2
    · simp only [h0, h2, if_false, if_true]
      refine ⟨by decide, ?_, ?_⟩
      · constructor
        · intro _; omega
        · intro _; trivial
      · constructor
        · intro h; exact absurd h (by decide)
        · intro h; omega
    · simp only [h0, h2, if_false]
      refine ⟨by decide, ?_, ?_⟩
      · constructor
        · intro h; exact absurd h (by decide)
        · intro h; omega
      · constructor
        · intro _; omega
        · intro _; trivial

/-! ## Lemmas on the Number values -/

theorem roundToDouble_small (m : Nat) (h : m < 2 ^ 53) : roundToDouble m = some m := by
  have h' : m < 9007199254740992 := h
  have hr : (List.range 972).find? (fun e => decide (m < 2 ^ (53 + e))) = some 0 := by
    rw [show (972 : Nat) = 971 + 1 from rfl, List.range_succ_eq_map, List.find?_cons]
    simp [h']
  unfold roundToDouble
  rw [hr]
  simp only [pow_zero, Nat.div_one, Nat.mod_one, Nat.mul_zero, Nat.mul_one]
  simp
  omega

theorem toNumber_small (sign : Int) (m : Nat) (h : m < 2 ^ 53) :
    toNumber sign m = .int (sign * m) := by
  simp [toNumber, roundToDouble_small m h]


/-! ## Lemmas on `parseInt` -/

theorem isDecDigit_not_ws (c : Char) (h : isDecDigit c = true) : isJsWhiteSpace c = false := by
  simp only [isDecDigit, decide_eq_true_eq] at h
  simp only [isJsWhiteSpace, Bool.or_eq_false_iff, beq_eq_false_iff_ne, ne_eq,
    Bool.and_eq_false_imp, decide_eq_true_eq, decide_eq_false_iff_not]
  omega

theorem isRadixDigit_ten (c : Char) : isRadixDigit 10 c = isDecDigit c := by
  unfold isRadixDigit digitValue isDecDigit
  by_cases h1 : 48 ≤ c.toNat ∧ c.toNat ≤ 57
  · simp only [h1, and_self, if_true, decide_True, decide_eq_true_eq]
    omega
  · by_cases h2 : 97 ≤ c.toNat ∧ c.toNat ≤ 122
    · simp only [h1, h2, and_self, if_true, if_false, decide_False, decide_eq_false_iff_not]
      omega
    · by_cases h3 : 65 ≤ c.toNat ∧ c.toNat ≤ 90
      · simp only [h1, h2, h3, and_self, if_true, if_false, decide_False,
          decide_eq_false_iff_not]
        omega
      · simp only [h1, h2, h3, if_false, decide_False]

theorem digitValue_dec (c : Char) (h : isDecDigit c = true) :
    (digitValue c).getD 0 = c.toNat - 48 := by
  simp only [isDecDigit, decide_eq_true_eq] at h
  simp [digitValue, h]

theorem trimStart_append (ws t : List Char) (hws : ∀ c ∈ ws, isJsWhiteSpace c = true)
    (ht : ∀ c ∈ t.head?, isJsWhiteSpace c = false) : trimStart (ws ++ t) = t := by
  induction ws with
  | nil =>
    cases t with
    | nil => rfl
    | cons a t =>
      have := ht a (by simp)
      simp [trimStart, List.dropWhile, this]
  | cons a ws ih =>
    have ha := hws a (by simp)
    have := ih (fun c hc => hws c (by simp [hc]))
    simpa [trimStart, List.dropWhile, ha] using this

theorem takeWhile_append_stop {p : Char → Bool} (ds rest : List Char)
    (hds : ∀ c ∈ ds, p c = true) (hrest : ∀ c ∈ rest.head?, p c = false) :
    (ds ++ rest).takeWhile p = ds := by
  induction ds with
  | nil =>
    cases rest with
    | nil => rfl
    | cons a t =>
      have := hrest a (by simp)
      simp [List.takeWhile, this]
  | cons a ds ih =>
    have ha := hds a (by simp)
    have := ih (fun c hc => hds c (by simp [hc]))
    simp [List.takeWhile, ha, this]

theorem foldl_digits (ds : List Char) (acc : Nat) (hds : ∀ c ∈ ds, isDecDigit c = true) :
    ds.foldl (fun acc c => acc * 10 + (digitValue c).getD 0) acc
      = acc * 10 ^ ds.length + decimalValue ds := by
  induction ds generalizing acc with
  | nil => simp [decimalValue]
  | cons a ds ih =>
    have ha := hds a (by simp)
    rw [List.foldl_cons, ih _ (fun c hc => hds c (by simp [hc])), digitValue_dec a ha]
    simp only [decimalValue, List.reverse_cons, List.map_append, List.map_cons, List.map_nil,
      Nat.ofDigits_append, Nat.ofDigits_singleton, List.length_map, List.length_reverse,
      List.length_cons]
    ring

theorem digitsValue_dec (ds : List Char) (hds : ∀ c ∈ ds, isDecDigit c = true) :
    digitsValue 10 ds = decimalValue ds := by
  unfold digitsValue
  rw [foldl_digits ds 0 hds]
  simp

theorem orZero_ne (x : JsNumber) : orZero x ≠ .nan ∧ orZero x ≠ .negZero := by
  cases x <;> simp [orZero]
  split <;> simp

/-- The first steps of `parseInt` on whitespace, an optional sign and a rest `body`. -/
theorem parseInt_unfold (ws sg body : List Char)
    (hws : ∀ c ∈ ws, isJsWhiteSpace c = true)
    (hsg : sg = [] ∨ sg = ['+'] ∨ sg = ['-'])
    (hbare : sg = [] → ∀ c ∈ body.head?, isJsWhiteSpace c = false ∧ c ≠ '+' ∧ c ≠ '-') :
    parseInt (ws ++ sg ++ body)
      = if (stripPrefix body).2.takeWhile (isRadixDigit (stripPrefix body).1) = [] then .nan
        else if digitsValue (stripPrefix body).1
            ((stripPrefix body).2.takeWhile (isRadixDigit (stripPrefix body).1)) = 0
          then (if sg = ['-'] then .negZero else .int 0)
        else toNumber (if sg = ['-'] then -1 else 1)
          (digitsValue (stripPrefix body).1
            ((stripPrefix body).2.takeWhile (isRadixDigit (stripPrefix body).1))) := by
  have htrim : trimStart (ws ++ sg ++ body) = sg ++ body := by
    rw [List.append_assoc]
    apply trimStart_append _ _ hws
    rcases hsg with rfl | rfl | rfl
    · intro c hc
      exact (hbare rfl c (by simpa using hc)).1
    · intro c hc
      simp only [List.cons_append, List.nil_append, List.head?_cons, Option.mem_def,
        Option.some.injEq] at hc
      subst hc; decide
    · intro c hc
      simp only [List.cons_append, List.nil_append, List.head?_cons, Option.mem_def,
        Option.some.injEq] at hc
      subst hc; decide
  have hsign : parseSign (sg ++ body) = if sg = ['-'] then -1 else 1 := by
    rcases hsg with rfl | rfl | rfl
    · cases body with
      | nil => rfl
      | cons r rest' =>
        have := hbare rfl r (by simp)
        simp [parseSign, this.2.2]
    · simp [parseSign]
    · simp [parseSign]
  have hstrip : stripSign (sg ++ body) = body := by
    rcases hsg with rfl | rfl | rfl
    · cases body with
      | nil => rfl
      | cons r rest' =>
        have := hbare rfl r (by simp)
        simp [stripSign, this.2.1, this.2.2]
    · simp [stripSign]
    · simp [stripSign]
  have hm1 : ((if sg = ['-'] then (-1 : Int) else 1) = -1) ↔ sg = ['-'] := by
    by_cases h : sg = ['-'] <;> simp [h]
  unfold parseInt
  simp only [htrim, hsign, hstrip, hm1]

/-- The value of `parseInt(s) || 0` when `s`, after whitespace and an optional sign, starts
with the decimal numeral `ds` (not a `0x` prefix). -/
theorem numberField_decimal (ws sg ds rest : List Char)
    (hws : ∀ c ∈ ws, isJsWhiteSpace c = true)
    (hsg : sg = [] ∨ sg = ['+'] ∨ sg = ['-'])
    (hne : ds ≠ []) (hds : ∀ c ∈ ds, isDecDigit c = true)
    (hrest : ∀ c ∈ rest.head?, isDecDigit c = false)
    (hhex : ¬ (ds = ['0'] ∧ (rest.head? = some 'x' ∨ rest.head? = some 'X')))
    (hsmall : decimalValue ds < 2 ^ 53) :
    numberField (ws ++ sg ++ ds ++ rest)
      = .int ((if sg = ['-'] then -1 else 1) * (decimalValue ds : Int)) := by
  obtain ⟨d, ds', rfl⟩ := List.exists_cons_of_ne_nil hne
  have hd := hds d (by simp)
  have hdws := isDecDigit_not_ws d hd
  have hdp : d ≠ '+' := by rintro rfl; exact absurd hd (by decide)
  have hdm : d ≠ '-' := by rintro rfl; exact absurd hd (by decide)
  have hpfx : stripPrefix ((d :: ds') ++ rest) = (10, (d :: ds') ++ rest) := by
    cases hds' : ds' with
    | nil =>
      cases hr : rest with
      | nil => simp [stripPrefix]
      | cons r rest' =>
        simp only [List.cons_append, List.nil_append, stripPrefix]
        rw [if_neg]
        rintro ⟨rfl, hx⟩
        apply hhex
        subst hds' hr
        refine ⟨rfl, ?_⟩
        simpa using hx
    | cons e ds'' =>
      simp only [List.cons_append, stripPrefix]
      rw [if_neg]
      rintro ⟨_, hx⟩
      have he := hds e (by simp [hds'])
      rcases hx with rfl | rfl <;> exact absurd he (by decide)
  have htake : ((d :: ds') ++ rest).takeWhile (isRadixDigit 10) = d :: ds' := by
    apply takeWhile_append_stop
    · intro c hc; rw [isRadixDigit_ten]; exact hds c hc
    · intro c hc; rw [isRadixDigit_ten]; exact hrest c hc
  unfold numberField
  rw [List.append_assoc (ws ++ sg), parseInt_unfold ws sg _ hws hsg
    (fun _ c hc => by
      simp only [List.cons_append, List.head?_cons, Option.mem_def, Option.some.injEq] at hc
      subst hc; exact ⟨hdws, hdp, hdm⟩)]
  simp only [hpfx, htake, digitsValue_dec _ hds, reduceCtorEq, if_false]
  by_cases h0 : decimalValue (d :: ds') = 0
  · simp only [h0, if_true]
    split <;> simp [orZero]
  · simp only [h0, if_false]
    rw [toNumber_small _ _ hsmall]
    unfold orZero
    simp only
    rw [if_neg]
    split <;> simpa using h0

/-- The value of `parseInt(s) || 0` when `s`, after whitespace and an optional sign, does not
start with a decimal digit. -/
theorem numberField_no_number (ws sg rest : List Char)
    (hws : ∀ c ∈ ws, isJsWhiteSpace c = true)
    (hsg : sg = [] ∨ sg = ['+'] ∨ sg = ['-'])
    (hrest : ∀ c ∈ rest.head?, isDecDigit c = false)
    (hbare : sg = [] → ∀ c ∈ rest.head?, isJsWhiteSpace c = false ∧ c ≠ '+' ∧ c ≠ '-') :
    numberField (ws ++ sg ++ rest) = .int 0 := by
  have hpre : stripPrefix rest = (10, rest) := by
    cases rest with
    | nil => rfl
    | cons r rest' =>
      have hr := hrest r (by simp)
      have hr0 : r ≠ '0' := by rintro rfl; exact absurd hr (by decide)
      cases rest' with
      | nil => rfl
      | cons r' rest'' => simp [stripPrefix, hr0]
  have hZ : rest.takeWhile (isRadixDigit 10) = [] := by
    cases rest with
    | nil => rfl
    | cons r rest' =>
      have hr := hrest r (by simp)
      simp [List.takeWhile, isRadixDigit_ten, hr]
  unfold numberField
  rw [parseInt_unfold ws sg rest hws hsg hbare]
  simp only [hpre, hZ, if_true]
  rfl

theorem isRadixDigit_sixteen (c : Char) : isRadixDigit 16 c = isHexDigit c := by
  unfold isRadixDigit isHexDigit
  by_cases h1 : 48 ≤ c.toNat ∧ c.toNat ≤ 57
  · have e : digitValue c = some (c.toNat - 48) := by simp [digitValue, h1]
    rw [e]
    apply decide_eq_decide.mpr
    omega
  · by_cases h2 : 97 ≤ c.toNat ∧ c.toNat ≤ 122
    · have e : digitValue c = some (c.toNat - 87) := by simp [digitValue, h1, h2]
      rw [e]
      apply decide_eq_decide.mpr
      omega
    · by_cases h3 : 65 ≤ c.toNat ∧ c.toNat ≤ 90
      · have e : digitValue c = some (c.toNat - 55) := by simp [digitValue, h1, h2, h3]
        rw [e]
        apply decide_eq_decide.mpr
        omega
      · have e : digitValue c = none := by simp [digitValue, h1, h2, h3]
        rw [e]
        symm
        apply decide_eq_false
        omega

theorem hexDigitValue_eq (c : Char) (h : isHexDigit c = true) :
    (digitValue c).getD 0 = hexDigitValue c := by
  simp only [isHexDigit, decide_eq_true_eq] at h
  unfold digitValue hexDigitValue
  by_cases h1 : 48 ≤ c.toNat ∧ c.toNat ≤ 57
  · simp [h1]
  · by_cases h2 : 97 ≤ c.toNat ∧ c.toNat ≤ 102
    · have h2' : 97 ≤ c.toNat ∧ c.toNat ≤ 122 := by omega
      simp [h1, h2, h2']
    · have h3 : 65 ≤ c.toNat ∧ c.toNat ≤ 70 := by omega
      have h3' : 65 ≤ c.toNat ∧ c.toNat ≤ 90 := by omega
      have h2' : ¬ (97 ≤ c.toNat ∧ c.toNat ≤ 122) := by omega
      simp [h1, h2, h2', h3']

theorem foldl_hex (hs : List Char) (acc : Nat) (hhs : ∀ c ∈ hs, isHexDigit c = true) :
    hs.foldl (fun acc c => acc * 16 + (digitValue c).getD 0) acc
      = acc * 16 ^ hs.length + hexValue hs := by
  induction hs generalizing acc with
  | nil => simp [hexValue]
  | cons a hs ih =>
    have ha := hhs a (by simp)
    rw [List.foldl_cons, ih _ (fun c hc => hhs c (by simp [hc])), hexDigitValue_eq a ha]
    simp only [hexValue, List.reverse_cons, List.map_append, List.map_cons, List.map_nil,
      Nat.ofDigits_append, Nat.ofDigits_singleton, List.length_map, List.length_reverse,
      List.length_cons]
    ring

theorem digitsValue_hex (hs : List Char) (hhs : ∀ c ∈ hs, isHexDigit c = true) :
    digitsValue 16 hs = hexValue hs := by
  unfold digitsValue
  rw [foldl_hex hs 0 hhs]
  simp

/-- The value of `parseInt(s) || 0` when `s`, after whitespace and an optional sign, starts
with `0x` or `0X` followed by the hexadecimal numeral `hs`. -/
theorem numberField_hex (ws sg hs rest : List Char) (x : Char)
    (hws : ∀ c ∈ ws, isJsWhiteSpace c = true)
    (hsg : sg = [] ∨ sg = ['+'] ∨ sg = ['-'])
    (hx : x = 'x' ∨ x = 'X')
    (hne : hs ≠ []) (hhs : ∀ c ∈ hs, isHexDigit c = true)
    (hrest : ∀ c ∈ rest.head?, isHexDigit c = false)
    (hsmall : hexValue hs < 2 ^ 53) :
    numberField (ws ++ sg ++ '0' :: x :: hs ++ rest)
      = .int ((if sg = ['-'] then -1 else 1) * (hexValue hs : Int)) := by
  have hpfx : stripPrefix ('0' :: x :: (hs ++ rest)) = (16, hs ++ rest) := by
    simp [stripPrefix, hx]
  have htake : (hs ++ rest).takeWhile (isRadixDigit 16) = hs := by
    apply takeWhile_append_stop
    · intro c hc; rw [isRadixDigit_sixteen]; exact hhs c hc
    · intro c hc; rw [isRadixDigit_sixteen]; exact hrest c hc
  unfold numberField
  rw [show ws ++ sg ++ '0' :: x :: hs ++ rest = ws ++ sg ++ ('0' :: x :: (hs ++ rest)) by simp,
    parseInt_unfold ws sg _ hws hsg
    (fun _ c hc => by
      simp only [List.head?_cons, Option.mem_def, Option.some.injEq] at hc
      subst hc; decide)]
  simp only [hpfx, htake, digitsValue_hex _ hhs, hne, if_false]
  by_cases h0 : hexValue hs = 0
  · simp only [h0, if_true]
    split <;> simp [orZero]
  · simp only [h0, if_false]
    rw [toNumber_small _ _ hsmall]
    unfold orZero
    simp only
    rw [if_neg]
    split <;> simpa using h0

/-! ## The numeric fields of the request: the claims -/

/-- Counterexample to C8: the numeral `1` followed by 309 zeros in the coverage amount field
puts `Infinity` in `application_data`, which `JSON.stringify` writes as `null`: not an integer;
and the field `9007199254740993` gives 9007199254740992, not the integer parsed from it. -/
theorem submitted_numbers_counterexample :
    (processRequest hugeForm).application_data.coverage_amount = .posInf ∧
    jsonNumber (processRequest hugeForm).application_data.coverage_amount = none ∧
    (processRequest hugeForm).application_data.applicant_age = .int 9007199254740992 ∧
    decimalValue hugeForm.applicant_age = 9007199254740993 := by
  decide

/-- C8 (amended): for every content of the form, each of `coverage_amount`, `applicant_age`
and `prior_claims` in the request body is `parseInt(field) || 0`, which is never `NaN`: it is
0 when the field, after leading whitespace and an optional sign, does not start with a digit,
and it is the integer of the leading numeral (decimal, or hexadecimal after `0x`/`0X`)
with the sign applied whenever that integer is below `2 ^ 53`. -/
theorem submitted_numbers (formData : FormData) :
    NumberFieldSpec formData.coverage_amount
      (processRequest formData).application_data.coverage_amount ∧
    NumberFieldSpec formData.applicant_age
      (processRequest formData).application_data.applicant_age ∧
    NumberFieldSpec formData.prior_claims
      (processRequest formData).application_data.prior_claims := by
  have key : ∀ s : JsString, NumberFieldSpec s (numberField s) := by
    intro s
    refine ⟨(orZero_ne _).1, (orZero_ne _).2, ?_, ?_, ?_⟩
    · intro ws sg ds rest hs hws hsg hne hds hrest hhex hsmall
      subst hs
      exact numberField_decimal ws sg ds rest hws hsg hne hds hrest hhex hsmall
    · intro ws sg x hs rest h hws hsg hx hne hhs hrest hsmall
      subst h
      exact numberField_hex ws sg hs rest x hws hsg hx hne hhs hrest hsmall
    · intro ws sg rest hs hws hsg hrest hbare
      subst hs
      exact numberField_no_number ws sg rest hws hsg hrest hbare
  exact ⟨key _, key _, key _⟩

/-- Witness of C8 (amended): the sample form has the amount `500000`, the age ` 35` and an
empty prior-claims field; the body holds 500000, 35 and 0. -/
theorem submitted_numbers_witness :
    (processRequest sampleForm).application_data.coverage_amount = .int 500000 ∧
    (processRequest sampleForm).application_data.applicant_age = .int 35 ∧
    (processRequest sampleForm).application_data.prior_claims = .int 0 :=
  ⟨(submitted_numbers sampleForm).1.decimal [] [] "500000".toList [] (by decide) (by decide)
      (by decide) (by decide) (by decide) (by decide) (by decide) (by decide),
    (submitted_numbers sampleForm).2.1.decimal [' '] [] "35".toList [] (by decide) (by decide)
      (by decide) (by decide) (by decide) (by decide) (by decide) (by decide),
    (submitted_numbers sampleForm).2.2.no_number [] [] [] (by decide) (by decide) (by decide)
      (by decide) (by decide)⟩

/-! ## Lemmas on `split(',')` and `trim` -/

theorem splitCharAux_ne_nil (sep : Char) (s cur : List Char) : splitCharAux sep s cur ≠ [] := by
  induction s generalizing cur with
  | nil => simp [splitCharAux]
  | cons c cs ih =>
    unfold splitCharAux
    split
    · simp
    · exact ih _

/-- Joining the pieces of a split with the separator gives the string back. -/
theorem jsJoin_splitCharAux (sep : Char) (s cur : List Char) :
    jsJoin [sep] (splitCharAux sep s cur) = cur.reverse ++ s := by
  induction s generalizing cur with
  | nil => simp [splitCharAux, jsJoin, List.intercalate]
  | cons c cs ih =>
    unfold splitCharAux
    by_cases hc : c = sep
    · rw [if_pos hc]
      obtain ⟨y, ys, hy⟩ := List.exists_cons_of_ne_nil (splitCharAux_ne_nil sep cs [])
      have h1 := ih []
      rw [hy] at h1 ⊢
      have : jsJoin [sep] (cur.reverse :: y :: ys)
          = cur.reverse ++ [sep] ++ jsJoin [sep] (y :: ys) := by
        simp [jsJoin, List.intercalate, List.intersperse]
      rw [this, h1, hc]
      simp
    · rw [if_neg hc, ih]
      simp

/-- No piece of a split contains the separator. -/
theorem splitCharAux_no_sep (sep : Char) (s cur : List Char) (hcur : sep ∉ cur) :
    ∀ p ∈ splitCharAux sep s cur, sep ∉ p := by
  induction s generalizing cur with
  | nil =>
    intro p hp
    simp only [splitCharAux, List.mem_singleton] at hp
    subst hp
    simpa using hcur
  | cons c cs ih =>
    intro p hp
    unfold splitCharAux at hp
    by_cases hc : c = sep
    · rw [if_pos hc, List.mem_cons] at hp
      rcases hp with rfl | hp
      · simpa using hcur
      · exact ih [] (by simp) p hp
    · rw [if_neg hc] at hp
      refine ih (c :: cur) ?_ p hp
      simp only [List.mem_cons, not_or]
      exact ⟨fun h => hc h.symm, hcur⟩

/-- A string without the separator is its own single piece. -/
theorem splitCharAux_of_not_mem (sep : Char) (s cur : List Char) (hs : sep ∉ s) :
    splitCharAux sep s cur = [cur.reverse ++ s] := by
  induction s generalizing cur with
  | nil => simp [splitCharAux]
  | cons c cs ih =>
    simp only [List.mem_cons, not_or] at hs
    unfold splitCharAux
    rw [if_neg (fun h => hs.1 h.symm), ih _ hs.2]
    simp

theorem trim_eq_nil_of_blank (s : JsString) (h : ∀ c ∈ s, isJsWhiteSpace c = true) :
    trim s = [] := by
  have : s.dropWhile isJsWhiteSpace = [] := List.dropWhile_eq_nil_iff.mpr h
  simp [trim, trimStart, trimEnd, this]

theorem get_zero_mem_head? (t : List Char) (hl : 0 < t.length) : t.get ⟨0, hl⟩ ∈ t.head? := by
  cases t with
  | nil => exact absurd hl (by simp)
  | cons a t => simp

/-- Trimming a trimmed string changes nothing. -/
theorem trim_trim (s : JsString) : trim (trim s) = trim s := by
  by_cases h : trim s = []
  · rw [h]; rfl
  · obtain ⟨_, hlast, hhead⟩ := splitGuard_trim s h
    have h1 : trimStart (trim s) = trim s := by
      unfold trimStart
      rw [List.dropWhile_eq_self_iff]
      intro hl
      have hmem := get_zero_mem_head? (trim s) hl
      intro hws
      cases hhead _ hmem hws with
      | inl h0 => exact h0 rfl
      | inr h0 => exact absurd h0 (by simp)
    have h2 : trimEnd (trim s) = trim s := by
      show List.rdropWhile isJsWhiteSpace (trim s) = trim s
      rw [List.rdropWhile_eq_self_iff]
      intro hl
      rw [hlast hl]
      simp
    show trimEnd (trimStart (trim s)) = trim s
    rw [h1, h2]

/-! ## The risk factors of the request: the claim -/

/-- C9: the `risk_factors` list of the request body is made of the comma-separated pieces of
the form string (the pieces contain no comma and joined by commas give the string back), each
trimmed, with the empty ones dropped and the order kept; so no element is empty or has
surrounding whitespace, and a blank string gives the empty list.  The string
'high mileage, urban area, young driver' gives the three factors 'high mileage', 'urban area'
and 'young driver'. -/
theorem risk_factors_sent (formData : FormData) :
    (∃ pieces : List JsString, pieces ≠ [] ∧ jsJoin [','] pieces = formData.risk_factors ∧
      (∀ p ∈ pieces, ',' ∉ p) ∧
      (processRequest formData).application_data.risk_factors
        = (pieces.map trim).filter (fun f => decide (f ≠ []))) ∧
    (∀ f ∈ (processRequest formData).application_data.risk_factors,
      f ≠ [] ∧ trim f = f ∧
      ∀ hf : f ≠ [], isJsWhiteSpace (f.head hf) = false ∧
        isJsWhiteSpace (f.getLast hf) = false) ∧
    ((∀ c ∈ formData.risk_factors, isJsWhiteSpace c = true) →
      (processRequest formData).application_data.risk_factors = []) ∧
    (processRequest sampleForm).application_data.risk_factors
      = ["high mileage".toList, "urban area".toList, "young driver".toList] := by
  have hfilter : ∀ l : List JsString, l.filter (fun f => !f.isEmpty)
      = l.filter (fun f => decide (f ≠ [])) := by
    intro l
    apply List.filter_congr
    intro x _
    cases x <;> simp
  refine ⟨⟨splitChar ',' formData.risk_factors, splitCharAux_ne_nil _ _ _, ?_, ?_, ?_⟩,
    ?_, ?_, ?_⟩
  · simpa [splitChar] using jsJoin_splitCharAux ',' formData.risk_factors []
  · exact splitCharAux_no_sep ',' formData.risk_factors [] (by simp)
  · exact hfilter _
  · intro f hf
    simp only [processRequest, applicationData, riskFactors, List.mem_filter, List.mem_map] at hf
    obtain ⟨⟨p, _, rfl⟩, hne⟩ := hf
    have hne' : trim p ≠ [] := by
      intro h0
      rw [h0] at hne
      exact absurd hne (by decide)
    refine ⟨hne', trim_trim p, fun hf => ?_⟩
    obtain ⟨_, hlast, _⟩ := splitGuard_trim p hne'
    refine ⟨?_, hlast hf⟩
    have h1 : trimStart (trim p) = trim p := by
      have := trim_trim p
      by_contra hcon
      have hpre := List.rdropWhile_prefix isJsWhiteSpace (trimStart (trim p))
      have hsuf : trimStart (trim p) <:+ trim p := List.dropWhile_suffix _
      have hlen1 := hpre.length_le
      have hlen2 := hsuf.length_le
      have heq : trim (trim p) = List.rdropWhile isJsWhiteSpace (trimStart (trim p)) := rfl
      rw [← heq, this] at hlen1
      exact hcon (hsuf.eq_of_length (Nat.le_antisymm hlen2 hlen1))
    have h2 := List.head_dropWhile_not isJsWhiteSpace (trim p) (by
      show trimStart (trim p) ≠ []
      rw [h1]; exact hf)
    have h3 : (List.dropWhile isJsWhiteSpace (trim p)).head (by
        show trimStart (trim p) ≠ []
        rw [h1]; exact hf) = (trim p).head hf := by
      congr 1
    rw [h3] at h2
    exact h2
  · intro hblank
    have hcomma : ',' ∉ formData.risk_factors := by
      intro hmem
      exact absurd (hblank _ hmem) (by decide)
    simp only [processRequest, applicationData, riskFactors, splitChar]
    rw [splitCharAux_of_not_mem _ _ _ hcomma]
    simp [trim_eq_nil_of_blank _ hblank]
  · decide

/-- Witness of C9: a risk-factor field made of two spaces gives the empty list. -/
theorem risk_factors_sent_witness :
    (processRequest { sampleForm with risk_factors := [' ', ' '] }).application_data.risk_factors
      = [] :=
  (risk_factors_sent { sampleForm with risk_factors := [' ', ' '] }).2.2.1 (by decide)

/-! ## Failed submissions: the claim -/

/-- C10: when a submission fails (the request throws, the response is not ok, or parsing the
body throws) and the callbacks do not throw, `handleSubmit` makes exactly one callback call,
an `onError` call (so `onSuccess` is not called), and when it finishes `result` is `null`,
whatever it was before, and `processing` is false. -/
theorem failed_submission (st : ProcessorState) (net : FetchResult)
    (hfail : submissionFails net = true) :
    (∃ message, (handleSubmit st net).calls = [Call.onError "Error" message]) ∧
    ((handleSubmit st net).calls.filter Call.isError).length = 1 ∧
    (handleSubmit st net).calls.filter Call.isSuccess = [] ∧
    (handleSubmit st net).state.result = none ∧
    (handleSubmit st net).state.processing = false := by
  have key : ∀ out : SubmitOutcome, (∃ message, out.calls = [Call.onError "Error" message]) →
      (∃ message, out.calls = [Call.onError "Error" message]) ∧
      (out.calls.filter Call.isError).length = 1 ∧ out.calls.filter Call.isSuccess = [] := by
    rintro out ⟨m, hm⟩
    refine ⟨⟨m, hm⟩, ?_, ?_⟩ <;> rw [hm] <;> rfl
  have main : (∃ message, (handleSubmit st net).calls = [Call.onError "Error" message]) ∧
      (handleSubmit st net).state.result = none ∧
      (handleSubmit st net).state.processing = false := by
    cases net with
    | rejected => exact ⟨⟨_, rfl⟩, rfl, rfl⟩
    | resolved response =>
      obtain ⟨status, body⟩ := response
      cases body with
      | none =>
        by_cases hok : Response.ok ⟨status, none⟩ = true <;>
          simp [handleSubmit, handleSubmitTry, hok]
      | some errorData =>
        have hok : Response.ok ⟨status, some errorData⟩ = false := by
          simpa [submissionFails] using hfail
        unfold handleSubmit handleSubmitTry
        simp only [hok, Bool.false_eq_true, if_false]
        cases errorData.prop "error".toList <;> simp
  exact ⟨(key _ main.1).1, (key _ main.1).2.1, (key _ main.1).2.2, main.2.1, main.2.2⟩

/-- Witness of C10: a result of an earlier submission is displayed and the server answers 500
with the body `{"error": "boom"}`; the error is reported once and no result is held. -/
theorem failed_submission_witness :
    submissionFails (.resolved ⟨500, some (.obj [("error".toList, .str "boom".toList)])⟩) = true ∧
    (handleSubmit ⟨false, false, some (.obj []), none, .str [], false, sampleForm⟩
      (.resolved ⟨500, some (.obj [("error".toList, .str "boom".toList)])⟩)).calls
        = [Call.onError "Error" (.str "boom".toList)] ∧
    (handleSubmit ⟨false, false, some (.obj []), none, .str [], false, sampleForm⟩
      (.resolved ⟨500, some (.obj [("error".toList, .str "boom".toList)])⟩)).state.result
        = none := by
  have h := failed_submission ⟨false, false, some (.obj []), none, .str [], false, sampleForm⟩
    (.resolved ⟨500, some (.obj [("error".toList, .str "boom".toList)])⟩) (by decide)
  exact ⟨by decide, by rfl, h.2.2.2.1⟩

/-! ## Explaining a flag: the claims -/

theorem explainFlag_of_guard_none (st : ProcessorState) (flag : Json) (net : FetchResult)
    (h : explainGuard st.result = none) :
    explainFlag st flag net =
      { state := st
        calls := [.onError "Error" (.str "No application ID available for explanation".toList)]
        requests := [] } := by
  unfold explainFlag
  rw [h]

theorem explainFlag_of_guard_some (st : ProcessorState) (flag : Json) (net : FetchResult)
    (id : Json) (h : explainGuard st.result = some id) :
    (explainFlag st flag net).requests = [{ application_id := id, selected_flag := flag }] := by
  unfold explainFlag
  rw [h]
  simp only
  cases explainFlagTry { st with explaining := true, selectedFlag := flag } net with
  | none => rfl
  | some p => rfl

theorem explainGuard_eq_some (result : Option Json) (id : Json) :
    explainGuard result = some id ↔
      ∃ r, result = some r ∧ r.truthy = true ∧
        r.prop "application_id".toList = some (some id) ∧ id.truthy = true := by
  constructor
  · intro h
    cases result with
    | none => exact absurd h (by simp [explainGuard])
    | some r =>
      simp only [explainGuard] at h
      by_cases hr : r.truthy = true
      · rw [if_pos hr] at h
        cases hp : r.prop "application_id".toList with
        | none => rw [hp] at h; exact absurd h (by simp)
        | some v =>
          cases v with
          | none => rw [hp] at h; exact absurd h (by simp)
          | some w =>
            rw [hp] at h
            by_cases hw : w.truthy = true
            · simp only [hw, if_true, Option.some.injEq] at h
              subst h
              exact ⟨r, rfl, hr, hp, hw⟩
            · simp only [hw] at h
              exact absurd h (by simp)
      · simp only [hr] at h
        exact absurd h (by simp)
  · rintro ⟨r, rfl, hr, hp, hid⟩
    simp only [explainGuard, hr, if_true, hp, hid]

/-- Every request of `explainFlag` comes from a result with a truthy `application_id`. -/
theorem explainFlag_sent (st : ProcessorState) (flag : Json) (net : FetchResult) :
    ∀ req ∈ (explainFlag st flag net).requests,
      ∃ r id, st.result = some r ∧ r.truthy = true ∧
        r.prop "application_id".toList = some (some id) ∧ id.truthy = true ∧
        req.application_id = id ∧ req.selected_flag = flag := by
  intro req hreq
  cases hg : explainGuard st.result with
  | none =>
    rw [explainFlag_of_guard_none st flag net hg] at hreq
    exact absurd hreq (by simp)
  | some id =>
    rw [explainFlag_of_guard_some st flag net id hg, List.mem_singleton] at hreq
    obtain ⟨r, h1, h2, h3, h4⟩ := (explainGuard_eq_some _ _).mp hg
    exact ⟨r, id, h1, h2, h3, h4, by rw [hreq], by rw [hreq]⟩

/-- C11: `explainFlag` sends a request only when a result whose `application_id` is truthy is
present, and it then sends exactly one request, with the body
`{application_id: result.application_id, selected_flag: flag}`; when there is no result
(`null`), or the result has no `application_id` (or a falsy one), it sends no request, makes
one `onError` call and leaves the whole state, so `explanation` and `selectedFlag`,
unchanged. -/
theorem explainFlag_requests (st : ProcessorState) (flag : Json) (net : FetchResult) :
    (∀ req ∈ (explainFlag st flag net).requests,
      ∃ r id, st.result = some r ∧ r.truthy = true ∧
        r.prop "application_id".toList = some (some id) ∧ id.truthy = true ∧
        req.application_id = id ∧ req.selected_flag = flag) ∧
    (∀ r id, st.result = some r → r.truthy = true →
      r.prop "application_id".toList = some (some id) → id.truthy = true →
      (explainFlag st flag net).requests = [{ application_id := id, selected_flag := flag }]) ∧
    ((st.result = none ∨ ∃ r, st.result = some r ∧
        (r.truthy = false ∨ r.prop "application_id".toList = some none ∨
          ∃ id, r.prop "application_id".toList = some (some id) ∧ id.truthy = false)) →
      (explainFlag st flag net).requests = [] ∧
      (explainFlag st flag net).calls
        = [.onError "Error" (.str "No application ID available for explanation".toList)] ∧
      (explainFlag st flag net).state.explanation = st.explanation ∧
      (explainFlag st flag net).state.selectedFlag = st.selectedFlag ∧
      (explainFlag st flag net).state.explaining = st.explaining) := by
  refine ⟨explainFlag_sent st flag net, ?_, ?_⟩
  · intro r id h1 h2 h3 h4
    exact explainFlag_of_guard_some st flag net id
      ((explainGuard_eq_some _ _).mpr ⟨r, h1, h2, h3, h4⟩)
  · intro h
    have hg : explainGuard st.result = none := by
      cases hg : explainGuard st.result with
      | none => rfl
      | some id =>
        exfalso
        obtain ⟨r, h1, h2, h3, h4⟩ := (explainGuard_eq_some _ _).mp hg
        rcases h with h | ⟨r', h1', h⟩
        · rw [h] at h1; exact absurd h1 (by simp)
        · rw [h1] at h1'
          obtain rfl := Option.some.inj h1'
          rcases h with h | h | ⟨id', h, h'⟩
          · rw [h2] at h; exact absurd h (by simp)
          · rw [h3] at h; exact absurd h (by simp)
          · rw [h3] at h
            obtain rfl := Option.some.inj (Option.some.inj h)
            rw [h4] at h'; exact absurd h' (by simp)
    rw [explainFlag_of_guard_none st flag net hg]
    exact ⟨rfl, rfl, rfl, rfl, rfl⟩

/-- Witness of C11: with the result `{application_id: 7, red_flags: ['flag A']}` displayed,
explaining 'flag A' sends `{application_id: 7, selected_flag: 'flag A'}`; with no result it
sends nothing and reports the error. -/
theorem explainFlag_requests_witness :
    (explainFlag ⟨false, false, some sampleResult, some (.str []), .str [], false, sampleForm⟩
      (.str "flag A".toList)
      (.resolved ⟨200, some (.obj [("explanation".toList, .str "because".toList)])⟩)).requests
      = [{ application_id := .num 7 0, selected_flag := .str "flag A".toList }] ∧
    (explainFlag ⟨false, false, none, some (.str []), .str [], false, sampleForm⟩
      (.str "flag A".toList) .rejected).requests = [] :=
  ⟨(explainFlag_requests _ _ _).2.1 sampleResult (.num 7 0) rfl (by decide) rfl (by decide),
    ((explainFlag_requests ⟨false, false, none, some (.str []), .str [], false, sampleForm⟩
      (.str "flag A".toList) .rejected).2.2 (Or.inl rfl)).1⟩

theorem lengthPositive_arr (rt : Builtins) (items : List Json) :
    lengthPositive rt (.arr items) = !items.isEmpty := by
  have h2 : 1 < 2 ^ 1075 := Nat.one_lt_two_pow (by decide)
  cases items with
  | nil => simp [lengthPositive, Json.getLength, gtZero]
  | cons a t =>
    have h3 : 1 < (t.length + 1) * 2 ^ 1075 :=
      lt_of_lt_of_le h2 (Nat.le_mul_of_pos_left _ (Nat.succ_pos _))
    have h4 : (0 : Int) < ((t.length + 1 : Nat) : Int) := by omega
    simp only [lengthPositive, Json.getLength, gtZero, Json.truthy, List.length_cons,
      List.isEmpty_cons, Bool.not_false, Bool.and_eq_true, decide_eq_true_eq]
    refine ⟨h4, ?_⟩
    simpa using h3

/-- C12: when the results card of a result `r` is displayed, the flags that have an Explain
button are the elements of `r.red_flags`, in the same order: each such flag is an element of
the list and each element has a button; and the `selected_flag` of a request that such a
button sends is its flag, an element of `r.red_flags`. -/
theorem explain_actions (rt : Builtins) (st : ProcessorState) (r : Json) (acts : List Json)
    (hres : st.result = some r) (hview : explainButtons rt st.result = some acts) :
    acts = redFlagsList r ∧ (∀ f, f ∈ acts ↔ f ∈ redFlagsList r) ∧
    ∀ f ∈ acts, ∀ net, ∀ req ∈ (explainFlag st f net).requests,
      req.selected_flag = f ∧ req.selected_flag ∈ redFlagsList r := by
  have hacts : acts = redFlagsList r := by
    rw [hres] at hview
    unfold explainButtons at hview
    unfold redFlagsList
    by_cases hr : r.truthy = true
    · simp only [hr, if_true] at hview
      cases hp : r.prop "red_flags".toList with
      | none => rw [hp] at hview; simpa using hview.symm
      | some v =>
        cases v with
        | none => rw [hp] at hview; simpa using hview.symm
        | some rf =>
          rw [hp] at hview
          simp only at hview
          cases rf with
          | arr items =>
            rw [lengthPositive_arr] at hview
            cases items with
            | nil => simpa [Json.truthy] using hview.symm
            | cons a t => simpa [Json.truthy] using hview.symm
          | null => simpa [Json.truthy] using hview.symm
          | bool b =>
            cases b <;> simp [Json.truthy, lengthPositive, Json.getLength, gtZero] at hview
            all_goals simpa using hview.symm
          | num m e =>
            simp only [lengthPositive, Json.getLength, gtZero, Bool.and_false,
              Bool.false_eq_true, if_false, Option.some.injEq] at hview
            simpa using hview.symm
          | str s =>
            by_cases hb : ((Json.str s).truthy && lengthPositive rt (Json.str s)) = true
            · rw [if_pos hb] at hview; exact absurd hview (by simp)
            · rw [if_neg hb] at hview; simpa using hview.symm
          | obj fields =>
            by_cases hb : ((Json.obj fields).truthy && lengthPositive rt (Json.obj fields)) = true
            · rw [if_pos hb] at hview; exact absurd hview (by simp)
            · rw [if_neg hb] at hview; simpa using hview.symm
    · simp only [hr, Bool.false_eq_true, if_false, Option.some.injEq] at hview
      subst hview
      cases r with
      | null => rfl
      | bool b => rfl
      | num m e => rfl
      | str s => rfl
      | arr items => exact absurd rfl hr
      | obj fields => exact absurd rfl hr
  refine ⟨hacts, fun f => by rw [hacts], ?_⟩
  intro f hf net req hreq
  obtain ⟨_, _, _, _, _, _, _, hsel⟩ := explainFlag_sent st f net req hreq
  rw [hsel]
  exact ⟨rfl, hacts ▸ hf⟩

/-- Witness of C12: the result `{application_id: 7, red_flags: ['flag A', 'flag B']}` shows
one Explain button for each of its two flags. -/
theorem explain_actions_witness :
    explainButtons sampleBuiltins (some sampleResult)
      = some [.str "flag A".toList, .str "flag B".toList] ∧
    [Json.str "flag A".toList, Json.str "flag B".toList] = redFlagsList sampleResult :=
  ⟨rfl, (explain_actions sampleBuiltins
    ⟨false, false, some sampleResult, some (.str []), .str [], false, sampleForm⟩ sampleResult
    [.str "flag A".toList, .str "flag B".toList] rfl rfl).1⟩

/-! ## Filtering the application list: the claim -/

/-- C13: the request of `applyFilters` carries, for each of the four filter fields, the field
under its own key with its value unchanged exactly when the value is not blank after
trimming, and no other key; each key occurs at most once; when all four fields are blank the
filter set is empty.  With lob 'auto' and status 'processed' and the two other fields blank,
the filter set is `{lob: 'auto', status: 'processed'}`. -/
theorem applyFilters_request (filters : Filters) :
    (applyFiltersRequest filters).params.lookup "applicant_id".toList
      = (if trim filters.applicant_id = [] then none else some filters.applicant_id) ∧
    (applyFiltersRequest filters).params.lookup "policy_id".toList
      = (if trim filters.policy_id = [] then none else some filters.policy_id) ∧
    (applyFiltersRequest filters).params.lookup "lob".toList
      = (if trim filters.lob = [] then none else some filters.lob) ∧
    (applyFiltersRequest filters).params.lookup "status".toList
      = (if trim filters.status = [] then none else some filters.status) ∧
    (∀ entry ∈ (applyFiltersRequest filters).params,
      entry.1 ∈ ["applicant_id".toList, "policy_id".toList, "lob".toList, "status".toList]) ∧
    ((applyFiltersRequest filters).params.map Prod.fst).Nodup ∧
    (trim filters.applicant_id = [] → trim filters.policy_id = [] → trim filters.lob = [] →
      trim filters.status = [] → (applyFiltersRequest filters).params = []) ∧
    (applyFiltersRequest ⟨[], [], "auto".toList, "processed".toList⟩).params
      = [("lob".toList, "auto".toList), ("status".toList, "processed".toList)] := by
  have hn : ["applicant_id".toList, "policy_id".toList, "lob".toList, "status".toList].Nodup := by
    decide
  have hsub : ((applyFiltersRequest filters).params.map Prod.fst).Sublist
      ["applicant_id".toList, "policy_id".toList, "lob".toList, "status".toList] := by
    have : (filters.entries.map Prod.fst)
        = ["applicant_id".toList, "policy_id".toList, "lob".toList, "status".toList] := rfl
    rw [← this]
    exact (List.filter_sublist _).map _
  have hlook : ∀ t1 t2 t3 t4 : JsString,
      let params := [("applicant_id".toList, filters.applicant_id, t1),
        ("policy_id".toList, filters.policy_id, t2), ("lob".toList, filters.lob, t3),
        ("status".toList, filters.status, t4)].filterMap
          (fun e => if !e.2.2.isEmpty then some (e.1, e.2.1) else none)
      params.lookup "applicant_id".toList = (if t1 = [] then none else some filters.applicant_id) ∧
      params.lookup "policy_id".toList = (if t2 = [] then none else some filters.policy_id) ∧
      params.lookup "lob".toList = (if t3 = [] then none else some filters.lob) ∧
      params.lookup "status".toList = (if t4 = [] then none else some filters.status) ∧
      (t1 = [] → t2 = [] → t3 = [] → t4 = [] → params = []) := by
    intro t1 t2 t3 t4
    cases t1 <;> cases t2 <;> cases t3 <;> cases t4 <;>
      exact ⟨rfl, rfl, rfl, rfl, fun h1 h2 h3 h4 => by
        first
        | rfl
        | exact absurd h1 (List.cons_ne_nil _ _)
        | exact absurd h2 (List.cons_ne_nil _ _)
        | exact absurd h3 (List.cons_ne_nil _ _)
        | exact absurd h4 (List.cons_ne_nil _ _)⟩
  have hparams : (applyFiltersRequest filters).params
      = [("applicant_id".toList, filters.applicant_id, trim filters.applicant_id),
        ("policy_id".toList, filters.policy_id, trim filters.policy_id),
        ("lob".toList, filters.lob, trim filters.lob),
        ("status".toList, filters.status, trim filters.status)].filterMap
          (fun e => if !e.2.2.isEmpty then some (e.1, e.2.1) else none) := by
    simp only [applyFiltersRequest, getApplicationsRequest, activeFilters, Filters.entries,
      List.filter, List.filterMap]
    cases (trim filters.applicant_id).isEmpty <;> cases (trim filters.policy_id).isEmpty <;>
      cases (trim filters.lob).isEmpty <;> cases (trim filters.status).isEmpty <;> rfl
  obtain ⟨h1, h2, h3, h4, h5⟩ := hlook (trim filters.applicant_id) (trim filters.policy_id)
    (trim filters.lob) (trim filters.status)
  rw [← hparams] at h1 h2 h3 h4 h5
  refine ⟨h1, h2, h3, h4, ?_, hsub.nodup hn, h5, by decide⟩
  intro entry hentry
  exact hsub.subset (List.mem_map_of_mem Prod.fst hentry)

/-- Witness of C13: four blank fields, two of them made of spaces, give the empty filter
set. -/
theorem applyFilters_request_witness :
    (applyFiltersRequest ⟨[], "  ".toList, [], " ".toList⟩).params = [] :=
  (applyFilters_request ⟨[], "  ".toList, [], " ".toList⟩).2.2.2.2.2.2.1
    (by decide) (by decide) (by decide) (by decide)

/-! ## Creating a claim, a policy or a regulation: the claims -/

/-- A metadata field that is not empty and that `JSON.parse` rejects stops `handleSubmit`. -/
theorem createSubmit_invalid {Form : Type} (rt : Builtins) (cfg : ManagerConfig Form)
    (st : ManagerState Form) (net : FetchResult)
    (hne : cfg.metadataOf st.formData ≠ [])
    (hbad : rt.jsonParse (cfg.metadataOf st.formData) = none) :
    (createSubmit rt cfg st net).requests = [] ∧
    (createSubmit rt cfg st net).calls
      = [.onError "Error" (.str "Invalid JSON in metadata field".toList)] ∧
    (createSubmit rt cfg st net).state.items = st.items ∧
    (createSubmit rt cfg st net).state.formData = st.formData ∧
    (createSubmit rt cfg st net).state.showForm = st.showForm ∧
    (createSubmit rt cfg st net).state.creating = false := by
  have he : (cfg.metadataOf st.formData).isEmpty = false := by
    cases h : cfg.metadataOf st.formData with
    | nil => exact absurd h hne
    | cons a t => rfl
  unfold createSubmit
  simp [he, hbad]

/-- The requests of `handleSubmit`, from the outcome of reading the metadata field. -/
theorem createSubmit_requests_eq {Form : Type} (rt : Builtins) (cfg : ManagerConfig Form)
    (st : ManagerState Form) (net : FetchResult) :
    (createSubmit rt cfg st net).requests =
      match (if (cfg.metadataOf st.formData).isEmpty then some (Json.obj [])
        else rt.jsonParse (cfg.metadataOf st.formData)) with
      | none => []
      | some metadata => [{ url := cfg.url, body := cfg.bodyOf st.formData metadata }] := by
  unfold createSubmit
  dsimp only
  generalize (if (cfg.metadataOf st.formData).isEmpty then some (Json.obj [])
      else rt.jsonParse (cfg.metadataOf st.formData)) = parsed
  cases parsed with
  | none => rfl
  | some metadata =>
    dsimp only
    generalize createTry rt cfg { st with creating := true } net = tried
    obtain ⟨st2, call⟩ := tried
    cases call <;> rfl

/-- The requests of `handleSubmit`: at most one, whose body holds the parsed metadata. -/
theorem createSubmit_requests {Form : Type} (rt : Builtins) (cfg : ManagerConfig Form)
    (st : ManagerState Form) (net : FetchResult) :
    ∀ req ∈ (createSubmit rt cfg st net).requests,
      (createSubmit rt cfg st net).requests = [req] ∧ req.url = cfg.url ∧
      ∃ metadata, req.body = cfg.bodyOf st.formData metadata ∧
        ((cfg.metadataOf st.formData = [] ∧ metadata = .obj []) ∨
          (cfg.metadataOf st.formData ≠ [] ∧
            rt.jsonParse (cfg.metadataOf st.formData) = some metadata)) := by
  intro req hreq
  rw [createSubmit_requests_eq] at hreq ⊢
  cases hf : cfg.metadataOf st.formData with
  | nil =>
    rw [hf] at hreq
    simp only [List.isEmpty_nil, if_true] at hreq ⊢
    rw [List.mem_singleton] at hreq
    subst hreq
    exact ⟨rfl, rfl, _, rfl, Or.inl ⟨trivial, rfl⟩⟩
  | cons a t =>
    rw [hf] at hreq
    simp only [List.isEmpty_cons, Bool.false_eq_true, if_false] at hreq ⊢
    cases hp : rt.jsonParse (a :: t) with
    | none =>
      rw [hp] at hreq
      exact absurd hreq (by simp)
    | some metadata =>
      rw [hp] at hreq
      rw [List.mem_singleton] at hreq
      subst hreq
      exact ⟨rfl, rfl, _, rfl, Or.inr ⟨List.cons_ne_nil _ _, rfl⟩⟩

/-- C14: in `ClaimManager`, `PolicyManager` and `RegulationManager`, when the metadata field
is not empty and is not valid JSON, `handleSubmit` sends no request, makes the single call
`onError('Error', 'Invalid JSON in metadata field')`, leaves the displayed list and the form
data unchanged, and `creating` is false when it finishes. -/
theorem invalid_metadata_rejected (rt : Builtins) (net : FetchResult) :
    (∀ st : ManagerState ClaimForm, st.formData.metadata ≠ [] →
      rt.jsonParse st.formData.metadata = none →
      (ClaimManager.handleSubmit rt st net).requests = [] ∧
      (ClaimManager.handleSubmit rt st net).calls
        = [.onError "Error" (.str "Invalid JSON in metadata field".toList)] ∧
      (ClaimManager.handleSubmit rt st net).state.items = st.items ∧
      (ClaimManager.handleSubmit rt st net).state.formData = st.formData ∧
      (ClaimManager.handleSubmit rt st net).state.creating = false) ∧
    (∀ st : ManagerState PolicyForm, st.formData.metadata ≠ [] →
      rt.jsonParse st.formData.metadata = none →
      (PolicyManager.handleSubmit rt st net).requests = [] ∧
      (PolicyManager.handleSubmit rt st net).calls
        = [.onError "Error" (.str "Invalid JSON in metadata field".toList)] ∧
      (PolicyManager.handleSubmit rt st net).state.items = st.items ∧
      (PolicyManager.handleSubmit rt st net).state.formData = st.formData ∧
      (PolicyManager.handleSubmit rt st net).state.creating = false) ∧
    (∀ st : ManagerState RegulationForm, st.formData.metadata ≠ [] →
      rt.jsonParse st.formData.metadata = none →
      (RegulationManager.handleSubmit rt st net).requests = [] ∧
      (RegulationManager.handleSubmit rt st net).calls
        = [.onError "Error" (.str "Invalid JSON in metadata field".toList)] ∧
      (RegulationManager.handleSubmit rt st net).state.items = st.items ∧
      (RegulationManager.handleSubmit rt st net).state.formData = st.formData ∧
      (RegulationManager.handleSubmit rt st net).state.creating = false) := by
  refine ⟨fun st hne hbad => ?_, fun st hne hbad => ?_, fun st hne hbad => ?_⟩
  · obtain ⟨h1, h2, h3, h4, _, h6⟩ := createSubmit_invalid rt claimManager st net hne hbad
    exact ⟨h1, h2, h3, h4, h6⟩
  · obtain ⟨h1, h2, h3, h4, _, h6⟩ := createSubmit_invalid rt policyManager st net hne hbad
    exact ⟨h1, h2, h3, h4, h6⟩
  · obtain ⟨h1, h2, h3, h4, _, h6⟩ := createSubmit_invalid rt regulationManager st net hne hbad
    exact ⟨h1, h2, h3, h4, h6⟩

/-- Witness of C14: the claim form with the metadata 'not json', which `JSON.parse` rejects,
while one claim is displayed. -/
theorem invalid_metadata_rejected_witness :
    (ClaimManager.handleSubmit sampleBuiltins
      ⟨[.obj []], false, false, true, ⟨"C-1".toList, "APP-1".toList, [], "not json".toList⟩⟩
      .rejected).requests = [] ∧
    (ClaimManager.handleSubmit sampleBuiltins
      ⟨[.obj []], false, false, true, ⟨"C-1".toList, "APP-1".toList, [], "not json".toList⟩⟩
      .rejected).state.creating = false :=
  ⟨((invalid_metadata_rejected sampleBuiltins .rejected).1
      ⟨[.obj []], false, false, true, ⟨"C-1".toList, "APP-1".toList, [], "not json".toList⟩⟩
      (by decide) rfl).1,
    ((invalid_metadata_rejected sampleBuiltins .rejected).1
      ⟨[.obj []], false, false, true, ⟨"C-1".toList, "APP-1".toList, [], "not json".toList⟩⟩
      (by decide) rfl).2.2.2.2⟩

/-- Counterexample to C15: with the metadata field `[]`, which `JSON.parse` reads as the empty
array, `ClaimManager.handleSubmit` sends a request whose metadata is that array, not a
mapping. -/
theorem metadata_counterexample :
    (ClaimManager.handleSubmit sampleBuiltins
      ⟨[], false, false, true, ⟨"C-1".toList, "APP-1".toList, [], "[]".toList⟩⟩
      .rejected).requests.map (fun req => req.body.prop "metadata".toList)
      = [some (some (.arr []))] ∧
    (Json.arr []).isMapping = false ∧ sampleBuiltins.jsonParse "[]".toList = some (.arr []) :=
  ⟨rfl, rfl, rfl⟩

/-- C15 (amended): every create request of `ClaimManager`, `PolicyManager` and
`RegulationManager` is the only request of its submission and carries, next to the text
fields of the form, a `metadata` that is the empty mapping when the metadata field is empty,
and otherwise the value that `JSON.parse` gives for the field, whatever JSON value that is; so
a field that is not valid JSON is never sent. -/
theorem metadata_sent (rt : Builtins) (net : FetchResult) :
    (∀ (st : ManagerState ClaimForm), ∀ req ∈ (ClaimManager.handleSubmit rt st net).requests,
      (ClaimManager.handleSubmit rt st net).requests = [req] ∧
      ∃ metadata, req.body = .obj [("claim_id".toList, .str st.formData.claim_id),
          ("applicant_id".toList, .str st.formData.applicant_id),
          ("text".toList, .str st.formData.text), ("metadata".toList, metadata)] ∧
        ((st.formData.metadata = [] ∧ metadata = .obj []) ∨
          (st.formData.metadata ≠ [] ∧ rt.jsonParse st.formData.metadata = some metadata))) ∧
    (∀ (st : ManagerState PolicyForm), ∀ req ∈ (PolicyManager.handleSubmit rt st net).requests,
      (PolicyManager.handleSubmit rt st net).requests = [req] ∧
      ∃ metadata, req.body = .obj [("policy_id".toList, .str st.formData.policy_id),
          ("text".toList, .str st.formData.text), ("metadata".toList, metadata)] ∧
        ((st.formData.metadata = [] ∧ metadata = .obj []) ∨
          (st.formData.metadata ≠ [] ∧ rt.jsonParse st.formData.metadata = some metadata))) ∧
    (∀ (st : ManagerState RegulationForm),
      ∀ req ∈ (RegulationManager.handleSubmit rt st net).requests,
      (RegulationManager.handleSubmit rt st net).requests = [req] ∧
      ∃ metadata, req.body = .obj [("regulation_id".toList, .str st.formData.regulation_id),
          ("lob".toList, .str st.formData.lob),
          ("text".toList, .str st.formData.text), ("metadata".toList, metadata)] ∧
        ((st.formData.metadata = [] ∧ metadata = .obj []) ∨
          (st.formData.metadata ≠ [] ∧ rt.jsonParse st.formData.metadata = some metadata))) := by
  refine ⟨fun st req hreq => ?_, fun st req hreq => ?_, fun st req hreq => ?_⟩
  · obtain ⟨h1, _, md, h3, h4⟩ := createSubmit_requests rt claimManager st net req hreq
    exact ⟨h1, md, h3, h4⟩
  · obtain ⟨h1, _, md, h3, h4⟩ := createSubmit_requests rt policyManager st net req hreq
    exact ⟨h1, md, h3, h4⟩
  · obtain ⟨h1, _, md, h3, h4⟩ := createSubmit_requests rt regulationManager st net req hreq
    exact ⟨h1, md, h3, h4⟩

/-- Witness of C15 (amended): the policy form with the metadata `{}` sends one request. -/
theorem metadata_sent_witness :
    ∃ req, req ∈ (PolicyManager.handleSubmit sampleBuiltins
        ⟨[], false, false, true, ⟨"POL-1".toList, "text".toList, "{}".toList⟩⟩ .rejected).requests ∧
      (PolicyManager.handleSubmit sampleBuiltins
        ⟨[], false, false, true, ⟨"POL-1".toList, "text".toList, "{}".toList⟩⟩ .rejected).requests
        = [req] :=
  ⟨⟨"http://localhost:8000/api/policies/", .obj [("policy_id".toList, .str "POL-1".toList),
      ("text".toList, .str "text".toList), ("metadata".toList, .obj [])]⟩,
    List.mem_singleton.mpr rfl,
    ((metadata_sent sampleBuiltins .rejected).2.1
      ⟨[], false, false, true, ⟨"POL-1".toList, "text".toList, "{}".toList⟩⟩ _
      (List.mem_singleton.mpr rfl)).1⟩

/-! ## Generating embeddings: the claim -/

/-- A text trims to the empty string exactly when all its characters are whitespace. -/
theorem trim_eq_nil_iff (s : JsString) : trim s = [] ↔ ∀ c ∈ s, isJsWhiteSpace c = true := by
  constructor
  · intro h
    rw [trim_eq_rdropWhile, List.rdropWhile_eq_nil_iff] at h
    have hd : s.dropWhile isJsWhiteSpace = [] := by
      by_contra hne
      have h1 := List.head_dropWhile_not isJsWhiteSpace s hne
      have h2 := h _ (List.head_mem hne)
      rw [h1] at h2
      exact absurd h2 (by simp)
    exact List.dropWhile_eq_nil_iff.mp hd
  · intro h
    have : s.dropWhile isJsWhiteSpace = [] := List.dropWhile_eq_nil_iff.mpr h
    simp [trim, trimStart, trimEnd, this]

/-- A character other than the separator lies in one of the pieces of a split. -/
theorem splitCharAux_mem (sep c : Char) (s cur : List Char) (hc : c ∈ cur ∨ c ∈ s)
    (hsep : c ≠ sep) : ∃ p ∈ splitCharAux sep s cur, c ∈ p := by
  induction s generalizing cur with
  | nil =>
    rcases hc with hc | hc
    · exact ⟨cur.reverse, by simp [splitCharAux], List.mem_reverse.mpr hc⟩
    · exact absurd hc (by simp)
  | cons a s ih =>
    unfold splitCharAux
    by_cases ha : a = sep
    · rw [if_pos ha]
      rcases hc with hc | hc
      · exact ⟨cur.reverse, by simp, List.mem_reverse.mpr hc⟩
      · have hcs : c ∈ s := by
          rcases List.mem_cons.mp hc with h | h
          · exact absurd (h.trans ha) hsep
          · exact h
        obtain ⟨p, hp, hcp⟩ := ih [] (Or.inr hcs)
        exact ⟨p, List.mem_cons_of_mem _ hp, hcp⟩
    · rw [if_neg ha]
      apply ih
      rcases hc with hc | hc
      · exact Or.inl (List.mem_cons_of_mem _ hc)
      · rcases List.mem_cons.mp hc with h | h
        · exact Or.inl (by rw [h]; exact List.mem_cons_self _ _)
        · exact Or.inr h

theorem handleGenerateEmbeddings_requests (rt : Builtins) (st : GenerateState)
    (net : FetchResult) :
    (handleGenerateEmbeddings rt st net).requests =
      if trim st.inputTexts = [] then []
      else [{ model := "embed-model".toList, input := textArray st.inputTexts }] := by
  unfold handleGenerateEmbeddings
  by_cases h : trim st.inputTexts = []
  · rw [if_pos h, if_pos h]
  · rw [if_neg h, if_neg h]
    dsimp only
    generalize generateTry rt { st with loading := true } net = tried
    obtain ⟨st2, call⟩ := tried
    cases call <;> rfl

/-- C16: `handleGenerateEmbeddings` sends a request if and only if the text has a character
that is not whitespace, and then sends exactly one, with model 'embed-model' and with the
input made of the lines of the text (the pieces between newlines, which contain no newline and
joined by newlines give the text back) that are not blank after trimming, untrimmed and in
their order; this input is not empty and contains no blank string. -/
theorem embeddings_request (rt : Builtins) (st : GenerateState) (net : FetchResult) :
    ((handleGenerateEmbeddings rt st net).requests ≠ [] ↔
      ∃ c ∈ st.inputTexts, isJsWhiteSpace c = false) ∧
    ∀ req ∈ (handleGenerateEmbeddings rt st net).requests,
      (handleGenerateEmbeddings rt st net).requests = [req] ∧
      req.model = "embed-model".toList ∧
      (∃ lines : List JsString, jsJoin ['\n'] lines = st.inputTexts ∧
        (∀ line ∈ lines, '\n' ∉ line) ∧
        req.input = lines.filter (fun line => decide (trim line ≠ []))) ∧
      req.input ≠ [] ∧ ∀ line ∈ req.input, trim line ≠ [] ∧ line ≠ [] := by
  have hblank : trim st.inputTexts ≠ [] ↔ ∃ c ∈ st.inputTexts, isJsWhiteSpace c = false := by
    rw [ne_eq, trim_eq_nil_iff]
    push_neg
    constructor
    · rintro ⟨c, hc, hw⟩
      exact ⟨c, hc, by simpa using hw⟩
    · rintro ⟨c, hc, hw⟩
      exact ⟨c, hc, by simp [hw]⟩
  have hfilter : ∀ l : List JsString, l.filter (fun text => !(trim text).isEmpty)
      = l.filter (fun line => decide (trim line ≠ [])) := by
    intro l
    apply List.filter_congr
    intro x _
    cases trim x <;> simp
  rw [handleGenerateEmbeddings_requests]
  constructor
  · rw [← hblank]
    by_cases h : trim st.inputTexts = [] <;> simp [h]
  · intro req hreq
    by_cases h : trim st.inputTexts = []
    · rw [if_pos h] at hreq
      exact absurd hreq (by simp)
    · rw [if_neg h] at hreq ⊢
      rw [List.mem_singleton] at hreq
      subst hreq
      have hmem : ∀ line ∈ textArray st.inputTexts, trim line ≠ [] ∧ line ≠ [] := by
        intro line hline
        simp only [textArray, List.mem_filter] at hline
        have h1 : trim line ≠ [] := by
          intro h0
          rw [h0] at hline
          exact absurd hline.2 (by decide)
        refine ⟨h1, ?_⟩
        rintro rfl
        exact h1 rfl
      refine ⟨rfl, rfl, ⟨splitChar '\n' st.inputTexts, ?_, ?_, hfilter _⟩, ?_, hmem⟩
      · simpa [splitChar] using jsJoin_splitCharAux '\n' st.inputTexts []
      · exact splitCharAux_no_sep '\n' st.inputTexts [] (by simp)
      · obtain ⟨c, hc, hw⟩ := hblank.mp h
        have hnl : c ≠ '\n' := by
          rintro rfl
          exact absurd hw (by decide)
        obtain ⟨p, hp, hcp⟩ := splitCharAux_mem '\n' c st.inputTexts [] (Or.inr hc) hnl
        have hpt : trim p ≠ [] := by
          rw [ne_eq, trim_eq_nil_iff]
          intro hall
          rw [hall c hcp] at hw
          exact absurd hw (by simp)
        intro hnil
        have : p ∈ textArray st.inputTexts := by
          simp only [textArray, List.mem_filter]
          refine ⟨hp, ?_⟩
          cases hq : trim p with
          | nil => exact absurd hq hpt
          | cons a t => rfl
        have hnil' : textArray st.inputTexts = [] := hnil
        rw [hnil'] at this
        exact absurd this (by simp)

/-- Witness of C16: the text 'first line', an empty line, a line of spaces and ' second ' gives
the input ['first line', ' second ']. -/
theorem embeddings_request_witness :
    (handleGenerateEmbeddings sampleBuiltins
      ⟨"first line\n\n   \n second ".toList, false, none⟩ .rejected).requests.map
        (fun req => (req.model, req.input))
      = [("embed-model".toList, ["first line".toList, " second ".toList])] ∧
    ((handleGenerateEmbeddings sampleBuiltins
      ⟨"first line\n\n   \n second ".toList, false, none⟩ .rejected).requests ≠ [] ↔
      ∃ c ∈ "first line\n\n   \n second ".toList, isJsWhiteSpace c = false) :=
  ⟨by decide, (embeddings_request sampleBuiltins
    ⟨"first line\n\n   \n second ".toList, false, none⟩ .rejected).1⟩

/-! ## Determinism of chunking: the claim -/

/-- C17: what `demonstrateChunking` produces depends on the input text only: two runs on the
same text, from states that may display different chunks, make the same callback calls and,
when the text is not blank, leave the same chunk sequence (so the same length and the same
`index`, `text`, `wordCount`, `startWord` and `endWord` at every position); on a blank text
both runs emit nothing and leave the displayed chunks as they were.  Running it again on the
state it left gives the same chunks, for every text. -/
theorem chunking_deterministic (st1 st2 : EmbeddingState)
    (htext : st1.inputTexts = st2.inputTexts) :
    (demonstrateChunking st1).2 = (demonstrateChunking st2).2 ∧
    (trim st1.inputTexts ≠ [] →
      (demonstrateChunking st1).1.chunks = (demonstrateChunking st2).1.chunks ∧
      (demonstrateChunking st1).1.chunks.length = (demonstrateChunking st2).1.chunks.length ∧
      ∀ k : Nat,
        (demonstrateChunking st1).1.chunks[k]? = (demonstrateChunking st2).1.chunks[k]?) ∧
    (trim st1.inputTexts = [] →
      (demonstrateChunking st1).1 = st1 ∧ (demonstrateChunking st2).1 = st2) ∧
    (demonstrateChunking (demonstrateChunking st1).1).1.chunks
      = (demonstrateChunking st1).1.chunks := by
  have hrun : ∀ st : EmbeddingState, trim st.inputTexts ≠ [] →
      (demonstrateChunking st).1.chunks = chunkLoop (splitWs (trim st.inputTexts)) 0 ∧
      (demonstrateChunking st).1.inputTexts = st.inputTexts := by
    intro st h
    simp [demonstrateChunking, h]
  have hblank : ∀ st : EmbeddingState, trim st.inputTexts = [] →
      demonstrateChunking st = (st, [Call.onError "Error"
        (.str "Please enter some text to demonstrate chunking".toList)]) := by
    intro st h
    simp [demonstrateChunking, h]
  refine ⟨?_, ?_, ?_, ?_⟩
  · by_cases h : trim st1.inputTexts = []
    · rw [hblank st1 h, hblank st2 (htext ▸ h)]
    · have h2 : trim st2.inputTexts ≠ [] := htext ▸ h
      simp only [demonstrateChunking, h, h2, if_false, htext]
  · intro h
    have h2 : trim st2.inputTexts ≠ [] := htext ▸ h
    have heq : (demonstrateChunking st1).1.chunks = (demonstrateChunking st2).1.chunks := by
      rw [(hrun st1 h).1, (hrun st2 h2).1, htext]
    exact ⟨heq, by rw [heq], fun k => by rw [heq]⟩
  · intro h
    rw [hblank st1 h, hblank st2 (htext ▸ h)]
    exact ⟨rfl, rfl⟩
  · by_cases h : trim st1.inputTexts = []
    · rw [hblank st1 h]
      simp only
      rw [hblank st1 h]
    · have hin := (hrun st1 h).2
      have h' : trim (demonstrateChunking st1).1.inputTexts ≠ [] := by rw [hin]; exact h
      rw [(hrun _ h').1, hin, (hrun st1 h).1]

/-- Witness of C17: two runs on the 45-word text, the second from a state that displays a
chunk, leave the same chunks. -/
theorem chunking_deterministic_witness :
    (demonstrateChunking ⟨text45, []⟩).1.chunks
      = (demonstrateChunking ⟨text45, [⟨0, [], 0, 0, 0⟩]⟩).1.chunks :=
  ((chunking_deterministic ⟨text45, []⟩ ⟨text45, [⟨0, [], 0, 0, 0⟩]⟩ rfl).2.1 (by decide)).1

/-! ## The line-of-business options: the claim -/

/-- C18: the line-of-business values of the application form, of the regulation form and of
the list filter are the same list in the same order, namely auto, home, health, life,
commercial, travel, without duplicates (and the labels agree too). -/
theorem lob_options_agree :
    UnderwritingProcessor.lobOptions.map Prod.fst = RegulationManager.lobOptions.map Prod.fst ∧
    RegulationManager.lobOptions.map Prod.fst
      = ApplicationResultsViewer.lobFilterOptions.map Prod.fst ∧
    UnderwritingProcessor.lobOptions.map Prod.fst
      = ["auto", "home", "health", "life", "commercial", "travel"] ∧
    (UnderwritingProcessor.lobOptions.map Prod.fst).Nodup ∧
    UnderwritingProcessor.lobOptions = RegulationManager.lobOptions ∧
    RegulationManager.lobOptions = ApplicationResultsViewer.lobFilterOptions := by
  refine ⟨rfl, rfl, rfl, by decide, rfl, rfl⟩

/-! ## The red flags of the detail view: the claim -/

theorem lengthPositive_map_str (rt : Builtins) (flags : List JsString) :
    lengthPositive rt (.arr (flags.map Json.str)) = !flags.isEmpty := by
  rw [lengthPositive_arr]
  cases flags <;> rfl

/-- C19: for every risk assessment stored as the spec describes, with `red_flags_count` the
length of `red_flags`, the detail view shows the Red Flags section exactly when there is a
flag, lists the flags in their order, and writes in the heading their number: the count
displayed equals the number of flags listed. -/
theorem red_flags_count_shown (rt : Builtins) (a : RiskAssessment) (selectedApplication : Json)
    (hsel : selectedApplication.truthy = true)
    (hra : selectedApplication.prop "risk_assessment".toList = some (some a.toJson)) :
    (a.red_flags ≠ [] →
      redFlagsSection rt selectedApplication
        = some (some { count := some (.num a.red_flags.length 0),
                       flags := a.red_flags.map Json.str })) ∧
    (a.red_flags = [] → redFlagsSection rt selectedApplication = some none) ∧
    ∀ section_, redFlagsSection rt selectedApplication = some (some section_) →
      section_.count = some (.num section_.flags.length 0) ∧
      section_.flags = a.red_flags.map Json.str := by
  have hflags : a.toJson.prop "red_flags".toList = some (some (.arr (a.red_flags.map Json.str))) :=
    rfl
  have hcount : a.toJson.prop "red_flags_count".toList
      = some (some (.num a.red_flags.length 0)) := rfl
  have hshown : a.red_flags ≠ [] →
      redFlagsSection rt selectedApplication
        = some (some { count := some (.num a.red_flags.length 0),
                       flags := a.red_flags.map Json.str }) := by
    intro hne
    have hpos : lengthPositive rt (.arr (a.red_flags.map Json.str)) = true := by
      rw [lengthPositive_map_str]
      cases h : a.red_flags with
      | nil => exact absurd h hne
      | cons x t => rfl
    have htr : (Json.arr (a.red_flags.map Json.str)).truthy = true := rfl
    unfold redFlagsSection
    simp only [hsel, if_true, hra, hflags, hcount, hpos, htr, Bool.and_self]
  have hhidden : a.red_flags = [] → redFlagsSection rt selectedApplication = some none := by
    intro hnil
    have hpos : lengthPositive rt (.arr (a.red_flags.map Json.str)) = false := by
      rw [lengthPositive_map_str, hnil]
      rfl
    unfold redFlagsSection
    simp only [hsel, if_true, hra, hflags, hpos, Bool.and_false, Bool.false_eq_true, if_false]
  refine ⟨hshown, hhidden, ?_⟩
  intro section_ hsec
  by_cases hne : a.red_flags = []
  · rw [hhidden hne] at hsec
    exact absurd hsec (by simp)
  · rw [hshown hne] at hsec
    have := Option.some.inj (Option.some.inj hsec)
    subst this
    simp

/-- Witness of C19: the detail of an application whose stored assessment has two flags shows
'Red Flags (2)' above the two flags. -/
theorem red_flags_count_shown_witness :
    redFlagsSection sampleBuiltins (.obj [("risk_assessment".toList, sampleAssessment.toJson)])
      = some (some { count := some (.num 2 0),
                     flags := [.str "flag A".toList, .str "flag B".toList] }) :=
  (red_flags_count_shown sampleBuiltins sampleAssessment
    (.obj [("risk_assessment".toList, sampleAssessment.toJson)]) rfl rfl).1 (by decide)

/-! ## The status along a pipeline run: the claim -/

theorem pipelineStep_status (ok : Bool) (run : PipelineRun) :
    (pipelineStep ok run).status = run.status ∨
      (run.state = .analyzing ∧ ok = true ∧ (pipelineStep ok run).state = .processed ∧
        (pipelineStep ok run).status = .processed) := by
  obtain ⟨state, status⟩ := run
  cases state <;> cases ok <;> simp [pipelineStep]

theorem pipelineStep_processed (ok : Bool) (run : PipelineRun)
    (h : run.status = .processed) : (pipelineStep ok run).status = .processed := by
  rcases pipelineStep_status ok run with h1 | h1
  · rw [h1, h]
  · exact h1.2.2.2

theorem pipelineStep_terminal (ok : Bool) (run : PipelineRun)
    (h : run.state = .processed ∨ run.state = .failed) : pipelineStep ok run = run := by
  obtain ⟨state, status⟩ := run
  rcases h with h | h <;> simp only at h <;> subst h <;> rfl

theorem pipelineEnd_terminal (run : PipelineRun) (oks : List Bool)
    (h : run.state = .processed ∨ run.state = .failed) : pipelineEnd run oks = run := by
  induction oks with
  | nil => rfl
  | cons ok oks ih =>
    unfold pipelineEnd at ih ⊢
    rw [List.foldl_cons, pipelineStep_terminal ok run h]
    exact ih

theorem statusFlips_terminal (run : PipelineRun) (oks : List Bool)
    (h : run.state = .processed ∨ run.state = .failed) :
    statusFlips (pipelineTrace run oks) = 0 := by
  induction oks with
  | nil => rfl
  | cons ok oks ih =>
    cases oks with
    | nil =>
      simp only [pipelineTrace, statusFlips, pipelineStep_terminal ok run h]
      cases run.status <;> simp
    | cons ok' oks' =>
      simp only [pipelineTrace, pipelineStep_terminal ok run h] at ih ⊢
      simp only [statusFlips] at ih ⊢
      cases hs : run.status <;> simp [hs] at ih ⊢ <;> exact ih

theorem statusReverts_zero (run : PipelineRun) (oks : List Bool) :
    statusReverts (pipelineTrace run oks) = 0 := by
  induction oks generalizing run with
  | nil => rfl
  | cons ok oks ih =>
    have h := ih (pipelineStep ok run)
    cases oks with
    | nil =>
      simp only [pipelineTrace, statusReverts]
      by_cases hp : run.status = .processed
      · simp [pipelineStep_processed ok run hp]
      · simp [hp]
    | cons ok' oks' =>
      simp only [pipelineTrace] at h ⊢
      simp only [statusReverts] at h ⊢
      by_cases hp : run.status = .processed
      · simp only [pipelineStep_processed ok run hp, reduceCtorEq, and_false, if_false,
          Nat.zero_add]
        exact h
      · simp only [hp, false_and, if_false, Nat.zero_add]
        exact h

/-- Counterexample to C20: in a run for a pending Application whose fetch step fails, the
status does not change from pending to processed at all: the run ends `Failed` with the
status still pending. -/
theorem pipeline_counterexample :
    statusFlips (pipelineTrace ⟨.submitted, .pending⟩ [true, false]) = 0 ∧
    pipelineEnd ⟨.submitted, .pending⟩ [true, false] = ⟨.failed, .pending⟩ := by
  decide

theorem pipelineEnd_cons (run : PipelineRun) (ok : Bool) (oks : List Bool) :
    pipelineEnd run (ok :: oks) = pipelineEnd (pipelineStep ok run) oks := rfl

theorem pipelineEnd_processed (run : PipelineRun) (oks : List Bool)
    (h : run.status = .processed) : (pipelineEnd run oks).status = .processed := by
  induction oks generalizing run with
  | nil => exact h
  | cons ok oks ih =>
    rw [pipelineEnd_cons]
    exact ih _ (pipelineStep_processed ok run h)

theorem statusFlips_cons (run : PipelineRun) (ok : Bool) (oks : List Bool) :
    statusFlips (pipelineTrace run (ok :: oks))
      = (if run.status = .pending ∧ (pipelineStep ok run).status = .processed then 1 else 0)
        + statusFlips (pipelineTrace (pipelineStep ok run) oks) := by
  cases oks <;> rfl

/-- The number of changes from pending to processed along a run, from its two ends. -/
theorem statusFlips_eq (run : PipelineRun) (oks : List Bool) :
    statusFlips (pipelineTrace run oks)
      = if run.status = .pending ∧ (pipelineEnd run oks).status = .processed then 1 else 0 := by
  induction oks generalizing run with
  | nil =>
    have : ¬ (run.status = .pending ∧ (pipelineEnd run []).status = .processed) := by
      rintro ⟨h1, h2⟩
      have h3 : run.status = .processed := h2
      rw [h1] at h3
      exact absurd h3 (by decide)
    rw [if_neg this]
    rfl
  | cons ok oks ih =>
    rw [statusFlips_cons, ih, pipelineEnd_cons]
    rcases pipelineStep_status ok run with h | ⟨_, _, _, h⟩
    · rw [h]
      have : ¬ (run.status = .pending ∧ run.status = .processed) := by
        rintro ⟨h1, h2⟩
        rw [h1] at h2
        exact absurd h2 (by decide)
      rw [if_neg this, Nat.zero_add]
    · have hend := pipelineEnd_processed _ oks h
      rw [h, hend]
      by_cases hp : run.status = .pending
      · simp [hp]
      · simp [hp]

/-- Along a run for an Application that was pending at the start, the status is processed
exactly in the state `Processed`. -/
theorem pipelineEnd_invariant (run : PipelineRun) (oks : List Bool)
    (h : run.status = .processed ↔ run.state = .processed) :
    (pipelineEnd run oks).status = .processed ↔ (pipelineEnd run oks).state = .processed := by
  induction oks generalizing run with
  | nil => exact h
  | cons ok oks ih =>
    rw [pipelineEnd_cons]
    apply ih
    obtain ⟨state, status⟩ := run
    cases state <;> cases status <;> cases ok <;> simp [pipelineStep] at h ⊢

/-- C20 (amended): along every pipeline run, whatever the outcomes of its steps, the status
changes from pending to processed at most once and never from processed to pending; it
changes exactly once if and only if the Application was pending at the start and the run ends
in `Processed`; a change of the status happens only at the transition from `Analyzing` to
`Processed`, on a successful analysis; and a run that ends in `Failed` leaves the status as it
was. -/
theorem pipeline_status (status : AppStatus) (oks : List Bool) :
    statusFlips (pipelineTrace ⟨.submitted, status⟩ oks) ≤ 1 ∧
    statusReverts (pipelineTrace ⟨.submitted, status⟩ oks) = 0 ∧
    (statusFlips (pipelineTrace ⟨.submitted, status⟩ oks) = 1 ↔
      status = .pending ∧ (pipelineEnd ⟨.submitted, status⟩ oks).state = .processed) ∧
    (∀ (ok : Bool) (run : PipelineRun), (pipelineStep ok run).status ≠ run.status →
      run.state = .analyzing ∧ ok = true ∧ run.status = .pending ∧
      pipelineStep ok run = ⟨.processed, .processed⟩) ∧
    ((pipelineEnd ⟨.submitted, status⟩ oks).state = .failed →
      (pipelineEnd ⟨.submitted, status⟩ oks).status = status ∧
      statusFlips (pipelineTrace ⟨.submitted, status⟩ oks) = 0) := by
  have hflips := statusFlips_eq ⟨.submitted, status⟩ oks
  have hinv : status = .pending →
      ((pipelineEnd ⟨.submitted, status⟩ oks).status = .processed ↔
        (pipelineEnd ⟨.submitted, status⟩ oks).state = .processed) := by
    intro hs
    apply pipelineEnd_invariant
    subst hs
    simp
  refine ⟨?_, statusReverts_zero _ oks, ?_, ?_, ?_⟩
  · rw [hflips]
    split <;> omega
  · rw [hflips]
    constructor
    · intro h
      by_cases hc : (PipelineRun.mk .submitted status).status = .pending ∧
          (pipelineEnd ⟨.submitted, status⟩ oks).status = .processed
      · exact ⟨hc.1, (hinv hc.1).mp hc.2⟩
      · rw [if_neg hc] at h
        exact absurd h (by decide)
    · rintro ⟨hs, hend⟩
      rw [if_pos ⟨hs, (hinv hs).mpr hend⟩]
  · intro ok run hne
    obtain ⟨state, st⟩ := run
    cases state <;> cases st <;> cases ok <;> simp [pipelineStep] at hne ⊢
  · intro hfailed
    cases status with
    | pending =>
      have hnp : (pipelineEnd ⟨.submitted, .pending⟩ oks).status ≠ .processed := by
        intro h
        rw [(hinv rfl).mp h] at hfailed
        exact absurd hfailed (by decide)
      refine ⟨?_, ?_⟩
      · cases h : (pipelineEnd ⟨.submitted, .pending⟩ oks).status with
        | pending => rfl
        | processed => exact absurd h hnp
      · rw [hflips, if_neg (fun hc => hnp hc.2)]
    | processed =>
      refine ⟨pipelineEnd_processed _ oks rfl, ?_⟩
      rw [hflips, if_neg (fun hc => absurd hc.1 (by decide))]

/-- Witness of C20 (amended): a run of four successful steps for a pending Application flips
the status once; a run whose retrieval fails leaves it pending. -/
theorem pipeline_status_witness :
    statusFlips (pipelineTrace ⟨.submitted, .pending⟩ [true, true, true, true]) = 1 ∧
    (pipelineEnd ⟨.submitted, .pending⟩ [true, true, false]).status = .pending :=
  ⟨(pipeline_status .pending [true, true, true, true]).2.2.1.mpr ⟨rfl, by decide⟩,
    ((pipeline_status .pending [true, true, false]).2.2.2.2 (by decide)).1⟩

/-! ## Retrieval: the claim -/

theorem ranksBefore_total (env : RetrievalEnv) (application : Json) (c d : RetrievalChunk) :
    ranksBefore env application c d ∨ ranksBefore env application d c := by
  unfold ranksBefore
  rcases lt_trichotomy (env.similarity application c.text) (env.similarity application d.text)
    with h | h | h
  · exact Or.inr (Or.inl h)
  · rcases Nat.lt_trichotomy c.document d.document with h' | h' | h'
    · exact Or.inl (Or.inr ⟨h, Or.inl h'⟩)
    · rcases Nat.le_total c.index d.index with h'' | h''
      · exact Or.inl (Or.inr ⟨h, Or.inr ⟨h', h''⟩⟩)
      · exact Or.inr (Or.inr ⟨h.symm, Or.inr ⟨h'.symm, h''⟩⟩)
    · exact Or.inr (Or.inr ⟨h.symm, Or.inl h'⟩)
  · exact Or.inl (Or.inl h)

theorem ranksBefore_trans (env : RetrievalEnv) (application : Json) (c d e : RetrievalChunk)
    (hcd : ranksBefore env application c d) (hde : ranksBefore env application d e) :
    ranksBefore env application c e := by
  unfold ranksBefore at *
  rcases hcd with h1 | ⟨h1, k1⟩ <;> rcases hde with h2 | ⟨h2, k2⟩
  · exact Or.inl (h2.trans h1)
  · exact Or.inl (h2 ▸ h1)
  · exact Or.inl (h1 ▸ h2)
  · refine Or.inr ⟨h1.trans h2, ?_⟩
    omega

theorem outranks_asymm (env : RetrievalEnv) (application : Json) (c d : RetrievalChunk)
    (hcd : outranks env application c d) (hdc : outranks env application d c) : False := by
  unfold outranks at *
  rcases hcd with h1 | ⟨h1, k1⟩ <;> rcases hdc with h2 | ⟨h2, k2⟩
  · exact lt_asymm h1 h2
  · exact lt_irrefl _ (h2 ▸ h1)
  · exact lt_irrefl _ (h1 ▸ h2)
  · omega

theorem chunksFrom_document_ge (env : RetrievalEnv) (documents : List JsString) (d : Nat) :
    ∀ c ∈ chunksFrom env d documents, d ≤ c.document := by
  induction documents generalizing d with
  | nil => intro c hc; simp [chunksFrom] at hc
  | cons doc rest ih =>
    intro c hc
    simp only [chunksFrom, List.mem_append, List.mem_map] at hc
    rcases hc with ⟨p, _, rfl⟩ | hc
    · exact le_refl d
    · exact Nat.le_of_succ_le (ih (d + 1) c hc)

/-- The chunks are listed by increasing document position and, within a document, by
increasing index. -/
theorem chunksFrom_pairwise (env : RetrievalEnv) (documents : List JsString) (d : Nat) :
    (chunksFrom env d documents).Pairwise
      (fun c e => c.document < e.document ∨ (c.document = e.document ∧ c.index < e.index)) := by
  induction documents generalizing d with
  | nil => exact List.Pairwise.nil
  | cons doc rest ih =>
    simp only [chunksFrom]
    rw [List.pairwise_append]
    refine ⟨?_, ih (d + 1), ?_⟩
    · rw [List.pairwise_map]
      have h : ((env.chunk doc).enum.map Prod.fst).Pairwise (fun a b => a < b) := by
        rw [List.enum_map_fst]
        exact List.pairwise_lt_range _
      rw [List.pairwise_map] at h
      exact h.imp (fun hab => Or.inr ⟨rfl, hab⟩)
    · intro c hc e he
      obtain ⟨p, _, rfl⟩ := List.mem_map.mp hc
      exact Or.inl (chunksFrom_document_ge env rest (d + 1) e he)

theorem rankChunks_perm (env : RetrievalEnv) (application : Json) (documents : List JsString) :
    (rankChunks env application documents).Perm (allChunks env documents) :=
  List.perm_insertionSort _ _

theorem rankChunks_sorted (env : RetrievalEnv) (application : Json)
    (documents : List JsString) :
    (rankChunks env application documents).Pairwise (ranksBefore env application) := by
  haveI : IsTotal RetrievalChunk (ranksBefore env application) :=
    ⟨ranksBefore_total env application⟩
  haveI : IsTrans RetrievalChunk (ranksBefore env application) :=
    ⟨ranksBefore_trans env application⟩
  exact List.sorted_insertionSort (ranksBefore env application) (allChunks env documents)

/-- The ranking is strict: two chunks of the ranking are never tied. -/
theorem rankChunks_outranks (env : RetrievalEnv) (application : Json)
    (documents : List JsString) :
    (rankChunks env application documents).Pairwise (outranks env application) := by
  have hkeys : (allChunks env documents).Pairwise
      (fun c e => ¬ (c.document = e.document ∧ c.index = e.index)) :=
    (chunksFrom_pairwise env documents 0).imp (fun h => by omega)
  have hkeys' : (rankChunks env application documents).Pairwise
      (fun c e => ¬ (c.document = e.document ∧ c.index = e.index)) :=
    (List.Perm.pairwise_iff (fun h h' => h ⟨h'.1.symm, h'.2.symm⟩)
      (rankChunks_perm env application documents)).mpr hkeys
  refine ((rankChunks_sorted env application documents).and hkeys').imp ?_
  rintro c e ⟨h, hne⟩
  unfold ranksBefore at h
  unfold outranks
  rcases h with h | ⟨h, k⟩
  · exact Or.inl h
  · refine Or.inr ⟨h, ?_⟩
    omega

/-- C21: for every application, document set and `top_k` of at least 1, `retrieve` returns
`top_k` chunks, or all the chunks when there are fewer, so at most `top_k` and at least one
when there is a chunk; each is a chunk of the documents with its similarity score; they are in
order of descending similarity, ties broken by the order of the documents and then by the
index of the chunk; a chunk that is not returned ranks after every returned one; and the
ranking is the only arrangement of the chunks in that order, so the same inputs give the same
ranking. -/
theorem retrieve_ranked (env : RetrievalEnv) (application : Json) (documents : List JsString)
    (top_k : Nat) (h : 1 ≤ top_k) :
    (retrieve env application documents top_k).length
      = min top_k (allChunks env documents).length ∧
    (retrieve env application documents top_k).length ≤ top_k ∧
    (allChunks env documents ≠ [] → retrieve env application documents top_k ≠ []) ∧
    (∀ p ∈ retrieve env application documents top_k,
      p.1 ∈ allChunks env documents ∧ p.2 = env.similarity application p.1.text) ∧
    (retrieve env application documents top_k).Pairwise
      (fun p q => q.2 < p.2 ∨ (p.2 = q.2 ∧
        (p.1.document < q.1.document ∨
          (p.1.document = q.1.document ∧ p.1.index < q.1.index)))) ∧
    (∀ p ∈ retrieve env application documents top_k, ∀ c ∈ allChunks env documents,
      (c, env.similarity application c.text) ∉ retrieve env application documents top_k →
        outranks env application p.1 c) ∧
    (∀ ranking : List RetrievalChunk, ranking.Perm (allChunks env documents) →
      ranking.Pairwise (outranks env application) →
      (ranking.take top_k).map (fun c => (c, env.similarity application c.text))
        = retrieve env application documents top_k) := by
  have hlen : (retrieve env application documents top_k).length
      = min top_k (allChunks env documents).length := by
    simp only [retrieve, List.length_map, List.length_take, rankChunks,
      List.length_insertionSort]
  have hstrict := rankChunks_outranks env application documents
  refine ⟨hlen, ?_, ?_, ?_, ?_, ?_, ?_⟩
  · rw [hlen]
    exact Nat.min_le_left _ _
  · intro hne hnil
    have hpos : 0 < (allChunks env documents).length := List.length_pos.mpr hne
    have hzero : (retrieve env application documents top_k).length = 0 := by
      rw [hnil]
      rfl
    rw [hlen] at hzero
    omega
  · intro p hp
    obtain ⟨c, hc, rfl⟩ := List.mem_map.mp hp
    exact ⟨(rankChunks_perm env application documents).subset (List.mem_of_mem_take hc), rfl⟩
  · unfold retrieve
    rw [List.pairwise_map]
    exact hstrict.sublist (List.take_sublist _ _)
  · intro p hp c hc hnot
    obtain ⟨b, hb, rfl⟩ := List.mem_map.mp hp
    have hrank : c ∈ rankChunks env application documents :=
      (rankChunks_perm env application documents).symm.subset hc
    rw [← List.take_append_drop top_k (rankChunks env application documents),
      List.mem_append] at hrank
    rcases hrank with hin | hin
    · exact absurd (List.mem_map.mpr ⟨c, hin, rfl⟩) hnot
    · exact List.Sorted.rel_of_mem_take_of_mem_drop hstrict hb hin
  · intro ranking hperm hsorted
    haveI : IsAntisymm RetrievalChunk (outranks env application) :=
      ⟨fun c d hcd hdc => (outranks_asymm env application c d hcd hdc).elim⟩
    have heq : ranking = rankChunks env application documents :=
      List.eq_of_perm_of_sorted
        (hperm.trans (rankChunks_perm env application documents).symm) hsorted hstrict
    rw [heq]
    rfl

/-- Witness of C21: of the chunks 'ab', 'cdef' of a first document and 'ghij', 'k' of a
second one, the two best are 'cdef' and 'ghij', in the order of their documents. -/
theorem retrieve_ranked_witness :
    1 ≤ 2 ∧
    retrieve sampleRetrievalEnv .null ["ab\ncdef".toList, "ghij\nk".toList] 2
      = [(⟨0, 1, "cdef".toList⟩, 1), (⟨1, 0, "ghij".toList⟩, 1)] ∧
    (retrieve sampleRetrievalEnv .null ["ab\ncdef".toList, "ghij\nk".toList] 2).length ≤ 2 :=
  ⟨by decide, by decide,
    (retrieve_ranked sampleRetrievalEnv .null ["ab\ncdef".toList, "ghij\nk".toList] 2
      (by decide)).2.1⟩

/-! ## Chunk sizes and the inverse of chunking: the claims -/

/-- C22: for a non-blank text, every emitted chunk has `startWord ≤ endWord`,
`wordCount = endWord - startWord + 1` and `1 ≤ wordCount ≤ 50`. -/
theorem chunk_wordCount (st : EmbeddingState) (h : trim st.inputTexts ≠ []) (c : Chunk)
    (hc : c ∈ (demonstrateChunking st).1.chunks) :
    c.startWord ≤ c.endWord ∧ c.wordCount = c.endWord - c.startWord + 1 ∧
    1 ≤ c.wordCount ∧ c.wordCount ≤ 50 := by
  have hw := words_wf st.inputTexts h
  obtain ⟨k, hk⟩ := List.getElem?_of_mem hc
  obtain ⟨hlt, rfl⟩ := emitted_eq_mkChunk st h k c hk
  obtain ⟨_, h2, h3, _, _, h6⟩ := mkChunk_fields _ (40 * k) hlt hw
  rw [h2, h3, h6]
  omega

/-- Witness of C22: the last chunk of the 45-word text has the 5 words 40 to 44. -/
theorem chunk_wordCount_witness :
    (mkChunk (splitWs (trim text45)) 40).wordCount
      = (mkChunk (splitWs (trim text45)) 40).endWord
        - (mkChunk (splitWs (trim text45)) 40).startWord + 1 ∧
    (mkChunk (splitWs (trim text45)) 40).wordCount = 5 := by
  have hne : trim text45 ≠ [] := by decide
  have hN : (splitWs (trim text45)).length = 45 := by decide
  have hc : (demonstrateChunking ⟨text45, []⟩).1.chunks[1]?
      = some (mkChunk (splitWs (trim text45)) (40 * 1)) := by
    rw [emitted_getElem? ⟨text45, []⟩ hne 1, if_pos (by rw [hN]; decide)]
  exact ⟨(chunk_wordCount ⟨text45, []⟩ hne _ (List.getElem?_mem hc)).2.1, by decide⟩

theorem drop_take_append_drop {α : Type} (xs : List α) (i n : Nat) :
    (xs.take (i + n)).drop i ++ xs.drop (i + n) = xs.drop i := by
  have h1 : (xs.take (i + n)).drop i = (xs.drop i).take n := by
    rw [List.take_drop]
  rw [h1]
  have h2 : xs.drop (i + n) = (xs.drop i).drop n := by
    rw [List.drop_drop]
  rw [h2, List.take_append_drop]

/-- The first 40 words of the chunk pushed at `i`. -/
theorem mkChunk_head (words : List JsString) (i : Nat) (hi : i < words.length)
    (hw : ∀ w ∈ words, w ≠ [] ∧ ∀ c ∈ w, isJsWhiteSpace c = false) :
    (splitWs (mkChunk words i).text).take (min 40 (mkChunk words i).wordCount)
      = (words.take (i + 40)).drop i := by
  obtain ⟨_, _, _, _, h5, h6⟩ := mkChunk_fields words i hi hw
  have hlen : (mkChunk words i).wordCount = (splitWs (mkChunk words i).text).length := rfl
  rw [hlen, take_min_length, h5, jsSlice, List.take_drop, List.take_take]
  have : min (i + 40) (i + 50) = i + 40 := by omega
  rw [this]

/-- Dropping the overlap tails of the chunks pushed from `i` on gives the words from `i`. -/
theorem chunkLoop_heads (words : List JsString)
    (hw : ∀ w ∈ words, w ≠ [] ∧ ∀ c ∈ w, isJsWhiteSpace c = false) (i : Nat) :
    ((chunkLoop words i).map
      (fun c => (splitWs c.text).take (min 40 c.wordCount))).flatten = words.drop i := by
  have key : ∀ n, ∀ i, words.length - i = n →
      ((chunkLoop words i).map
        (fun c => (splitWs c.text).take (min 40 c.wordCount))).flatten = words.drop i := by
    intro n
    induction n using Nat.strong_induction_on with
    | _ n ih =>
      intro i hn
      rw [chunkLoop]
      by_cases h : i < words.length
      · rw [if_pos h, List.map_cons, List.flatten_cons, mkChunk_head words i h hw,
          ih (words.length - (i + (chunkSize - overlap)))
            (by simp only [chunkSize, overlap]; omega) _ rfl]
        have : i + (chunkSize - overlap) = i + 40 := by simp [chunkSize, overlap]
        rw [this, drop_take_append_drop]
      · rw [if_neg h, List.drop_eq_nil_of_le (by omega)]
        rfl
  exact key _ i rfl

/-- C23: for a non-blank text, concatenating in emission order the first
`min 40 wordCount` words of each emitted chunk gives back the word sequence of the text. -/
theorem chunks_undo (st : EmbeddingState) (h : trim st.inputTexts ≠ []) :
    ((demonstrateChunking st).1.chunks.map
      (fun c => (splitWs c.text).take (min 40 c.wordCount))).flatten
      = splitWs (trim st.inputTexts) := by
  rw [demonstrateChunking_chunks st h, chunkLoop_heads _ (words_wf st.inputTexts h) 0]
  rfl

/-- Witness of C23: the 45-word text is recovered from its two chunks. -/
theorem chunks_undo_witness :
    ((demonstrateChunking ⟨text45, []⟩).1.chunks.map
      (fun c => (splitWs c.text).take (min 40 c.wordCount))).flatten
      = splitWs (trim text45) :=
  chunks_undo ⟨text45, []⟩ (by decide)

/-! ## The risk badge: the claims -/

theorem strictZero_nat (n : Nat) : strictZero (.num n 0) = decide (n = 0) := by
  have h2 : 1 < 2 ^ 1075 := Nat.one_lt_two_pow (by decide)
  cases n with
  | zero => simp [strictZero, Json.truthy]
  | succ k =>
    have h3 : 1 < (k + 1) * 2 ^ 1075 :=
      lt_of_lt_of_le h2 (Nat.le_mul_of_pos_left _ (Nat.succ_pos _))
    have h4 : ((k + 1 : Nat) : Int).natAbs = k + 1 := Int.natAbs_ofNat _
    simp only [strictZero, Json.truthy, h4]
    simpa using h3

theorem leTwo_nat (rt : Builtins) (n : Nat) : leTwo rt (.num n 0) = decide (n ≤ 2) := by
  simp only [leTwo]
  apply decide_eq_decide.mpr
  simp only [Int.toNat_zero, pow_zero, mul_one, neg_zero]
  norm_num
  omega

/-- C24: `getRiskBadgeColor` and `getRiskLevel` agree: for every count the colour is 'green'
exactly when the level is 'Low Risk', 'yellow' exactly when it is 'Medium Risk' and 'red'
exactly when it is 'High Risk'; the same holds on every value that the functions can be
called with, and on a count the functions on values are the functions on counts. -/
theorem risk_badge_agrees :
    (∀ n : Nat,
      (getRiskBadgeColor n = "green" ↔ getRiskLevel n = "Low Risk") ∧
      (getRiskBadgeColor n = "yellow" ↔ getRiskLevel n = "Medium Risk") ∧
      (getRiskBadgeColor n = "red" ↔ getRiskLevel n = "High Risk")) ∧
    (∀ (rt : Builtins) (v : Json),
      (getRiskBadgeColorOf rt v = "green" ↔ getRiskLevelOf rt v = "Low Risk") ∧
      (getRiskBadgeColorOf rt v = "yellow" ↔ getRiskLevelOf rt v = "Medium Risk") ∧
      (getRiskBadgeColorOf rt v = "red" ↔ getRiskLevelOf rt v = "High Risk")) ∧
    (∀ (rt : Builtins) (n : Nat),
      getRiskBadgeColorOf rt (.num n 0) = getRiskBadgeColor n ∧
      getRiskLevelOf rt (.num n 0) = getRiskLevel n) := by
  refine ⟨?_, ?_, ?_⟩
  · intro n
    unfold getRiskBadgeColor getRiskLevel
    by_cases h0 : n = 0
    · simp [h0]
    · by_cases h2 : n ≤ 2
      · simp only [h0, h2, if_false, if_true]
        decide
      · simp only [h0, h2, if_false]
        decide
  · intro rt v
    unfold getRiskBadgeColorOf getRiskLevelOf
    cases strictZero v
    · cases leTwo rt v
      · simp only [Bool.false_eq_true, if_false]
        decide
      · simp only [Bool.false_eq_true, if_false, if_true]
        decide
    · simp only [if_true]
      decide
  · intro rt n
    unfold getRiskBadgeColorOf getRiskLevelOf getRiskBadgeColor getRiskLevel
    rw [strictZero_nat, leTwo_nat]
    by_cases h0 : n = 0
    · simp [h0]
    · by_cases h2 : n ≤ 2 <;> simp [h0, h2]

/-- C25: an application whose summary is missing (absent or `null`), or whose summary has no
`red_flags_count`, gets the green badge with the text 'Low Risk' and the red flags
number 0. -/
theorem missing_summary_low_risk (rt : Builtins) (app : Json)
    (h : app.prop "summary".toList = some none ∨
      ∃ summary, app.prop "summary".toList = some (some summary) ∧
        (summary = .null ∨ summary.prop "red_flags_count".toList = some none)) :
    applicationCardRisk rt app
      = some { colorScheme := "green", level := "Low Risk", redFlags := .num 0 0 } ∧
    getRiskBadgeColor 0 = "green" ∧ getRiskLevel 0 = "Low Risk" := by
  have hcount : cardFlagCount app = some (.num 0 0) := by
    unfold cardFlagCount
    rcases h with h | ⟨summary, h, hs⟩
    · rw [h]
    · rw [h]
      rcases hs with rfl | hs
      · rfl
      · simp only [hs]
        rfl
  refine ⟨?_, rfl, rfl⟩
  unfold applicationCardRisk
  rw [hcount]
  rfl

/-- Witness of C25: a pending application without a summary, and one whose summary lacks the
count. -/
theorem missing_summary_low_risk_witness :
    applicationCardRisk sampleBuiltins (.obj [("status".toList, .str "pending".toList)])
      = some { colorScheme := "green", level := "Low Risk", redFlags := .num 0 0 } ∧
    applicationCardRisk sampleBuiltins
      (.obj [("summary".toList, .obj [("has_recommendations".toList, .bool false)])])
      = some { colorScheme := "green", level := "Low Risk", redFlags := .num 0 0 } :=
  ⟨(missing_summary_low_risk sampleBuiltins
      (.obj [("status".toList, .str "pending".toList)]) (Or.inl rfl)).1,
    (missing_summary_low_risk sampleBuiltins
      (.obj [("summary".toList, .obj [("has_recommendations".toList, .bool false)])])
      (Or.inr ⟨_, rfl, Or.inr rfl⟩)).1⟩

/-! ## The operations of the service: the claim -/

theorem serviceResult_http (response : Response) :
    (serviceResult (.resolved response)
        = .error (.http ("HTTP error! status: ".toList ++ (toString response.status).toList)) ↔
      response.ok = false) ∧
    ((∃ message, serviceResult (.resolved response) = .error (.http message)) ↔
      response.ok = false) ∧
    (response.ok = true →
      serviceResult (.resolved response)
        = match response.body with
          | some data => .ok data
          | none => .error .parse) := by
  by_cases hok : response.ok = true
  · have hres : serviceResult (.resolved response)
        = match response.body with
          | some data => .ok data
          | none => .error .parse := by
      simp only [serviceResult, hok, Bool.not_true, Bool.false_eq_true, if_false]
    rw [hres]
    refine ⟨?_, ?_, fun _ => rfl⟩
    · constructor
      · intro h
        cases hb : response.body with
        | none => rw [hb] at h; exact absurd h (by simp)
        | some data => rw [hb] at h; exact absurd h (by simp)
      · intro h
        rw [hok] at h
        exact absurd h (by simp)
    · constructor
      · rintro ⟨message, h⟩
        cases hb : response.body with
        | none => rw [hb] at h; exact absurd h (by simp)
        | some data => rw [hb] at h; exact absurd h (by simp)
      · intro h
        rw [hok] at h
        exact absurd h (by simp)
  · have hok' : response.ok = false := by
      cases h : response.ok with
      | true => exact absurd h hok
      | false => rfl
    have hres : serviceResult (.resolved response)
        = .error (.http ("HTTP error! status: ".toList ++
            (toString response.status).toList)) := by
      simp only [serviceResult, hok', Bool.not_false, if_true]
    rw [hres]
    exact ⟨⟨fun _ => hok', fun _ => rfl⟩, ⟨fun _ => hok', fun _ => ⟨_, rfl⟩⟩,
      fun h => absurd h hok⟩

/-- C26: for each of the six operations of `underwritingService` and every response, the
operation rejects with an `Error` whose message is 'HTTP error! status: ' followed by the
status if and only if the response is not ok; when the response is ok, its outcome is the
outcome of `response.json()`: the parsed body, or the rejection of the parsing. -/
theorem service_operations (rt : Builtins) (response : Response)
    (filters : List (JsString × JsString)) (applicationId : Option Json)
    (applicationData flagId selectedFlag inputTexts : Json) (model : Option Json) :
    ∀ result ∈
      [(underwritingService.getApplications filters (.resolved response)).2,
        (underwritingService.getApplicationDetails rt applicationId (.resolved response)).2,
        (underwritingService.getDashboardOverview (.resolved response)).2,
        (underwritingService.processApplication applicationData (.resolved response)).2,
        (underwritingService.explainFlag flagId selectedFlag (.resolved response)).2,
        (underwritingService.generateEmbeddings inputTexts model (.resolved response)).2],
      (result = .error (.http ("HTTP error! status: ".toList ++
          (toString response.status).toList)) ↔ response.ok = false) ∧
      ((∃ message, result = .error (.http message)) ↔ response.ok = false) ∧
      (response.ok = true →
        result = match response.body with
          | some data => .ok data
          | none => .error .parse) := by
  intro result hresult
  have h : result = serviceResult (.resolved response) := by
    simp only [List.mem_cons, List.mem_singleton, List.not_mem_nil, or_false] at hresult
    rcases hresult with h | h | h | h | h | h <;> exact h
  rw [h]
  exact serviceResult_http response

/-- Witness of C26: the status 404 makes `getDashboardOverview` reject with
'HTTP error! status: 404'. -/
theorem service_operations_witness :
    (underwritingService.getDashboardOverview (.resolved ⟨404, some .null⟩)).2
      = .error (.http "HTTP error! status: 404".toList) := by
  have h := (service_operations sampleBuiltins ⟨404, some .null⟩ [] none .null .null .null
    .null none _ (List.mem_cons_of_mem _ (List.mem_cons_of_mem _ (List.mem_cons_self _ _)))).1
  exact h.mpr rfl

/-! ## Deleting a claim, a policy or a regulation: the claim -/

theorem filterOthers_eq (rt : Builtins) (target : Option Json) (items : List Json)
    (h : ∀ item ∈ items, item ≠ .null) :
    filterOthers rt target items
      = some (items.filter (fun item => !rt.strictEq (itemId item) target)) := by
  induction items with
  | nil => rfl
  | cons item rest ih =>
    have hrest := ih (fun x hx => h x (List.mem_cons_of_mem _ hx))
    have hitem := h item (List.mem_cons_self _ _)
    have hid : item.prop "id".toList = some (itemId item) := by
      cases item with
      | null => exact absurd rfl hitem
      | bool b => rfl
      | num m e => rfl
      | str s => rfl
      | arr xs => rfl
      | obj fields => rfl
    simp only [filterOthers, hid, hrest, List.filter_cons]
    cases rt.strictEq (itemId item) target <;> rfl

/-- What a delete handler does with the answer of `fetch`. -/
theorem deleteItem_spec {Form : Type} (rt : Builtins) (cfg : DeleteConfig)
    (st : ManagerState Form) (target : Option Json) :
    (∀ response : Response, response.ok = true → (∀ item ∈ st.items, item ≠ .null) →
      (deleteItem rt cfg st target (.resolved response)).state.items
        = st.items.filter (fun item => !rt.strictEq (itemId item) target) ∧
      (deleteItem rt cfg st target (.resolved response)).calls
        = [.onSuccess "Success" (.str cfg.deleted.toList)]) ∧
    (∀ response : Response, response.ok = false →
      (deleteItem rt cfg st target (.resolved response)).state = st ∧
      (deleteItem rt cfg st target (.resolved response)).calls
        = [.onError "Error" (.str cfg.failed.toList)]) ∧
    ((deleteItem rt cfg st target .rejected).state = st ∧
      (deleteItem rt cfg st target .rejected).calls
        = [.onError "Error" (.str cfg.network.toList)]) := by
  refine ⟨?_, ?_, ⟨rfl, rfl⟩⟩
  · intro response hok hitems
    unfold deleteItem
    simp only [hok, if_true, filterOthers_eq rt target st.items hitems]
    constructor <;> first | rfl | trivial
  · intro response hok
    unfold deleteItem
    simp only [hok, Bool.false_eq_true, if_false]
    constructor <;> first | rfl | trivial

/-- C27: for `deleteClaim`, `deletePolicy` and `deleteRegulation` and any target id: when the
DELETE response is ok, the displayed list (whose entries are not `null`) becomes the previous
list without the entries whose `id` is `===` to the target, the others being kept in their
order, and the success is reported; when the response is not ok or the request throws, the
state, so the displayed list, is unchanged and one `onError` call is made. -/
theorem delete_frame (rt : Builtins) (target : Option Json) :
    (∀ (st : ManagerState ClaimForm),
      (∀ response : Response, response.ok = true → (∀ item ∈ st.items, item ≠ .null) →
        (deleteClaim rt st target (.resolved response)).state.items
          = st.items.filter (fun item => !rt.strictEq (itemId item) target)) ∧
      (∀ response : Response, response.ok = false →
        (deleteClaim rt st target (.resolved response)).state.items = st.items ∧
        ∃ message,
          (deleteClaim rt st target (.resolved response)).calls = [.onError "Error" message]) ∧
      (deleteClaim rt st target .rejected).state.items = st.items ∧
      ∃ message, (deleteClaim rt st target .rejected).calls = [.onError "Error" message]) ∧
    (∀ (st : ManagerState PolicyForm),
      (∀ response : Response, response.ok = true → (∀ item ∈ st.items, item ≠ .null) →
        (deletePolicy rt st target (.resolved response)).state.items
          = st.items.filter (fun item => !rt.strictEq (itemId item) target)) ∧
      (∀ response : Response, response.ok = false →
        (deletePolicy rt st target (.resolved response)).state.items = st.items ∧
        ∃ message,
          (deletePolicy rt st target (.resolved response)).calls = [.onError "Error" message]) ∧
      (deletePolicy rt st target .rejected).state.items = st.items ∧
      ∃ message, (deletePolicy rt st target .rejected).calls = [.onError "Error" message]) ∧
    (∀ (st : ManagerState RegulationForm),
      (∀ response : Response, response.ok = true → (∀ item ∈ st.items, item ≠ .null) →
        (deleteRegulation rt st target (.resolved response)).state.items
          = st.items.filter (fun item => !rt.strictEq (itemId item) target)) ∧
      (∀ response : Response, response.ok = false →
        (deleteRegulation rt st target (.resolved response)).state.items = st.items ∧
        ∃ message,
          (deleteRegulation rt st target (.resolved response)).calls
            = [.onError "Error" message]) ∧
      (deleteRegulation rt st target .rejected).state.items = st.items ∧
      ∃ message, (deleteRegulation rt st target .rejected).calls = [.onError "Error" message]) := by
  refine ⟨fun st => ?_, fun st => ?_, fun st => ?_⟩
  · obtain ⟨h1, h2, h3, h4⟩ := deleteItem_spec rt claimDelete st target
    exact ⟨fun r hok hi => (h1 r hok hi).1,
      fun r hok => ⟨by rw [deleteClaim, (h2 r hok).1], _, (h2 r hok).2⟩,
      by rw [deleteClaim, h3], _, h4⟩
  · obtain ⟨h1, h2, h3, h4⟩ := deleteItem_spec rt policyDelete st target
    exact ⟨fun r hok hi => (h1 r hok hi).1,
      fun r hok => ⟨by rw [deletePolicy, (h2 r hok).1], _, (h2 r hok).2⟩,
      by rw [deletePolicy, h3], _, h4⟩
  · obtain ⟨h1, h2, h3, h4⟩ := deleteItem_spec rt regulationDelete st target
    exact ⟨fun r hok hi => (h1 r hok hi).1,
      fun r hok => ⟨by rw [deleteRegulation, (h2 r hok).1], _, (h2 r hok).2⟩,
      by rw [deleteRegulation, h3], _, h4⟩

/-- Witness of C27: deleting the id 'a' from the claims with the ids 'a', 'b', 'a' leaves the
claim 'b'. -/
theorem delete_frame_witness :
    (deleteClaim sampleBuiltins
      ⟨[.obj [("id".toList, .str "a".toList)], .obj [("id".toList, .str "b".toList)],
        .obj [("id".toList, .str "a".toList)]], false, false, false, ⟨[], [], [], []⟩⟩
      (some (.str "a".toList)) (.resolved ⟨204, none⟩)).state.items
      = [.obj [("id".toList, .str "b".toList)]] :=
  ((delete_frame sampleBuiltins (some (.str "a".toList))).1
    ⟨[.obj [("id".toList, .str "a".toList)], .obj [("id".toList, .str "b".toList)],
      .obj [("id".toList, .str "a".toList)]], false, false, false, ⟨[], [], [], []⟩⟩).1
    ⟨204, none⟩ (by decide) (by
      intro item hitem
      simp only [List.mem_cons, List.mem_singleton, List.not_mem_nil, or_false] at hitem
      rcases hitem with rfl | rfl | rfl <;> simp)

/-! ## The colour of a line of business -/

/-- The values of `getLobBadgeColor` on the strings that are not a key of `colors`. -/
theorem getLobBadgeColor_other (lob : JsString)
    (h : lob ∉ ["auto".toList, "home".toList, "health".toList, "life".toList,
      "commercial".toList, "travel".toList]) :
    (lob ∉ objectPrototypeKeys → getLobBadgeColor lob = .color "gray") ∧
    (lob ∈ objectPrototypeKeys → getLobBadgeColor lob = .inherited lob) := by
  simp only [List.mem_cons, List.mem_singleton, List.not_mem_nil, or_false, not_or] at h
  obtain ⟨h1, h2, h3, h4, h5, h6⟩ := h
  have hlook : lobColors.lookup lob = none := by
    simp only [lobColors, List.lookup, beq_eq_false_iff_ne.mpr h1, beq_eq_false_iff_ne.mpr h2,
      beq_eq_false_iff_ne.mpr h3, beq_eq_false_iff_ne.mpr h4, beq_eq_false_iff_ne.mpr h5,
      beq_eq_false_iff_ne.mpr h6]
  unfold getLobBadgeColor
  rw [hlook]
  exact ⟨fun hn => by simp only [hn, if_false], fun hm => by simp only [hm, if_true]⟩

/-- C28 at a failing input: for the lob string 'constructor', `getLobBadgeColor` returns the
value that `colors` inherits from `Object.prototype`, not 'gray'; on the six lines of business
it returns the six pairwise distinct colours blue, green, red, purple, orange, teal, and on a
string such as 'boat' it returns 'gray'. -/
theorem getLobBadgeColor_inherited :
    getLobBadgeColor "constructor".toList = .inherited "constructor".toList ∧
    getLobBadgeColor "constructor".toList ≠ .color "gray" ∧
    ["auto".toList, "home".toList, "health".toList, "life".toList, "commercial".toList,
      "travel".toList].map getLobBadgeColor
      = [.color "blue", .color "green", .color "red", .color "purple", .color "orange",
        .color "teal"] ∧
    [BadgeColor.color "blue", .color "green", .color "red", .color "purple", .color "orange",
      .color "teal"].Nodup ∧
    getLobBadgeColor "boat".toList = .color "gray" := by
  decide

/-! ## The call monitor: the claims -/

/-- The counter is the length of the log and the ids of the log are 1, 2, ..., and both are
kept by a call of either function. -/
theorem runMonitor_invariant (ops : List MonitorOp) (st : MonitorState)
    (hcount : st.apiCallCount = st.apiCallLog.length)
    (hids : st.apiCallLog.map (fun call => call.id)
      = (List.range st.apiCallLog.length).map (fun i => i + 1)) :
    (runMonitor st ops).apiCallCount = (runMonitor st ops).apiCallLog.length ∧
    (runMonitor st ops).apiCallLog.map (fun call => call.id)
      = (List.range (runMonitor st ops).apiCallLog.length).map (fun i => i + 1) := by
  induction ops generalizing st with
  | nil => exact ⟨hcount, hids⟩
  | cons op rest ih =>
    have hstep : runMonitor st (op :: rest) = runMonitor (MonitorOp.apply st op) rest := rfl
    rw [hstep]
    cases op with
    | reset => exact ih (resetApiCallLog st) rfl rfl
    | monitor url method now title =>
      apply ih
      · simp only [MonitorOp.apply, monitorApiCall, List.length_append, List.length_singleton,
          hcount]
      · simp only [MonitorOp.apply, monitorApiCall, List.map_append, List.map_cons, List.map_nil,
          List.length_append, List.length_singleton, List.range_succ, hids, hcount]

/-- C29: after every finite sequence of calls of `monitorApiCall` and `resetApiCallLog` from
the state of the loaded module, `apiCallCount` is the length of `apiCallLog` and the ids of
the log are 1, 2, ... in order (the entry at 0-based position i has id i + 1); a further
`monitorApiCall` appends the entry it returns, whose id is the new count; and a
`monitorApiCall` that follows a `resetApiCallLog` returns id 1. -/
theorem monitor_ids (ops : List MonitorOp) (url : JsString) (method : Option JsString)
    (now title : JsString) :
    (runMonitor MonitorState.initial ops).apiCallCount
      = (runMonitor MonitorState.initial ops).apiCallLog.length ∧
    (runMonitor MonitorState.initial ops).apiCallLog.map (fun call => call.id)
      = (List.range (runMonitor MonitorState.initial ops).apiCallLog.length).map
          (fun i => i + 1) ∧
    (monitorApiCall (runMonitor MonitorState.initial ops) url method now title).1.apiCallLog
      = (runMonitor MonitorState.initial ops).apiCallLog
        ++ [(monitorApiCall (runMonitor MonitorState.initial ops) url method now title).2] ∧
    (monitorApiCall (runMonitor MonitorState.initial ops) url method now title).1.apiCallCount
      = (runMonitor MonitorState.initial ops).apiCallCount + 1 ∧
    (monitorApiCall (runMonitor MonitorState.initial ops) url method now title).2.id
      = (monitorApiCall (runMonitor MonitorState.initial ops) url method now title).1.apiCallCount ∧
    (monitorApiCall (resetApiCallLog (runMonitor MonitorState.initial ops))
      url method now title).2.id = 1 ∧
    (runMonitor MonitorState.initial
      (ops ++ [.reset, .monitor url method now title])).apiCallLog.map (fun call => call.id)
      = [1] := by
  obtain ⟨h1, h2⟩ := runMonitor_invariant ops MonitorState.initial rfl rfl
  refine ⟨h1, h2, rfl, rfl, rfl, rfl, ?_⟩
  simp only [runMonitor, List.foldl_append, List.foldl_cons, List.foldl_nil, MonitorOp.apply,
    resetApiCallLog, monitorApiCall, List.nil_append, List.map_cons, List.map_nil, zero_add]

/-- The elements of a set built from a list. -/
theorem setElements_foldl (xs acc : List JsString) (hacc : acc.Nodup) :
    (xs.foldl (fun acc x => if x ∈ acc then acc else acc ++ [x]) acc).Nodup ∧
    ∀ x, x ∈ xs.foldl (fun acc x => if x ∈ acc then acc else acc ++ [x]) acc
      ↔ x ∈ acc ∨ x ∈ xs := by
  induction xs generalizing acc with
  | nil => exact ⟨hacc, fun x => by simp⟩
  | cons y ys ih =>
    rw [List.foldl_cons]
    by_cases hy : y ∈ acc
    · rw [if_pos hy]
      refine ⟨(ih acc hacc).1, fun x => ?_⟩
      rw [(ih acc hacc).2 x, List.mem_cons]
      constructor
      · rintro (h | h)
        · exact Or.inl h
        · exact Or.inr (Or.inr h)
      · rintro (h | h | h)
        · exact Or.inl h
        · exact Or.inl (h ▸ hy)
        · exact Or.inr h
    · rw [if_neg hy]
      have hnodup : (acc ++ [y]).Nodup := by
        rw [List.nodup_append]
        refine ⟨hacc, List.nodup_singleton y, ?_⟩
        intro a ha hb
        rw [List.mem_singleton] at hb
        exact hy (hb ▸ ha)
      refine ⟨(ih _ hnodup).1, fun x => ?_⟩
      rw [(ih _ hnodup).2 x, List.mem_append, List.mem_singleton, List.mem_cons]
      tauto

theorem setElements_length (xs : List JsString) :
    (setElements xs).length = xs.dedup.length := by
  obtain ⟨hnodup, hmem⟩ := setElements_foldl xs [] List.nodup_nil
  unfold setElements
  apply List.Perm.length_eq
  apply (List.perm_ext_iff_of_nodup hnodup (List.nodup_dedup xs)).mpr
  intro x
  have := hmem x
  simp only [List.not_mem_nil, false_or] at this
  rw [List.mem_dedup]
  exact this

theorem dedup_length_eq_iff {α : Type} [DecidableEq α] (xs : List α) :
    xs.dedup.length = xs.length ↔ xs.Nodup := by
  constructor
  · intro h
    have := (List.dedup_sublist xs).eq_of_length h
    rw [← this]
    exact List.nodup_dedup xs
  · intro h
    rw [h.dedup]

/-- Two lists that a function maps one onto the other, injectively on the first, have as
many distinct elements. -/
theorem dedup_length_map_on {α β : Type} [DecidableEq α] [DecidableEq β] (f : α → β)
    (xs : List α) (h : ∀ x ∈ xs, ∀ y ∈ xs, f x = f y → x = y) :
    (xs.map f).dedup.length = xs.dedup.length := by
  have hnodup : (xs.dedup.map f).Nodup := by
    apply List.Nodup.map_on _ (List.nodup_dedup xs)
    intro x hx y hy hxy
    exact h x (List.mem_dedup.mp hx) y (List.mem_dedup.mp hy) hxy
  have hperm : (xs.map f).dedup.Perm (xs.dedup.map f) := by
    rw [List.perm_ext_iff_of_nodup (List.nodup_dedup _) hnodup]
    intro b
    simp only [List.mem_dedup, List.mem_map]
  rw [hperm.length_eq, List.length_map]

/-- A string is cut in one way only at a separator that its second part does not hold. -/
theorem append_sep_inj (c : Char) (a b a' b' : List Char) (hb : c ∉ b) (hb' : c ∉ b')
    (h : a ++ c :: b = a' ++ c :: b') : a = a' ∧ b = b' := by
  rcases List.append_eq_append_iff.mp h with ⟨t, h1, h2⟩ | ⟨t, h1, h2⟩
  · cases t with
    | nil =>
      simp only [List.append_nil, List.nil_append, List.cons.injEq, true_and] at h1 h2
      exact ⟨h1.symm, h2⟩
    | cons x t =>
      simp only [List.cons_append, List.cons.injEq] at h2
      exact absurd (h2.2 ▸ List.mem_append_right t (List.mem_cons_self c b')) hb
  · cases t with
    | nil =>
      simp only [List.append_nil, List.nil_append, List.cons.injEq, true_and] at h1 h2
      exact ⟨h1, h2.symm⟩
    | cons x t =>
      simp only [List.cons_append, List.cons.injEq] at h2
      exact absurd (h2.2 ▸ List.mem_append_right t (List.mem_cons_self c b)) hb'

theorem callKey_inj (c d : CallInfo) (hc : '-' ∉ c.method) (hd : '-' ∉ d.method)
    (h : callKey c = callKey d) : (c.url, c.method) = (d.url, d.method) := by
  unfold callKey at h
  have h' : c.url ++ '-' :: c.method = d.url ++ '-' :: d.method := by
    simpa using h
  obtain ⟨h1, h2⟩ := append_sep_inj '-' _ _ _ _ hc hd h'
  rw [h1, h2]

/-- C30 at a failing input: the calls with url 'a-b', method 'c' and url 'a', method 'b-c'
are two distinct (url, method) pairs, so the number of calls minus the number of distinct
pairs is 0 and no pair was logged twice, but `getApiCallStats` reports `duplicateCalls` 1:
the two pairs have the same key 'a-b-c'. -/
theorem duplicateCalls_counterexample :
    (getApiCallStats (runMonitor MonitorState.initial
      [.monitor "a-b".toList (some "c".toList) "t".toList "app".toList,
       .monitor "a".toList (some "b-c".toList) "t".toList "app".toList])).duplicateCalls = 1 ∧
    (((runMonitor MonitorState.initial
      [.monitor "a-b".toList (some "c".toList) "t".toList "app".toList,
       .monitor "a".toList (some "b-c".toList) "t".toList "app".toList]).apiCallLog.length : Int)
      - (((runMonitor MonitorState.initial
      [.monitor "a-b".toList (some "c".toList) "t".toList "app".toList,
       .monitor "a".toList (some "b-c".toList) "t".toList "app".toList]).apiCallLog.map
        (fun call => (call.url, call.method))).dedup.length : Int) = 0) ∧
    ((runMonitor MonitorState.initial
      [.monitor "a-b".toList (some "c".toList) "t".toList "app".toList,
       .monitor "a".toList (some "b-c".toList) "t".toList "app".toList]).apiCallLog.map
        (fun call => (call.url, call.method))).Nodup := by
  decide

/-- What `getApiCallStats` computes, and where it is the count of duplicate pairs: for every
call log, `duplicateCalls` is the number of logged calls minus the number of distinct keys
`url-method` among them; when no logged method contains the character '-', the key
determines the pair, so `duplicateCalls` is the number of logged calls minus the number of
distinct (url, method) pairs, and it is 0 exactly when no pair was logged twice. -/
theorem duplicateCalls_counts (st : MonitorState) :
    (getApiCallStats st).duplicateCalls
      = (st.apiCallLog.length : Int) - ((st.apiCallLog.map callKey).dedup.length : Int) ∧
    ((getApiCallStats st).duplicateCalls = 0 ↔ (st.apiCallLog.map callKey).Nodup) ∧
    ((∀ call ∈ st.apiCallLog, '-' ∉ call.method) →
      (getApiCallStats st).duplicateCalls
        = (st.apiCallLog.length : Int)
          - (((st.apiCallLog.map (fun call => (call.url, call.method))).dedup.length : Nat) : Int) ∧
      ((getApiCallStats st).duplicateCalls = 0
        ↔ (st.apiCallLog.map (fun call => (call.url, call.method))).Nodup)) := by
  have hdup : (getApiCallStats st).duplicateCalls
      = (st.apiCallLog.length : Int) - ((st.apiCallLog.map callKey).dedup.length : Int) := by
    simp only [getApiCallStats, setElements_length]
  have hzero : ∀ {α : Type} [DecidableEq α] (f : CallInfo → α),
      ((st.apiCallLog.length : Int) - ((st.apiCallLog.map f).dedup.length : Int) = 0
        ↔ (st.apiCallLog.map f).Nodup) := by
    intro α _ f
    rw [← dedup_length_eq_iff, List.length_map]
    omega
  refine ⟨hdup, ?_, ?_⟩
  · rw [hdup]
    exact hzero callKey
  · intro hmethod
    have hlen : (st.apiCallLog.map callKey).dedup.length
        = (st.apiCallLog.map (fun call => (call.url, call.method))).dedup.length := by
      have hkey : st.apiCallLog.map callKey
          = (st.apiCallLog.map (fun call => (call.url, call.method))).map
              (fun p => p.1 ++ "-".toList ++ p.2) := by
        rw [List.map_map]
        rfl
      rw [hkey]
      apply dedup_length_map_on
      intro p hp q hq hpq
      obtain ⟨c, hc, rfl⟩ := List.mem_map.mp hp
      obtain ⟨d, hd, rfl⟩ := List.mem_map.mp hq
      exact callKey_inj c d (hmethod c hc) (hmethod d hd) hpq
    rw [hdup, hlen]
    exact ⟨rfl, hzero _⟩

/-- An example with methods that hold no '-': of three calls, two of them
`GET /api/claims/`, one is a duplicate. -/
theorem duplicateCalls_counts_witness :
    (∀ call ∈ (runMonitor MonitorState.initial
        [.monitor "/api/claims/".toList none "t".toList "app".toList,
         .monitor "/api/claims/".toList (some "POST".toList) "t".toList "app".toList,
         .monitor "/api/claims/".toList (some "GET".toList) "u".toList "app".toList]).apiCallLog,
      '-' ∉ call.method) ∧
    (getApiCallStats (runMonitor MonitorState.initial
        [.monitor "/api/claims/".toList none "t".toList "app".toList,
         .monitor "/api/claims/".toList (some "POST".toList) "t".toList "app".toList,
         .monitor "/api/claims/".toList (some "GET".toList) "u".toList "app".toList])).duplicateCalls
      = 1 :=
  ⟨by decide,
   ((duplicateCalls_counts (runMonitor MonitorState.initial
        [.monitor "/api/claims/".toList none "t".toList "app".toList,
         .monitor "/api/claims/".toList (some "POST".toList) "t".toList "app".toList,
         .monitor "/api/claims/".toList (some "GET".toList) "u".toList "app".toList])).2.2
      (by decide)).1.trans (by decide)⟩

end CrudAssignment
